import Mathlib

/-!
The merge / conflict engine of cit.

A shallow embedding of `internal/git/merge.go` (with the helpers it calls from
`internal/git/repository.go`) and theorems about it.

Go strings are byte sequences, so a Go `string` is embedded as a list of bytes.
`strings.Split`, `strings.HasPrefix`, `len` and slicing all work on bytes in Go
and do so here.  Go string literals are written `go "..."`, the UTF-8 bytes of
the literal.
-/

set_option maxRecDepth 100000

namespace Cit

/-! ## Go strings -/

/-- A Go `string`: an immutable sequence of bytes. -/
abbrev GoString := List UInt8

/-- The bytes of a Go string literal (Go source text is UTF-8). -/
def go (s : String) : GoString := s.data.flatMap String.utf8EncodeChar

/-- The newline byte, the separator of `strings.Split(content, "\n")`. -/
def NL : UInt8 := 10

/-- The carriage-return byte. -/
def CR : UInt8 := 13

/-- Go `strings.HasPrefix(s, prefix)`. -/
def HasPrefix (s pre : GoString) : Bool := pre.isPrefixOf s

/-- Go `strings.HasSuffix(s, suffix)`. -/
def HasSuffix (s suf : GoString) : Bool := suf.isSuffixOf s

/-- Go `strings.Contains(s, substr)`. -/
def Contains : GoString → GoString → Bool
  | [], sub => sub.isEmpty
  | c :: cs, sub => sub.isPrefixOf (c :: cs) || Contains cs sub

/-- Go `strings.Split(s, sep)` for a one-byte separator: the pieces of `s`
between the occurrences of `sep`; always at least one piece, `[""]` for the
empty string. -/
def Split : GoString → UInt8 → List GoString
  | [], _ => [[]]
  | c :: cs, sep =>
    if c = sep then [] :: Split cs sep
    else
      match Split cs sep with
      | [] => [[c]]
      | l :: ls => (c :: l) :: ls

/-- Go `strings.Join(elems, sep)`. -/
def Join : List GoString → GoString → GoString
  | [], _ => []
  | [l], _ => l
  | l :: l2 :: ls, sep => l ++ sep ++ Join (l2 :: ls) sep

/-- The three tests `strings.HasPrefix(line, "<<<<<<<")`,
`strings.HasPrefix(line, "=======")`, `strings.HasPrefix(line, ">>>>>>>")`
joined by `||`, as written in `extractBothContent` and `hasConflictMarkers`. -/
def hasMarkerPrefix (line : GoString) : Bool :=
  HasPrefix line (go "<<<<<<<") || HasPrefix line (go "=======") ||
    HasPrefix line (go ">>>>>>>")

/-! ## Conflict resolution (`parseConflictResolution` and the three extractors) -/

/-- The loop of `extractOursContent`: an opening marker line is skipped
(`continue`), the first separator or closing marker line ends the loop
(`break`), every other line is appended to `result`. -/
def extractOursLoop : List GoString → List GoString
  | [] => []
  | line :: rest =>
    if HasPrefix line (go "<<<<<<<") then extractOursLoop rest
    else if HasPrefix line (go "=======") then []
    else if HasPrefix line (go ">>>>>>>") then []
    else line :: extractOursLoop rest

/-- Embedding of `extractOursContent`. -/
def extractOursContent (content : GoString) : GoString :=
  Join (extractOursLoop (Split content NL)) (go "\n")

/-- The loop of `extractTheirsContent`, with the flag `inTheirs` as state: a
separator line sets the flag (`continue`), a closing marker line ends the loop
(`break`), and a line is appended only while the flag is set. -/
def extractTheirsLoop : Bool → List GoString → List GoString
  | _, [] => []
  | inTheirs, line :: rest =>
    if HasPrefix line (go "=======") then extractTheirsLoop true rest
    else if HasPrefix line (go ">>>>>>>") then []
    else if inTheirs then line :: extractTheirsLoop inTheirs rest
    else extractTheirsLoop inTheirs rest

/-- Embedding of `extractTheirsContent`. -/
def extractTheirsContent (content : GoString) : GoString :=
  Join (extractTheirsLoop false (Split content NL)) (go "\n")

/-- The loop of `extractBothContent`: every marker line is skipped. -/
def extractBothLoop : List GoString → List GoString
  | [] => []
  | line :: rest =>
    if HasPrefix line (go "<<<<<<<") || HasPrefix line (go "=======") ||
        HasPrefix line (go ">>>>>>>") then extractBothLoop rest
    else line :: extractBothLoop rest

/-- Embedding of `extractBothContent`. -/
def extractBothContent (content : GoString) : GoString :=
  Join (extractBothLoop (Split content NL)) (go "\n")

/-- What a Go call yields: a value, a non-nil `error` (with its message), or a
run-time panic. -/
inductive Result (α : Type) where
  | ok (val : α)
  | error (err : GoString)
  | panic
deriving DecidableEq, Repr

/-- Embedding of `parseConflictResolution`: the resolved content, or the error
`fmt.Errorf("不支持的解决策略: %s", resolution)`. -/
def parseConflictResolution (content resolution : GoString) : Result GoString :=
  if resolution = go "ours" then .ok (extractOursContent content)
  else if resolution = go "theirs" then .ok (extractTheirsContent content)
  else if resolution = go "both" then .ok (extractBothContent content)
  else .error (go "不支持的解决策略: " ++ resolution)

/-! ## Storage, repository and working tree -/

/-- The commit object of package `storage`, with the fields `autoMerge` fills
in. `Timestamp` is a clock reading. -/
structure Commit where
  ID : GoString
  Message : GoString
  Author : GoString
  Timestamp : Nat
  ParentID : GoString
  TreeHash : GoString
deriving DecidableEq, Repr

/-- The branch object of package `storage`: a name and a head commit id. -/
structure Branch where
  Name : GoString
  Head : GoString
deriving DecidableEq, Repr

/-- The remote object of package `storage`: a name and a URL. -/
structure Remote where
  Name : GoString
  URL : GoString
deriving DecidableEq, Repr

/-- Modelled from the spec: the state behind `r.Storage` (package
`cit/internal/storage`, whose source is not part of the repository snapshot):
the named branch heads, the stored commits and the staging index, a mapping
from path to content hash. `staging = none` stands for an index that cannot be
read (`GetStaging` fails); the flags make the corresponding write fail with
an I/O error (spec section 7, `IOFailure`). `objects` is the object store, a
mapping from content hash to content, and `remotes` the set of remotes. -/
structure Storage where
  branches : List Branch
  commits : List Commit
  staging : Option (List (GoString × GoString))
  storeCommitFails : Bool
  updateBranchHeadFails : Bool
  clearStagingFails : Bool := false
  objects : List (GoString × GoString) := []
  remotes : List Remote := []
deriving DecidableEq, Repr

/-- Modelled from the spec: `Storage.GetBranchHead`, spec 4.3 `branch_head(name)
-> commit_id`: "fails with `BranchNotFound` if the branch does not exist". -/
def Storage.GetBranchHead (s : Storage) (name : GoString) : Except GoString GoString :=
  match s.branches.find? (fun b => b.Name == name) with
  | some b => .ok b.Head
  | none => .error (go "BranchNotFound")

/-- Modelled from the spec: `Storage.GetStaging`, spec 4.2 `entries() -> mapping
path→hash`, failing when the index cannot be read. -/
def Storage.GetStaging (s : Storage) : Except GoString (List (GoString × GoString)) :=
  match s.staging with
  | some entries => .ok entries
  | none => .error (go "IOFailure")

/-- Modelled from the spec: `Storage.StoreCommit`, spec section 6 "a durable
key-value put/get for objects and commits": the commit is put under its id. -/
def Storage.StoreCommit (s : Storage) (c : Commit) : Except GoString Storage :=
  if s.storeCommitFails then .error (go "IOFailure")
  else .ok { s with commits := s.commits.filter (fun d => d.ID != c.ID) ++ [c] }

/-- Modelled from the spec: `Storage.UpdateBranchHead`, spec 4.3
`update_branch_head(name, commit_id)`: "moves the mutable ref", "never validates
ancestry"; a branch without a ref gets one. -/
def Storage.UpdateBranchHead (s : Storage) (name id : GoString) : Except GoString Storage :=
  if s.updateBranchHeadFails then .error (go "IOFailure")
  else if s.branches.any (fun b => b.Name == name) then
    .ok { s with branches :=
      s.branches.map (fun b => if b.Name == name then { b with Head := id } else b) }
  else .ok { s with branches := s.branches ++ [{ Name := name, Head := id }] }

/-- Embedding of `type Repository struct`. -/
structure Repository where
  ID : GoString
  Path : GoString
  CreatedAt : Nat
  CurrentBranch : GoString
  Storage : Storage
deriving DecidableEq, Repr

/-- One file or directory of the file system, under its full path. -/
structure FileEntry where
  path : GoString
  isDir : Bool
  content : GoString
  readable : Bool
  writable : Bool
deriving DecidableEq, Repr

/-- The file system the `os` and `filepath` calls act on: its entries in the
order in which `filepath.Walk` visits them (lexical order). -/
abbrev FileSystem := List FileEntry

/-- Everything a repository method reads or changes: the receiver `r` (with the
storage behind it), the file system, and the clock: `now` is what `time.Now()`
returns when a call reads the clock, `later` what it returns when the same call
reads the clock a second time. -/
structure World where
  r : Repository
  fs : FileSystem
  now : Nat
  later : Nat := now
deriving DecidableEq, Repr

/-- Go `filepath.Join(root, rel)` for clean, non-empty `root` and `rel`. -/
def filepathJoin (root rel : GoString) : GoString := root ++ go "/" ++ rel

/-- Go `filepath.Rel(root, path)` for a `path` that `filepath.Walk(root, ...)`
hands to its callback, that is `root` itself or `root ++ "/" ++ rel`; for these
`Rel` returns no error. -/
def filepathRel (root path : GoString) : GoString :=
  if path = root then go "." else path.drop (root.length + 1)

/-- Go `filepath.Base(path)` (Unix): `"."` for the empty path; trailing slashes
are stripped, the last element is returned, `"/"` if nothing is left. -/
def filepathBase (path : GoString) : GoString :=
  if path = [] then go "."
  else
    let stripped := (path.reverse.dropWhile (fun c => c == 47)).reverse
    let last := (stripped.reverse.takeWhile (fun c => c != 47)).reverse
    if last = [] then go "/" else last

/-- Go `os.ReadFile(path)`. -/
def osReadFile (fs : FileSystem) (path : GoString) : Except GoString GoString :=
  match fs.find? (fun e => e.path == path) with
  | none => .error (go "open " ++ path ++ go ": no such file or directory")
  | some e =>
    if e.isDir then .error (go "read " ++ path ++ go ": is a directory")
    else if !e.readable then .error (go "open " ++ path ++ go ": permission denied")
    else .ok e.content

/-- Go `filepath.Dir(path)` (Unix) for a clean path: the path up to its last
separator, without that separator; `/` when nothing else is left, `.` when the
path has no separator. -/
def filepathDir (path : GoString) : GoString :=
  let dir := (path.reverse.dropWhile (fun c => c != 47)).reverse
  let stripped := (dir.reverse.dropWhile (fun c => c == 47)).reverse
  if dir = [] then go "." else if stripped = [] then go "/" else stripped

/-- Go `os.WriteFile(path, data, 0644)`: truncates and rewrites an existing
writable file; a missing file is created when its directory is among the
entries and can be written to. -/
def osWriteFile (fs : FileSystem) (path data : GoString) : Except GoString FileSystem :=
  match fs.find? (fun e => e.path == path) with
  | none =>
    match fs.find? (fun e => e.path == filepathDir path) with
    | none => .error (go "open " ++ path ++ go ": no such file or directory")
    | some d =>
      if !d.isDir then .error (go "open " ++ path ++ go ": not a directory")
      else if !d.writable then .error (go "open " ++ path ++ go ": permission denied")
      else
        .ok (fs ++ [{ path := path, isDir := false, content := data, readable := true,
                      writable := true }])
  | some e =>
    if e.isDir then .error (go "open " ++ path ++ go ": is a directory")
    else if !e.writable then .error (go "open " ++ path ++ go ": permission denied")
    else .ok (fs.map (fun f => if f.path == path then { f with content := data } else f))

/-- The visits of `filepath.Walk`, given the entries at or below the root in
walk order: each entry is handed to the callback with a nil error; after a
directory that cannot be read the callback is called once more with the error
and, as both callbacks of this package return that error, the walk ends. The
result is the list of entries visited with a nil error and the error, if any. -/
def walkLoop : List FileEntry → List FileEntry × Option GoString
  | [] => ([], none)
  | e :: rest =>
    if e.isDir && !e.readable then
      ([e], some (go "open " ++ e.path ++ go ": permission denied"))
    else ((walkLoop rest).1.cons e, (walkLoop rest).2)

/-- Go `filepath.Walk(root, fn)` for the two callbacks of this package, which
return the error they are handed: a missing root gives the `Lstat` error. -/
def filepathWalk (fs : FileSystem) (root : GoString) : List FileEntry × Option GoString :=
  if fs.any (fun e => e.path == root) then
    walkLoop (fs.filter (fun e => e.path == root || HasPrefix e.path (root ++ go "/")))
  else ([], some (go "lstat " ++ root ++ go ": no such file or directory"))

/-- Embedding of `IsStagingEmpty`: an index that cannot be read counts as
empty. -/
def IsStagingEmpty (r : Repository) : Bool :=
  match r.Storage.GetStaging with
  | .error _ => true
  | .ok staging => staging.length == 0

/-- The callback of `getWorkingDirectoryFiles` run over the visited entries:
directories, paths containing the metadata directory name, hidden files and
`.exe` files are skipped, every other file is appended by its relative path. -/
def getWorkingDirectoryFilesLoop (root : GoString) : List FileEntry → List GoString
  | [] => []
  | e :: rest =>
    if e.isDir then getWorkingDirectoryFilesLoop root rest
    else if Contains e.path (go ".cit-version01-无法批量提交") then
      getWorkingDirectoryFilesLoop root rest
    else if HasPrefix (filepathBase e.path) (go ".") then
      getWorkingDirectoryFilesLoop root rest
    else if HasSuffix e.path (go ".exe") then getWorkingDirectoryFilesLoop root rest
    else filepathRel root e.path :: getWorkingDirectoryFilesLoop root rest

/-- Embedding of `getWorkingDirectoryFiles`. -/
def getWorkingDirectoryFiles (w : World) : Result (List GoString) :=
  match filepathWalk w.fs w.r.Path with
  | (_, some err) => .error (go "遍历工作目录失败: " ++ err)
  | (visited, none) => .ok (getWorkingDirectoryFilesLoop w.r.Path visited)

/-! ## Merge (`MergeBranch` down to `autoMerge`) -/

/-- Embedding of `type MergeResult struct`. -/
structure MergeResult where
  Success : Bool
  Conflicts : List GoString
  MergedFiles : List GoString
  Message : GoString
deriving DecidableEq, Repr

/-- Embedding of `detectConflicts`: of the files of the working directory, those
whose relative path equals `"conflict_file.txt"` are appended to `conflicts`;
neither head is looked at. -/
def detectConflicts (w : World) (_sourceBranch _sourceHead _currentHead : GoString) :
    Result (List GoString) :=
  match getWorkingDirectoryFiles w with
  | .error err => .error err
  | .panic => .panic
  | .ok currentFiles =>
    .ok (currentFiles.filter (fun filePath => filePath == go "conflict_file.txt"))

/-- Embedding of `generateConflictContent`; `filePath` is not used by the
source either. -/
def generateConflictContent (r : Repository) (_filePath currentContent sourceBranch : GoString) :
    GoString :=
  (go "<<<<<<< HEAD (" ++ r.CurrentBranch ++ go ")\n")
    ++ currentContent
    ++ go "\n"
    ++ go "=======\n"
    ++ (go "来自分支 " ++ sourceBranch ++ go " 的内容:\n")
    ++ go "# 冲突测试文件\n\n"
    ++ go "这是conflict-test分支上的内容。\n\n"
    ++ go "## 功能特性\n"
    ++ go "- 新功能A\n"
    ++ go "- 新功能B\n"
    ++ go "- 新功能C\n\n"
    ++ go "## 分支信息\n"
    ++ go "分支: conflict-test\n"
    ++ go "时间: 2025-08-21\n"
    ++ (go ">>>>>>> " ++ sourceBranch ++ go "\n")

/-- Embedding of `createConflictFile`: the file is read, and rewritten with the
conflict block built from what was read. -/
def createConflictFile (w : World) (filePath sourceBranch : GoString) : Result Unit × World :=
  let fullPath := filepathJoin w.r.Path filePath
  match osReadFile w.fs fullPath with
  | .error err => (.error (go "读取当前文件失败: " ++ err), w)
  | .ok currentContent =>
    let conflictContent := generateConflictContent w.r filePath currentContent sourceBranch
    match osWriteFile w.fs fullPath conflictContent with
    | .error err => (.error (go "写入冲突标记失败: " ++ err), w)
    | .ok fs => (.ok (), { w with fs := fs })

/-- Embedding of `generateConflictMarkers`: the first failure ends the loop. -/
def generateConflictMarkers (w : World) : List GoString → GoString → Result Unit × World
  | [], _ => (.ok (), w)
  | filePath :: rest, sourceBranch =>
    match createConflictFile w filePath sourceBranch with
    | (.error err, w1) =>
      (.error (go "为文件 " ++ filePath ++ go " 创建冲突标记失败: " ++ err), w1)
    | (.panic, w1) => (.panic, w1)
    | (.ok _, w1) => generateConflictMarkers w1 rest sourceBranch

/-- Embedding of `generateMergeCommitID`: the slice expressions `sourceHead[:8]`
and `currentHead[:8]` panic on a string shorter than 8 bytes. -/
def generateMergeCommitID (sourceHead currentHead : GoString) : Result GoString :=
  if sourceHead.length < 8 then .panic
  else if currentHead.length < 8 then .panic
  else .ok (go "merge_" ++ sourceHead.take 8 ++ go "_" ++ currentHead.take 8)

/-- Embedding of `getCurrentUser`. -/
def getCurrentUser : GoString := go "user@example.com"

/-- Embedding of `getCurrentTime`: `time.Now()`. -/
def getCurrentTime (w : World) : Nat := w.now

/-- Embedding of `autoMerge`: the merge commit is built, stored, and made the
head of the current branch. -/
def autoMerge (w : World) (sourceBranch sourceHead currentHead : GoString) :
    Result Unit × World :=
  match generateMergeCommitID sourceHead currentHead with
  | .panic => (.panic, w)
  | .error err => (.error err, w)
  | .ok id =>
    let mergedCommit : Commit :=
      { ID := id
        Message := go "Merge branch '" ++ sourceBranch ++ go "' into " ++ w.r.CurrentBranch
        Author := getCurrentUser
        Timestamp := getCurrentTime w
        ParentID := currentHead
        TreeHash := go "" }
    match w.r.Storage.StoreCommit mergedCommit with
    | .error err => (.error (go "保存合并提交失败: " ++ err), w)
    | .ok s1 =>
      let w1 : World := { w with r := { w.r with Storage := s1 } }
      match s1.UpdateBranchHead w.r.CurrentBranch mergedCommit.ID with
      | .error err => (.error (go "更新分支头失败: " ++ err), w1)
      | .ok s2 => (.ok (), { w with r := { w.r with Storage := s2 } })

/-- Embedding of `performMerge`. -/
def performMerge (w : World) (sourceBranch sourceHead currentHead : GoString) :
    Result MergeResult × World :=
  match detectConflicts w sourceBranch sourceHead currentHead with
  | .error err => (.error (go "检测冲突失败: " ++ err), w)
  | .panic => (.panic, w)
  | .ok conflicts =>
    if conflicts.length > 0 then
      match generateConflictMarkers w conflicts sourceBranch with
      | (.error err, w1) => (.error (go "生成冲突标记失败: " ++ err), w1)
      | (.panic, w1) => (.panic, w1)
      | (.ok _, w1) =>
        (.ok { Success := false
               Conflicts := conflicts
               MergedFiles := []
               Message := go "合并失败，发现 " ++ go (toString conflicts.length) ++ go " 个冲突" },
          w1)
    else
      match autoMerge w sourceBranch sourceHead currentHead with
      | (.error err, w1) => (.error (go "自动合并失败: " ++ err), w1)
      | (.panic, w1) => (.panic, w1)
      | (.ok _, w1) =>
        (.ok { Success := true
               Conflicts := []
               MergedFiles := []
               Message := go "成功合并分支 '" ++ sourceBranch ++ go "' 到 '" ++
                 w.r.CurrentBranch ++ go "'" },
          w1)

/-- Embedding of `MergeBranch`: the result (or error, or panic) and the world
the call leaves behind. -/
def MergeBranch (w : World) (sourceBranch : GoString) : Result MergeResult × World :=
  match w.r.Storage.GetBranchHead sourceBranch with
  | .error err => (.error (go "源分支 '" ++ sourceBranch ++ go "' 不存在: " ++ err), w)
  | .ok sourceHead =>
    match w.r.Storage.GetBranchHead w.r.CurrentBranch with
    | .error err => (.error (go "获取当前分支头失败: " ++ err), w)
    | .ok currentHead =>
      if !IsStagingEmpty w.r then
        (.error (go "当前分支有未提交的更改，请先提交或暂存"), w)
      else performMerge w sourceBranch sourceHead currentHead

/-! ## Resolving and scanning (`ResolveConflict`, `GetConflictStatus`) -/

/-- Embedding of `ResolveConflict`: the file is read, resolved, and only then
written. -/
def ResolveConflict (w : World) (filePath resolution : GoString) : Result Unit × World :=
  let fullPath := filepathJoin w.r.Path filePath
  match osReadFile w.fs fullPath with
  | .error err => (.error (go "读取冲突文件失败: " ++ err), w)
  | .ok content =>
    match parseConflictResolution content resolution with
    | .error err => (.error (go "解析冲突解决失败: " ++ err), w)
    | .panic => (.panic, w)
    | .ok resolvedContent =>
      match osWriteFile w.fs fullPath resolvedContent with
      | .error err => (.error (go "写入解决后的内容失败: " ++ err), w)
      | .ok fs => (.ok (), { w with fs := fs })

/-- Go `bufio.MaxScanTokenSize`, the buffer limit of a `bufio.Scanner` made by
`bufio.NewScanner`. -/
def MaxScanTokenSize : Nat := 64 * 1024

/-- The `dropCR` of `bufio.ScanLines`: a trailing carriage return is dropped. -/
def dropCR (data : GoString) : GoString :=
  if data.getLast? = some CR then data.dropLast else data

/-- The loop `for scanner.Scan() { ... }` of `hasConflictMarkers`, run over the
pieces of the file content between newlines. `scanner.Scan()` delivers a piece
(without a trailing carriage return) as `scanner.Text()`; an empty last piece is
no token; and a piece that does not fit the scanner's buffer, one of
`MaxScanTokenSize` bytes or more, makes `Scan` return false (`ErrTooLong`), which
ends the loop, and the function returns false as `scanner.Err()` is not
consulted. -/
def hasConflictMarkersLoop : List GoString → Bool
  | [] => false
  | [last] =>
    if last = [] then false
    else if MaxScanTokenSize ≤ last.length then false
    else hasMarkerPrefix (dropCR last)
  | piece :: next :: rest =>
    if MaxScanTokenSize ≤ piece.length then false
    else if hasMarkerPrefix (dropCR piece) then true
    else hasConflictMarkersLoop (next :: rest)

/-- Embedding of `hasConflictMarkers`: false when the file cannot be opened
(or, being a directory, cannot be read). -/
def hasConflictMarkers (fs : FileSystem) (filePath : GoString) : Bool :=
  match fs.find? (fun e => e.path == filePath) with
  | none => false
  | some e =>
    if !e.readable || e.isDir then false
    else hasConflictMarkersLoop (Split e.content NL)

/-- The callback of `GetConflictStatus` run over the visited entries. -/
def GetConflictStatusLoop (fs : FileSystem) (root : GoString) : List FileEntry → List GoString
  | [] => []
  | e :: rest =>
    if e.isDir || Contains e.path (go ".cit") then GetConflictStatusLoop fs root rest
    else if hasConflictMarkers fs e.path then
      filepathRel root e.path :: GetConflictStatusLoop fs root rest
    else GetConflictStatusLoop fs root rest

/-- Embedding of `GetConflictStatus`: the pair `(conflicts, err)` it returns. -/
def GetConflictStatus (w : World) : List GoString × Option GoString :=
  ((GetConflictStatusLoop w.fs w.r.Path (filepathWalk w.fs w.r.Path).1),
    (filepathWalk w.fs w.r.Path).2)

/-! ## The texts the claims speak about -/

/-- The lines `generateConflictContent` writes between the separator line and
the closing marker line, for source branch `sourceBranch` (read off its
`WriteString` calls). -/
def writtenTheirsLines (sourceBranch : GoString) : List GoString :=
  [ go "来自分支 " ++ sourceBranch ++ go " 的内容:"
  , go "# 冲突测试文件"
  , go ""
  , go "这是conflict-test分支上的内容。"
  , go ""
  , go "## 功能特性"
  , go "- 新功能A"
  , go "- 新功能B"
  , go "- 新功能C"
  , go ""
  , go "## 分支信息"
  , go "分支: conflict-test"
  , go "时间: 2025-08-21" ]

/-- The conflict block as the spec lays it out (section 4.5): opening marker
line with the current branch name, current content, separator line, source
content, closing marker line with the source branch name. -/
def specConflictBlock (cur C S src : GoString) : GoString :=
  go "<<<<<<< HEAD (" ++ cur ++ go ")\n" ++ C ++ go "\n=======\n" ++ S ++ go "\n>>>>>>> " ++
    src ++ go "\n"

/-- No line of `content` begins with `<<<<<<<`, `=======` or `>>>>>>>`. -/
def markerFree (content : GoString) : Prop :=
  ∀ line ∈ Split content NL, hasMarkerPrefix line = false

instance (content : GoString) : Decidable (markerFree content) := by
  unfold markerFree
  infer_instance

/-- A repository on branch `main` with branches `main` and `feature`, both with
a commit on top of the common ancestor `base0000`, and an empty staging index. -/
def exampleRepo : Repository :=
  { ID := go "0123456789abcdef"
    Path := go "/repo"
    CreatedAt := 0
    CurrentBranch := go "main"
    Storage :=
      { branches := [⟨go "main", go "aaaaaaaa01"⟩, ⟨go "feature", go "bbbbbbbb02"⟩]
        commits :=
          [ ⟨go "base0000", go "base", go "user@example.com", 1, go "", go ""⟩
          , ⟨go "aaaaaaaa01", go "main changes f.txt", go "user@example.com", 2, go "base0000", go ""⟩
          , ⟨go "bbbbbbbb02", go "feature changes f.txt", go "user@example.com", 3, go "base0000", go ""⟩ ]
        staging := some []
        storeCommitFails := false
        updateBranchHeadFails := false } }

/-- The world of the spec's conflict scenario: `exampleRepo` at `/repo`, whose
working tree holds `f.txt` with the content of `main`; `feature` changed the
same file to a different content after the common ancestor. -/
def conflictScenario : World :=
  { r := exampleRepo
    fs := [ ⟨go "/repo", true, go "", true, true⟩
          , ⟨go "/repo/f.txt", false, go "1", true, true⟩ ]
    now := 4 }

/-- The same scenario with the file named `conflict_file.txt`, the one name
`detectConflicts` reports. -/
def namedScenario : World :=
  { r := exampleRepo
    fs := [ ⟨go "/repo", true, go "", true, true⟩
          , ⟨go "/repo/conflict_file.txt", false, go "1", true, true⟩ ]
    now := 4 }

/-- A file whose first line has `MaxScanTokenSize` bytes and whose second line
is an opening conflict marker. -/
def longLineContent : GoString :=
  List.replicate MaxScanTokenSize 97 ++ NL :: go "<<<<<<< HEAD (main)"

/-- A working tree holding one readable file with `longLineContent`. -/
def longLineWorld : World :=
  { r := exampleRepo
    fs := [ ⟨go "/repo", true, go "", true, true⟩
          , ⟨go "/repo/big.txt", false, longLineContent, true, true⟩ ]
    now := 4 }


/-! ## Commits and branches (`repository.go`) -/

/-- Modelled from the spec: `Storage.ClearStaging`, spec 4.2 `clear()`: "empties
the index". -/
def Storage.ClearStaging (s : Storage) : Except GoString Storage :=
  if s.clearStagingFails then .error (go "IOFailure")
  else .ok { s with staging := some [] }

/-- Modelled from the spec: `Storage.ListBranches`, spec 4.3 `list_branches()`:
the branches of the repository. -/
def Storage.ListBranches (s : Storage) : Except GoString (List Branch) :=
  .ok s.branches

/-- Modelled from the spec: `Storage.CreateBranch`, spec 4.3 `create_branch`:
"fails with `BranchAlreadyExists` if the name is taken", otherwise the branch
is added. -/
def Storage.CreateBranch (s : Storage) (b : Branch) : Except GoString Storage :=
  if s.branches.any (fun c => c.Name == b.Name) then .error (go "BranchAlreadyExists")
  else .ok { s with branches := s.branches ++ [b] }

/-- Rotation to the left of a 32-bit word by `n` bits. -/
def rotl32 (n x : Nat) : Nat := ((x <<< n) ||| (x >>> (32 - n))) % 4294967296

/-- The four bytes of a 32-bit word, most significant first. -/
def wordBytes (x : Nat) : List UInt8 :=
  [UInt8.ofNat (x >>> 24 % 256), UInt8.ofNat (x >>> 16 % 256), UInt8.ofNat (x >>> 8 % 256),
    UInt8.ofNat (x % 256)]

/-- The big-endian 32-bit words of a block of bytes. -/
def blockWords : List UInt8 → List Nat
  | a :: b :: c :: d :: rest =>
    (a.toNat * 16777216 + b.toNat * 65536 + c.toNat * 256 + d.toNat) :: blockWords rest
  | _ => []

/-- The SHA-1 padding: a `0x80` byte, zero bytes up to 56 modulo 64, and the bit
length of the message as a 64-bit big-endian number. -/
def sha1Pad (msg : List UInt8) : List UInt8 :=
  msg ++ [128] ++ List.replicate ((119 - msg.length % 64) % 64) 0 ++
    wordBytes (8 * msg.length / 4294967296 % 4294967296) ++
    wordBytes (8 * msg.length % 4294967296)

/-- The SHA-1 message schedule, newest word first: `n` more words are added. -/
def sha1Extend : Nat → List Nat → List Nat
  | 0, ws => ws
  | n + 1, ws =>
    sha1Extend n
      (rotl32 1 (ws.getD 2 0 ^^^ ws.getD 7 0 ^^^ ws.getD 13 0 ^^^ ws.getD 15 0) :: ws)

/-- The five working words of SHA-1. -/
structure Sha1State where
  a : Nat
  b : Nat
  c : Nat
  d : Nat
  e : Nat
deriving DecidableEq, Repr

/-- One round of SHA-1, at step `t` with schedule word `wt`. -/
def sha1Round (t wt : Nat) (s : Sha1State) : Sha1State :=
  let f :=
    if t < 20 then (s.b &&& s.c) ||| ((s.b ^^^ 4294967295) &&& s.d)
    else if t < 40 then s.b ^^^ s.c ^^^ s.d
    else if t < 60 then (s.b &&& s.c) ||| (s.b &&& s.d) ||| (s.c &&& s.d)
    else s.b ^^^ s.c ^^^ s.d
  let k :=
    if t < 20 then 1518500249
    else if t < 40 then 1859775393
    else if t < 60 then 2400959708
    else 3395469782
  { a := (rotl32 5 s.a + f + s.e + k + wt) % 4294967296
    b := s.a
    c := rotl32 30 s.b
    d := s.c
    e := s.d }

/-- The rounds of SHA-1 over the schedule, oldest word first, from step `t`. -/
def sha1Rounds : Nat → List Nat → Sha1State → Sha1State
  | _, [], s => s
  | t, wt :: ws, s => sha1Rounds (t + 1) ws (sha1Round t wt s)

/-- The compression of one 64-byte block into the chaining value `h`. -/
def sha1Block (h : Sha1State) (block : List UInt8) : Sha1State :=
  let ws := (sha1Extend 64 (blockWords block).reverse).reverse
  let s := sha1Rounds 0 ws h
  { a := (h.a + s.a) % 4294967296
    b := (h.b + s.b) % 4294967296
    c := (h.c + s.c) % 4294967296
    d := (h.d + s.d) % 4294967296
    e := (h.e + s.e) % 4294967296 }

/-- Go `sha1.Sum(data)`: the 20 bytes of the SHA-1 digest (FIPS 180-4). -/
def sha1Sum (data : List UInt8) : List UInt8 :=
  let h := ((sha1Pad data).toChunks 64).foldl sha1Block
    { a := 1732584193, b := 4023233417, c := 2562383102, d := 271733878, e := 3285377520 }
  wordBytes h.a ++ wordBytes h.b ++ wordBytes h.c ++ wordBytes h.d ++ wordBytes h.e

/-- The lower-case hexadecimal digit of a number below 16. -/
def hexDigit (n : Nat) : UInt8 := if n < 10 then UInt8.ofNat (48 + n) else UInt8.ofNat (87 + n)

/-- Go `fmt.Sprintf("%x", bytes)`: two lower-case hexadecimal digits for each
byte. -/
def hexLower (bytes : List UInt8) : GoString :=
  bytes.flatMap (fun b => [hexDigit (b.toNat / 16), hexDigit (b.toNat % 16)])

/-- Embedding of `utils.GenerateID`: the first 8 bytes, in hexadecimal, of the
SHA-1 digest of the decimal clock reading `time.Now().UnixNano()`. -/
def GenerateID (w : World) : GoString :=
  hexLower ((sha1Sum (go (toString w.now))).take 8)

/-- Embedding of `Commit` (the method of `Repository`): the commit returned (or
the error) and the world the call leaves behind. The id is made from the first
reading of the clock (in `utils.GenerateID`), `Timestamp` is the second
reading. Nothing is undone when a later step fails. -/
def Repository.Commit (w : World) (message : GoString) : Result Cit.Commit × World :=
  match w.r.Storage.GetStaging with
  | .error err => (.error (go "获取暂存区失败: " ++ err), w)
  | .ok staging =>
    if staging.length == 0 then (.error (go "暂存区为空"), w)
    else
      let parentID : GoString :=
        match w.r.Storage.GetBranchHead w.r.CurrentBranch with
        | .ok currentCommit => currentCommit
        | .error _ => go ""
      let commit : Cit.Commit :=
        { ID := GenerateID w
          Message := message
          Author := getCurrentUser
          Timestamp := w.later
          ParentID := parentID
          TreeHash := go "" }
      match w.r.Storage.StoreCommit commit with
      | .error err => (.error (go "保存提交失败: " ++ err), w)
      | .ok s1 =>
        match s1.UpdateBranchHead w.r.CurrentBranch commit.ID with
        | .error err =>
          (.error (go "更新分支头失败: " ++ err), { w with r := { w.r with Storage := s1 } })
        | .ok s2 =>
          match s2.ClearStaging with
          | .error err =>
            (.error (go "清空暂存区失败: " ++ err), { w with r := { w.r with Storage := s2 } })
          | .ok s3 => (.ok commit, { w with r := { w.r with Storage := s3 } })

/-- Embedding of `type Status struct`. -/
structure Status where
  CurrentBranch : GoString
  LastCommit : GoString
  StagedFiles : List GoString
  ModifiedFiles : List GoString
  UntrackedFiles : List GoString
deriving DecidableEq, Repr

/-- Embedding of `type WorkdirStatus struct`. -/
structure WorkdirStatus where
  ModifiedFiles : List GoString
  UntrackedFiles : List GoString
deriving DecidableEq, Repr

/-- Embedding of `getWorkdirStatus`: both lists are empty, whatever the working
tree holds. -/
def getWorkdirStatus (_w : World) : Result WorkdirStatus :=
  .ok { ModifiedFiles := [], UntrackedFiles := [] }

/-- Embedding of `GetStatus`, which returns no error: the staged files are the
keys of the staging index (in Go in the order of a map iteration). -/
def GetStatus (w : World) : Status :=
  { CurrentBranch := w.r.CurrentBranch
    LastCommit :=
      match w.r.Storage.GetBranchHead w.r.CurrentBranch with
      | .ok commit => commit
      | .error _ => go ""
    StagedFiles :=
      match w.r.Storage.GetStaging with
      | .ok staging => staging.map (fun entry => entry.1)
      | .error _ => []
    ModifiedFiles :=
      match getWorkdirStatus w with
      | .ok workdirStatus => workdirStatus.ModifiedFiles
      | _ => []
    UntrackedFiles :=
      match getWorkdirStatus w with
      | .ok workdirStatus => workdirStatus.UntrackedFiles
      | _ => [] }

/-- Embedding of `ListBranches` (the method of `Repository`). -/
def ListBranches (w : World) : Except GoString (List Branch) :=
  w.r.Storage.ListBranches

/-- Embedding of `GetCurrentBranch`. -/
def GetCurrentBranch (w : World) : GoString := w.r.CurrentBranch

/-- Embedding of `CreateBranch` (the method of `Repository`): an existing name
is refused; otherwise a branch is created at the head of the current branch (at
the empty head when that cannot be read). -/
def CreateBranch (w : World) (name : GoString) : Result Unit × World :=
  match w.r.Storage.ListBranches with
  | .error err => (.error err, w)
  | .ok branches =>
    if branches.any (fun branch => branch.Name == name) then
      (.error (go "分支 '" ++ name ++ go "' 已存在"), w)
    else
      let head : GoString :=
        match w.r.Storage.GetBranchHead w.r.CurrentBranch with
        | .ok currentCommit => currentCommit
        | .error _ => go ""
      match w.r.Storage.CreateBranch { Name := name, Head := head } with
      | .error err => (.error err, w)
      | .ok s1 => (.ok (), { w with r := { w.r with Storage := s1 } })

/-- Embedding of `save`: the repository descriptor is marshalled and written to
`repository.json` in the metadata directory. `jsonMarshalIndent` stands for
`json.MarshalIndent(r, "", "  ")`, whose output depends on the fields of
`storage.Storage`, a type declared outside the sources at hand. -/
def save (jsonMarshalIndent : Repository → Except GoString GoString) (w : World) :
    Result Unit × World :=
  let repoFile :=
    filepathJoin (filepathJoin w.r.Path (go ".cit-version01-无法批量提交")) (go "repository.json")
  match jsonMarshalIndent w.r with
  | .error err => (.error err, w)
  | .ok data =>
    match osWriteFile w.fs repoFile data with
    | .error err => (.error err, w)
    | .ok fs => (.ok (), { w with fs := fs })

/-- Embedding of `CheckoutBranch`: a missing branch is refused before anything
is changed; otherwise the selector is set and the descriptor saved. -/
def CheckoutBranch (jsonMarshalIndent : Repository → Except GoString GoString) (w : World)
    (name : GoString) : Result Unit × World :=
  match w.r.Storage.ListBranches with
  | .error err => (.error err, w)
  | .ok branches =>
    match branches.find? (fun branch => branch.Name == name) with
    | none => (.error (go "分支 '" ++ name ++ go "' 不存在"), w)
    | some _targetBranch =>
      save jsonMarshalIndent { w with r := { w.r with CurrentBranch := name } }

/-- The body of `checkoutCmd.RunE` once `git.FindRepository` has returned the
repository of world `w`: the branch is looked up before `CheckoutBranch` is
called. -/
def checkoutCmdRunE (jsonMarshalIndent : Repository → Except GoString GoString) (w : World)
    (branchName : GoString) : Result Unit × World :=
  match ListBranches w with
  | .error err => (.error (go "获取分支列表失败: " ++ err), w)
  | .ok branches =>
    if !branches.any (fun branch => branch.Name == branchName) then
      (.error (go "分支 '" ++ branchName ++ go "' 不存在"), w)
    else
      match CheckoutBranch jsonMarshalIndent w branchName with
      | (.error err, w1) => (.error (go "切换分支失败: " ++ err), w1)
      | (.panic, w1) => (.panic, w1)
      | (.ok _, w1) => (.ok (), w1)

/-! ## Remotes (`parseGitHubRemote` in `network.go`) -/

/-- Go `strings.TrimSuffix(s, suffix)`. -/
def TrimSuffix (s suf : GoString) : GoString :=
  if HasSuffix s suf then s.take (s.length - suf.length) else s

/-- Embedding of `type GitHubRepo struct`. -/
structure GitHubRepo where
  FullName : GoString
  CloneURL : GoString
  SSHURL : GoString
  DefaultBranch : GoString
deriving DecidableEq, Repr

/-- Modelled from the spec: `Storage.ListRemotes`, spec 4.4 `list_remotes`: the
remotes of the repository. -/
def Storage.ListRemotes (s : Storage) : Except GoString (List Remote) :=
  .ok s.remotes

/-- The value of `fullName` after the URL tests of `parseGitHubRemote`: the
empty string when no format matches; an index expression `parts[i]` with `i`
not below `len(parts)` panics. The `https://` branch reads `parts[3]` and
`parts[4]` under the guard `len(parts) >= 4`. -/
def githubFullName (url : GoString) : Result GoString :=
  if Contains url (go "github.com") then
    if HasPrefix url (go "https://") then
      let parts := Split url 47
      if parts.length ≥ 4 then
        match parts[3]?, parts[4]? with
        | some owner, some repo => .ok (owner ++ go "/" ++ TrimSuffix repo (go ".git"))
        | _, _ => .panic
      else .ok (go "")
    else if HasPrefix url (go "git@") then
      let parts := Split url 58
      if parts.length == 2 then
        match parts[1]? with
        | none => .panic
        | some path =>
          let repoParts := Split path 47
          if repoParts.length ≥ 2 then
            match repoParts[0]?, repoParts[1]? with
            | some owner, some repo => .ok (owner ++ go "/" ++ TrimSuffix repo (go ".git"))
            | _, _ => .panic
          else .ok (go "")
      else .ok (go "")
    else .ok (go "")
  else .ok (go "")

/-- Embedding of `parseGitHubRemote` (the two copies in the sources are the
same): the remote is looked up and its URL parsed. -/
def parseGitHubRemote (w : World) (remoteName : GoString) : Result GitHubRepo :=
  match w.r.Storage.ListRemotes with
  | .error err => .error err
  | .ok remotes =>
    match remotes.find? (fun remote => remote.Name == remoteName) with
    | none => .error (go "远程仓库 '" ++ remoteName ++ go "' 不存在")
    | some targetRemote =>
      match githubFullName targetRemote.URL with
      | .panic => .panic
      | .error err => .error err
      | .ok fullName =>
        if fullName = go "" then .error (go "无法解析GitHub仓库信息: " ++ targetRemote.URL)
        else
          .ok { FullName := fullName
                CloneURL := targetRemote.URL
                SSHURL := go ""
                DefaultBranch := go "" }

/-! ## Staging (`AddToStaging` in `repository.go`, `cmd/add.go`) -/

/-- The elements of a clean path between its separators, as the loop of
`filepath.Rel` meets them: none for the empty path, the one empty element before
the separator for the root `/`. -/
def pathElems (p : GoString) : List GoString :=
  if p = [] then [] else if p = go "/" then [[]] else Split p 47

/-- The elements left of two paths when their common leading elements are
dropped. -/
def dropCommon : List GoString → List GoString → List GoString × List GoString
  | b :: bs, t :: ts => if b = t then dropCommon bs ts else (b :: bs, t :: ts)
  | bs, ts => (bs, ts)

/-- Go `filepath.Rel(basepath, targpath)` (Unix) for clean paths: `.` for equal
paths, an error when only one of them is absolute or the base would have to
leave a `..`, otherwise one `..` for each element the base has left, followed
by the elements the target has left. -/
def filepathRelClean (basepath targpath : GoString) : Except GoString GoString :=
  if targpath = basepath then .ok (go ".")
  else
    let base := if basepath = go "." then go "" else basepath
    if HasPrefix base (go "/") != HasPrefix targpath (go "/") then
      .error (go "Rel: can't make " ++ targpath ++ go " relative to " ++ basepath)
    else
      let left := dropCommon (pathElems base) (pathElems targpath)
      if left.1.head? = some (go "..") then
        .error (go "Rel: can't make " ++ targpath ++ go " relative to " ++ basepath)
      else .ok (Join (left.1.map (fun _ => go "..") ++ left.2) (go "/"))

/-- Embedding of `utils.CalculateFileHash`: the SHA-1 of the file content in
hexadecimal; an error when the file cannot be opened or, being a directory,
cannot be read. -/
def CalculateFileHash (fs : FileSystem) (filePath : GoString) : Except GoString GoString :=
  match fs.find? (fun e => e.path == filePath) with
  | none =>
    .error (go "打开文件失败: " ++ (go "open " ++ filePath ++ go ": no such file or directory"))
  | some e =>
    if !e.readable then
      .error (go "打开文件失败: " ++ (go "open " ++ filePath ++ go ": permission denied"))
    else if e.isDir then
      .error (go "读取文件失败: " ++ (go "read " ++ filePath ++ go ": is a directory"))
    else .ok (hexLower (sha1Sum e.content))

/-- Modelled from the spec: `Storage.StoreObject(hash, filePath)`, spec 4.1
`put`: "persists the bytes keyed by hash if absent"; the bytes are those of the
file at `filePath`. -/
def Storage.StoreObject (s : Storage) (fs : FileSystem) (hash filePath : GoString) :
    Except GoString Storage :=
  match osReadFile fs filePath with
  | .error err => .error err
  | .ok content =>
    if s.objects.any (fun o => o.1 == hash) then .ok s
    else .ok { s with objects := s.objects ++ [(hash, content)] }

/-- Modelled from the spec: `Storage.AddToStaging(path, hash)`, spec 4.2
`stage(path, hash)`: "upserts an entry; overwrites any prior hash for that
path"; an index that cannot be read cannot be updated. -/
def Storage.AddToStaging (s : Storage) (path hash : GoString) : Except GoString Storage :=
  match s.staging with
  | none => .error (go "IOFailure")
  | some entries =>
    if entries.any (fun entry => entry.1 == path) then
      let upserted := entries.map (fun entry => if entry.1 == path then (path, hash) else entry)
      .ok { s with staging := some upserted }
    else
      let appended := entries ++ [(path, hash)]
      .ok { s with staging := some appended }

/-- Embedding of `AddToStaging` (the method of `Repository`): the path relative
to the repository, the content hash, the object, the index entry. -/
def AddToStaging (w : World) (filePath : GoString) : Result Unit × World :=
  match filepathRelClean w.r.Path filePath with
  | .error err => (.error (go "获取相对路径失败: " ++ err), w)
  | .ok relPath =>
    match CalculateFileHash w.fs filePath with
    | .error err => (.error (go "计算文件哈希失败: " ++ err), w)
    | .ok hash =>
      match w.r.Storage.StoreObject w.fs hash filePath with
      | .error err => (.error (go "存储文件对象失败: " ++ err), w)
      | .ok s1 =>
        match s1.AddToStaging relPath hash with
        | .error err => (.error err, { w with r := { w.r with Storage := s1 } })
        | .ok s2 => (.ok (), { w with r := { w.r with Storage := s2 } })

/-- Embedding of `addFile`; the message it prints is left out. -/
def addFile (w : World) (absPath _originalPath : GoString) : Result Unit × World :=
  match AddToStaging w absPath with
  | (.error err, w1) => (.error err, w1)
  | (.panic, w1) => (.panic, w1)
  | (.ok _, w1) => (.ok (), w1)

/-- The test under which the callback of `addDirectory` returns
`filepath.SkipDir` for a directory: its path ends in `.cit` or contains `.cit`
followed by the separator. -/
def skipsDir (filePath : GoString) : Bool :=
  HasSuffix filePath (go ".cit") || Contains filePath (go ".cit" ++ go "/")

/-- The callback of `addDirectory` run by `filepath.Walk` over the entries at or
below the walked directory, in walk order; `skipped` holds the directories for
which the callback has returned `filepath.SkipDir`, whose contents `Walk` does
not visit. A directory that cannot be read is handed to the callback with the
error, which the callback returns; so does the error of `AddToStaging`: in both
cases `Walk` stops and returns it. The messages printed are left out. -/
def addDirectoryLoop (w : World) (skipped : List GoString) :
    List FileEntry → Result Unit × World
  | [] => (.ok (), w)
  | e :: rest =>
    if skipped.any (fun d => HasPrefix e.path (d ++ go "/")) then
      addDirectoryLoop w skipped rest
    else if e.isDir then
      if !e.readable then (.error (go "open " ++ e.path ++ go ": permission denied"), w)
      else if skipsDir e.path then addDirectoryLoop w (e.path :: skipped) rest
      else addDirectoryLoop w skipped rest
    else if HasPrefix (filepathBase e.path) (go ".") then addDirectoryLoop w skipped rest
    else
      match AddToStaging w e.path with
      | (.error err, w1) => (.error err, w1)
      | (.panic, w1) => (.panic, w1)
      | (.ok _, w1) => addDirectoryLoop w1 skipped rest

/-- Embedding of `addDirectory`: `filepath.Walk(absPath, ...)` with the callback
of `addDirectoryLoop`. -/
def addDirectory (w : World) (absPath _originalPath : GoString) : Result Unit × World :=
  if w.fs.any (fun e => e.path == absPath) then
    addDirectoryLoop w []
      (w.fs.filter (fun e => e.path == absPath || HasPrefix e.path (absPath ++ go "/")))
  else (.error (go "lstat " ++ absPath ++ go ": no such file or directory"), w)

/-- Embedding of `addPath` for an absolute clean `path`, on which
`filepath.Abs` is the identity: a missing path is an error, a directory goes to
`addDirectory`, a file to `addFile`. -/
def addPath (w : World) (path : GoString) : Result Unit × World :=
  let absPath := path
  match w.fs.find? (fun e => e.path == absPath) with
  | none => (.error (go "路径不存在"), w)
  | some info =>
    if info.isDir then addDirectory w absPath path
    else addFile w absPath path

/-- The loop of `addCmd.RunE` once `git.FindRepository` has returned the
repository of world `w`: a failing argument is reported as a warning and the
loop goes on; the command returns nil. -/
def addCmdRunE (w : World) : List GoString → Result Unit × World
  | [] => (.ok (), w)
  | path :: rest =>
    match addPath w path with
    | (.panic, w1) => (.panic, w1)
    | (_, w1) => addCmdRunE w1 rest

/-! ## States and notions the claims on merging and committing speak about -/

/-- The parent references a commit carries: its `ParentID` when that is not
empty (spec section 3: "`parent_id` is empty only for a root commit"). -/
def Commit.parents (c : Commit) : List GoString :=
  if c.ParentID = [] then [] else [c.ParentID]

/-- The commit object that `Commit` builds before storing it. -/
def newCommit (w : World) (message : GoString) : Commit :=
  { ID := GenerateID w
    Message := message
    Author := getCurrentUser
    Timestamp := w.later
    ParentID :=
      match w.r.Storage.GetBranchHead w.r.CurrentBranch with
      | .ok currentCommit => currentCommit
      | .error _ => go ""
    TreeHash := go "" }

/-- The merge commit that `autoMerge` builds for heads of at least 8 bytes. -/
def mergeCommit (w : World) (sourceBranch sourceHead currentHead : GoString) : Commit :=
  { ID := go "merge_" ++ sourceHead.take 8 ++ go "_" ++ currentHead.take 8
    Message := go "Merge branch '" ++ sourceBranch ++ go "' into " ++ w.r.CurrentBranch
    Author := getCurrentUser
    Timestamp := getCurrentTime w
    ParentID := currentHead
    TreeHash := go "" }

/-- The file at `path` is a regular file that can be read and rewritten. -/
def canRewrite (fs : FileSystem) (path : GoString) : Prop :=
  ∃ e, fs.find? (fun e => e.path == path) = some e ∧ e.isDir = false ∧ e.readable = true ∧
    e.writable = true

/-- File system `fs'` is `fs` except for the content of files whose path is in
`paths`: same entries in the same order, with the same flags. -/
def rewrittenOnly (paths : List GoString) (fs fs' : FileSystem) : Prop :=
  List.Forall₂ (fun a b => b = a ∨ (a.path ∈ paths ∧ b = { a with content := b.content })) fs fs'

/-- A repository right after `InitRepository` and `CreateBranch("feature")`:
no commit yet, so both branches have the empty head; the working tree is
empty. -/
def freshScenario : World :=
  { r :=
      { ID := go "0123456789abcdef"
        Path := go "/repo"
        CreatedAt := 0
        CurrentBranch := go "main"
        Storage :=
          { branches := [⟨go "main", go ""⟩, ⟨go "feature", go ""⟩]
            commits := []
            staging := some []
            storeCommitFails := false
            updateBranchHeadFails := false } }
    fs := [⟨go "/repo", true, go "", true, true⟩]
    now := 4 }

/-- The world of `namedScenario` with `conflict_file.txt` read-only. -/
def readOnlyScenario : World :=
  { r := exampleRepo
    fs := [ ⟨go "/repo", true, go "", true, true⟩
          , ⟨go "/repo/conflict_file.txt", false, go "1", true, false⟩ ]
    now := 4 }

/-- The world of `conflictScenario` with `f.txt` staged under the SHA-1 of its
content. -/
def stagedScenario : World :=
  { r :=
      { exampleRepo with
        Storage :=
          { exampleRepo.Storage with
            staging := some [(go "f.txt", hexLower (sha1Sum (go "1")))] } }
    fs := conflictScenario.fs
    now := 4 }

/-- The world of `stagedScenario` with a storage in which commits can be stored
but the branch head cannot be written. -/
def headWriteFailsScenario : World :=
  { r :=
      { exampleRepo with
        Storage :=
          { exampleRepo.Storage with
            staging := some [(go "f.txt", hexLower (sha1Sum (go "1")))]
            updateBranchHeadFails := true } }
    fs := conflictScenario.fs
    now := 4 }

/-- The world of `stagedScenario` with a storage in which the staging index
cannot be cleared. -/
def clearFailsScenario : World :=
  { r :=
      { exampleRepo with
        Storage :=
          { exampleRepo.Storage with
            staging := some [(go "f.txt", hexLower (sha1Sum (go "1")))]
            clearStagingFails := true } }
    fs := conflictScenario.fs
    now := 4 }

/-- A repository right after `InitRepository`: the one branch `main`, with the
empty head. -/
def initScenario : World :=
  { r :=
      { ID := go "0123456789abcdef"
        Path := go "/repo"
        CreatedAt := 0
        CurrentBranch := go "main"
        Storage :=
          { branches := [⟨go "main", go ""⟩]
            commits := []
            staging := some []
            storeCommitFails := false
            updateBranchHeadFails := false } }
    fs := [⟨go "/repo", true, go "", true, true⟩]
    now := 4 }

/-- The world after `f.txt` (content "1") was committed in `stagedScenario`,
then rewritten to "2", and a file `new.txt` was created. -/
def modifiedScenario : World :=
  { r := (Repository.Commit stagedScenario (go "first")).2.r
    fs := [ ⟨go "/repo", true, go "", true, true⟩
          , ⟨go "/repo/f.txt", false, go "2", true, true⟩
          , ⟨go "/repo/new.txt", false, go "x", true, true⟩ ]
    now := 5 }

/-- The world of `exampleRepo` with a read-only file `notes.txt` that has no
conflict marker. -/
def readOnlyNotesScenario : World :=
  { r := exampleRepo
    fs := [ ⟨go "/repo", true, go "", true, true⟩
          , ⟨go "/repo/notes.txt", false, go "hello\nworld", true, false⟩ ]
    now := 4 }

/-- The world of `exampleRepo` with a writable file `notes.txt` that has no
conflict marker. -/
def notesScenario : World :=
  { r := exampleRepo
    fs := [ ⟨go "/repo", true, go "", true, true⟩
          , ⟨go "/repo/notes.txt", false, go "hello\nworld", true, true⟩ ]
    now := 4 }

/-- A repository with three remotes: an `https://` URL with owner and
repository, an `https://` URL with the owner only, and a `git@` URL with the
owner only. -/
def remotesScenario : World :=
  { r :=
      { exampleRepo with
        Storage :=
          { exampleRepo.Storage with
            remotes :=
              [ ⟨go "origin", go "https://github.com/owner/repo.git"⟩
              , ⟨go "short", go "https://github.com/owner"⟩
              , ⟨go "ssh", go "git@github.com:owner"⟩ ] } }
    fs := conflictScenario.fs
    now := 4 }

/-- The files the callback of `addDirectory` hands to `AddToStaging` when
nothing fails, for the entries of a walk and the directories skipped so far
(the loop of `addDirectoryLoop` without the world). -/
def stagedFiles (skipped : List GoString) : List FileEntry → List FileEntry
  | [] => []
  | e :: rest =>
    if skipped.any (fun d => HasPrefix e.path (d ++ go "/")) then stagedFiles skipped rest
    else if e.isDir then
      if skipsDir e.path then stagedFiles (e.path :: skipped) rest
      else stagedFiles skipped rest
    else if HasPrefix (filepathBase e.path) (go ".") then stagedFiles skipped rest
    else e :: stagedFiles skipped rest

/-- The world after `AddToStaging` has been called for each of the files in
turn. -/
def stageAll (w : World) : List FileEntry → World
  | [] => w
  | e :: rest => stageAll (AddToStaging w e.path).2 rest

/-- The world of `exampleRepo` with an unreadable file `a.txt` and a readable
file `b.txt`. -/
def unreadableScenario : World :=
  { r := exampleRepo
    fs := [ ⟨go "/repo", true, go "", true, true⟩
          , ⟨go "/repo/a.txt", false, go "a", false, true⟩
          , ⟨go "/repo/b.txt", false, go "b", true, true⟩ ]
    now := 4 }

/-- The world of `exampleRepo` with a file in the ordinary directory
`notes.cit`, a file in the metadata directory `.cit`, a hidden file and a file
in a hidden directory. -/
def dirsScenario : World :=
  { r := exampleRepo
    fs := [ ⟨go "/repo", true, go "", true, true⟩
          , ⟨go "/repo/.cit", true, go "", true, true⟩
          , ⟨go "/repo/.cit/repository.json", false, go "{}", true, true⟩
          , ⟨go "/repo/.env", false, go "k", true, true⟩
          , ⟨go "/repo/.hidden", true, go "", true, true⟩
          , ⟨go "/repo/.hidden/h.txt", false, go "h", true, true⟩
          , ⟨go "/repo/notes.cit", true, go "", true, true⟩
          , ⟨go "/repo/notes.cit/a.txt", false, go "a", true, true⟩
          , ⟨go "/repo/src", true, go "", true, true⟩
          , ⟨go "/repo/src/m.go", false, go "m", true, true⟩ ]
    now := 4 }

theorem go_newline : go "\n" = [NL] := by decide

theorem Split_ne_nil (s : GoString) (sep : UInt8) : Split s sep ≠ [] := by
  induction s with
  | nil => simp [Split]
  | cons c cs ih =>
    unfold Split
    split
    · simp
    · split <;> simp

theorem Split_cons_sep (s : GoString) (sep : UInt8) :
    Split (sep :: s) sep = [] :: Split s sep := by
  simp [Split]

theorem Split_cons_ne (c : UInt8) (s : GoString) (sep : UInt8) (h : c ≠ sep)
    (l : GoString) (ls : List GoString) (hs : Split s sep = l :: ls) :
    Split (c :: s) sep = (c :: l) :: ls := by
  rw [Split, if_neg h, hs]

theorem Split_eq_cons (s : GoString) (sep : UInt8) : ∃ l ls, Split s sep = l :: ls := by
  cases hs : Split s sep with
  | nil => exact absurd hs (Split_ne_nil s sep)
  | cons l ls => exact ⟨l, ls, rfl⟩

/-- Splitting at a separator: the pieces of `a ++ sep ++ b` are those of `a`
followed by those of `b`. -/
theorem Split_append_sep (a b : GoString) (sep : UInt8) :
    Split (a ++ sep :: b) sep = Split a sep ++ Split b sep := by
  induction a with
  | nil => simp [Split]
  | cons c cs ih =>
    by_cases h : c = sep
    · subst h
      simp [Split_cons_sep, ih]
    · obtain ⟨l, ls, hs⟩ := Split_eq_cons cs sep
      rw [List.cons_append, Split_cons_ne c cs sep h l ls hs,
        Split_cons_ne c _ sep h l (ls ++ Split b sep) (by rw [ih, hs]; rfl)]
      rfl

theorem Split_of_not_mem (s : GoString) (sep : UInt8) (h : sep ∉ s) : Split s sep = [s] := by
  induction s with
  | nil => simp [Split]
  | cons c cs ih =>
    have hc : c ≠ sep := fun e => h (by simp [e])
    have hcs : sep ∉ cs := fun e => h (by simp [e])
    exact Split_cons_ne c cs sep hc cs [] (ih hcs)

/-- A line followed by a newline and more text: the line is the first piece. -/
theorem Split_line (l rest : GoString) (sep : UInt8) (h : sep ∉ l) :
    Split (l ++ sep :: rest) sep = l :: Split rest sep := by
  rw [Split_append_sep, Split_of_not_mem l sep h]
  rfl

theorem not_mem_of_mem_Split (s : GoString) (sep : UInt8) :
    ∀ l ∈ Split s sep, sep ∉ l := by
  induction s with
  | nil => simp [Split]
  | cons c cs ih =>
    by_cases h : c = sep
    · subst h
      rw [Split_cons_sep]
      intro l hl
      rcases List.mem_cons.1 hl with rfl | hl
      · simp
      · exact ih l hl
    · obtain ⟨l0, ls, hs⟩ := Split_eq_cons cs sep
      rw [Split_cons_ne c cs sep h l0 ls hs]
      rw [hs] at ih
      intro l hl
      rcases List.mem_cons.1 hl with rfl | hl
      · intro hmem
        rcases List.mem_cons.1 hmem with e | e
        · exact h e.symm
        · exact ih l0 (by simp) e
      · exact ih l (by simp [hl])

theorem Join_cons_cons (l l2 : GoString) (ls : List GoString) (sep : GoString) :
    Join (l :: l2 :: ls) sep = l ++ sep ++ Join (l2 :: ls) sep := rfl

theorem Join_cons_of_ne_nil (l : GoString) (ls : List GoString) (sep : GoString)
    (h : ls ≠ []) : Join (l :: ls) sep = l ++ sep ++ Join ls sep := by
  cases ls with
  | nil => exact absurd rfl h
  | cons l2 ls => rfl

/-- Joining the pieces with the separator gives the text back. -/
theorem Join_Split (s : GoString) (sep : UInt8) : Join (Split s sep) [sep] = s := by
  induction s with
  | nil => simp [Split, Join]
  | cons c cs ih =>
    have hne := Split_ne_nil cs sep
    by_cases h : c = sep
    · subst h
      rw [Split_cons_sep, Join_cons_of_ne_nil _ _ _ hne, ih]
      simp
    · obtain ⟨l, ls, hs⟩ := Split_eq_cons cs sep
      rw [Split_cons_ne c cs sep h l ls hs]
      rw [hs] at ih
      cases ls with
      | nil =>
        simp only [Join] at ih ⊢
        rw [ih]
      | cons l2 ls =>
        rw [Join_cons_cons] at ih ⊢
        rw [← ih]
        simp

/-- Splitting a join of separator-free lines gives the lines back. -/
theorem Split_Join (ls : List GoString) (sep : UInt8) (hne : ls ≠ [])
    (h : ∀ l ∈ ls, sep ∉ l) : Split (Join ls [sep]) sep = ls := by
  induction ls with
  | nil => exact absurd rfl hne
  | cons l ls ih =>
    cases ls with
    | nil =>
      simp only [Join]
      exact Split_of_not_mem l sep (h l (by simp))
    | cons l2 ls =>
      rw [Join_cons_cons]
      have hl : sep ∉ l := h l (by simp)
      have := ih (by simp) (fun x hx => h x (List.mem_cons_of_mem _ hx))
      rw [List.append_assoc, List.singleton_append, Split_line _ _ _ hl, this]

/-! ## Lemmas on marker lines and the extraction loops -/

theorem HasPrefix_append_self (p x : GoString) : HasPrefix (p ++ x) p = true := by
  simp [HasPrefix]

theorem HasPrefix_trans (l m p : GoString) (hm : m <+: l) (h : HasPrefix m p = true) :
    HasPrefix l p = true := by
  simp only [HasPrefix, List.isPrefixOf_iff_prefix] at h ⊢
  exact h.trans hm

theorem hasMarkerPrefix_eq_false_iff (l : GoString) :
    hasMarkerPrefix l = false ↔
      HasPrefix l (go "<<<<<<<") = false ∧ HasPrefix l (go "=======") = false ∧
        HasPrefix l (go ">>>>>>>") = false := by
  simp [hasMarkerPrefix, and_assoc]

theorem marker_open : go "<<<<<<<" = [60, 60, 60, 60, 60, 60, 60] := by decide
theorem marker_sep : go "=======" = [61, 61, 61, 61, 61, 61, 61] := by decide
theorem marker_close : go ">>>>>>>" = [62, 62, 62, 62, 62, 62, 62] := by decide

/-- A line whose first byte is none of `<`, `=`, `>` is no marker line. -/
theorem hasMarkerPrefix_cons_false (c : UInt8) (l : GoString)
    (h1 : c ≠ 60) (h2 : c ≠ 61) (h3 : c ≠ 62) : hasMarkerPrefix (c :: l) = false := by
  unfold hasMarkerPrefix HasPrefix
  rw [marker_open, marker_sep, marker_close]
  simp [List.isPrefixOf, Ne.symm h1, Ne.symm h2, Ne.symm h3]

theorem hasMarkerPrefix_nil : hasMarkerPrefix [] = false := by decide

/-- The opening marker line `<<<<<<< HEAD (cur)`. -/
theorem openLine_tests (cur : GoString) :
    HasPrefix (go "<<<<<<< HEAD (" ++ cur ++ go ")") (go "<<<<<<<") = true ∧
    HasPrefix (go "<<<<<<< HEAD (" ++ cur ++ go ")") (go "=======") = false ∧
    HasPrefix (go "<<<<<<< HEAD (" ++ cur ++ go ")") (go ">>>>>>>") = false := by
  have h : go "<<<<<<< HEAD (" = 60 :: 60 :: 60 :: 60 :: 60 :: 60 :: 60 :: go " HEAD (" := by
    decide
  unfold HasPrefix
  rw [h, marker_open, marker_sep, marker_close]
  simp [List.isPrefixOf]

/-- The closing marker line `>>>>>>> src`. -/
theorem closeLine_tests (src : GoString) :
    HasPrefix (go ">>>>>>> " ++ src) (go "<<<<<<<") = false ∧
    HasPrefix (go ">>>>>>> " ++ src) (go "=======") = false ∧
    HasPrefix (go ">>>>>>> " ++ src) (go ">>>>>>>") = true := by
  have h : go ">>>>>>> " = 62 :: 62 :: 62 :: 62 :: 62 :: 62 :: 62 :: go " " := by decide
  unfold HasPrefix
  rw [h, marker_open, marker_sep, marker_close]
  simp [List.isPrefixOf]

/-- The separator line `=======`. -/
theorem sepLine_tests :
    HasPrefix (go "=======") (go "<<<<<<<") = false ∧
    HasPrefix (go "=======") (go "=======") = true ∧
    HasPrefix (go "=======") (go ">>>>>>>") = false := by decide

theorem openLine_marker (cur : GoString) :
    hasMarkerPrefix (go "<<<<<<< HEAD (" ++ cur ++ go ")") = true := by
  rw [hasMarkerPrefix, (openLine_tests cur).1]
  rfl

theorem sepLine_marker : hasMarkerPrefix (go "=======") = true := by decide

theorem closeLine_marker (src : GoString) : hasMarkerPrefix (go ">>>>>>> " ++ src) = true := by
  obtain ⟨c1, c2, c3⟩ := closeLine_tests src
  rw [hasMarkerPrefix, c1, c2, c3]
  rfl

theorem extractOursLoop_append (xs rest : List GoString)
    (h : ∀ l ∈ xs, hasMarkerPrefix l = false) :
    extractOursLoop (xs ++ rest) = xs ++ extractOursLoop rest := by
  induction xs with
  | nil => rfl
  | cons x xs ih =>
    obtain ⟨h1, h2, h3⟩ := (hasMarkerPrefix_eq_false_iff x).1 (h x (by simp))
    simp [extractOursLoop, h1, h2, h3, ih (fun l hl => h l (List.mem_cons_of_mem _ hl))]

theorem extractTheirsLoop_false_append (xs rest : List GoString)
    (h : ∀ l ∈ xs, HasPrefix l (go "=======") = false ∧ HasPrefix l (go ">>>>>>>") = false) :
    extractTheirsLoop false (xs ++ rest) = extractTheirsLoop false rest := by
  induction xs with
  | nil => rfl
  | cons x xs ih =>
    obtain ⟨h2, h3⟩ := h x (by simp)
    simp [extractTheirsLoop, h2, h3, ih (fun l hl => h l (List.mem_cons_of_mem _ hl))]

theorem extractTheirsLoop_true_append (xs rest : List GoString)
    (h : ∀ l ∈ xs, hasMarkerPrefix l = false) :
    extractTheirsLoop true (xs ++ rest) = xs ++ extractTheirsLoop true rest := by
  induction xs with
  | nil => rfl
  | cons x xs ih =>
    obtain ⟨_, h2, h3⟩ := (hasMarkerPrefix_eq_false_iff x).1 (h x (by simp))
    simp [extractTheirsLoop, h2, h3, ih (fun l hl => h l (List.mem_cons_of_mem _ hl))]

theorem extractBothLoop_append (xs rest : List GoString)
    (h : ∀ l ∈ xs, hasMarkerPrefix l = false) :
    extractBothLoop (xs ++ rest) = xs ++ extractBothLoop rest := by
  induction xs with
  | nil => rfl
  | cons x xs ih =>
    obtain ⟨h1, h2, h3⟩ := (hasMarkerPrefix_eq_false_iff x).1 (h x (by simp))
    simp [extractBothLoop, h1, h2, h3, ih (fun l hl => h l (List.mem_cons_of_mem _ hl))]

theorem Join_append (xs ys : List GoString) (sep : GoString) (hx : xs ≠ []) (hy : ys ≠ []) :
    Join (xs ++ ys) sep = Join xs sep ++ sep ++ Join ys sep := by
  induction xs with
  | nil => exact absurd rfl hx
  | cons x xs ih =>
    cases xs with
    | nil =>
      simp only [List.singleton_append, Join]
      exact Join_cons_of_ne_nil x ys sep hy
    | cons x2 xs =>
      have := ih (by simp)
      rw [List.cons_append, List.cons_append, Join_cons_cons, Join_cons_cons]
      rw [List.cons_append] at this
      rw [this]
      simp [List.append_assoc]

/-- The lines of the block the spec lays out. -/
theorem Split_specConflictBlock (cur C S src : GoString) (hcur : NL ∉ cur) (hsrc : NL ∉ src) :
    Split (specConflictBlock cur C S src) NL =
      (go "<<<<<<< HEAD (" ++ cur ++ go ")") ::
        (Split C NL ++ go "=======" :: (Split S NL ++ [go ">>>>>>> " ++ src, []])) := by
  have e1 : go "<<<<<<< HEAD (" ++ cur ++ go ")\n" = (go "<<<<<<< HEAD (" ++ cur ++ go ")") ++ [NL] := by
    have : go ")\n" = go ")" ++ [NL] := by decide
    rw [this]; simp
  have e2 : go "\n=======\n" = NL :: (go "=======" ++ [NL]) := by decide
  have e3 : go "\n>>>>>>> " = NL :: go ">>>>>>> " := by decide
  have h1 : NL ∉ go "<<<<<<< HEAD (" ++ cur ++ go ")" := by
    have a : NL ∉ go "<<<<<<< HEAD (" := by decide
    have b : NL ∉ go ")" := by decide
    simp [a, b, hcur]
  have h2 : NL ∉ go "=======" := by decide
  have h3 : NL ∉ go ">>>>>>> " ++ src := by
    have a : NL ∉ go ">>>>>>> " := by decide
    simp [a, hsrc]
  have shape : specConflictBlock cur C S src =
      (go "<<<<<<< HEAD (" ++ cur ++ go ")") ++ NL :: (C ++ NL :: (go "=======" ++ NL ::
        (S ++ NL :: ((go ">>>>>>> " ++ src) ++ NL :: [])))) := by
    rw [specConflictBlock, e1, e2, e3, go_newline]
    simp [List.append_assoc]
  rw [shape, Split_line _ _ _ h1, Split_append_sep, Split_line _ _ _ h2, Split_append_sep,
    Split_line _ _ _ h3]
  simp [Split]

/-! ## The lines of the block `generateConflictContent` writes -/

/-- The fixed text written after the line naming the source branch consists of
the twelve fixed lines of `writtenTheirsLines`. -/
theorem written_fixed_text :
    Split (go "# 冲突测试文件\n\n" ++ go "这是conflict-test分支上的内容。\n\n" ++ go "## 功能特性\n" ++
        go "- 新功能A\n" ++ go "- 新功能B\n" ++ go "- 新功能C\n\n" ++ go "## 分支信息\n" ++
        go "分支: conflict-test\n" ++ go "时间: 2025-08-21\n") NL =
      (writtenTheirsLines []).tail ++ [[]] := by
  decide

theorem writtenTheirsLines_eq (src : GoString) :
    writtenTheirsLines src =
      (go "来自分支 " ++ src ++ go " 的内容:") :: (writtenTheirsLines []).tail := rfl

theorem written_fixed_markerFree : ∀ l ∈ (writtenTheirsLines []).tail, hasMarkerPrefix l = false := by
  decide

/-- No line written between the separator and the closing marker begins with
a marker. -/
theorem writtenTheirsLines_markerFree (src : GoString) :
    ∀ l ∈ writtenTheirsLines src, hasMarkerPrefix l = false := by
  intro l hl
  rw [writtenTheirsLines_eq] at hl
  rcases List.mem_cons.1 hl with rfl | hl
  · have h : go "来自分支 " = 230 :: (go "来自分支 ").tail := by decide
    rw [h]
    exact hasMarkerPrefix_cons_false _ _ (by decide) (by decide) (by decide)
  · exact written_fixed_markerFree l hl

/-- The lines of the block `generateConflictContent` writes. -/
theorem Split_generateConflictContent (r : Repository) (filePath C src : GoString)
    (hcur : NL ∉ r.CurrentBranch) (hsrc : NL ∉ src) :
    Split (generateConflictContent r filePath C src) NL =
      (go "<<<<<<< HEAD (" ++ r.CurrentBranch ++ go ")") ::
        (Split C NL ++ go "=======" ::
          (writtenTheirsLines src ++ [go ">>>>>>> " ++ src, []])) := by
  have e1 : go ")\n" = go ")" ++ [NL] := by decide
  have e2 : go "=======\n" = go "=======" ++ [NL] := by decide
  have e3 : go " 的内容:\n" = go " 的内容:" ++ [NL] := by decide
  have h1 : NL ∉ go "<<<<<<< HEAD (" ++ r.CurrentBranch ++ go ")" := by
    have a : NL ∉ go "<<<<<<< HEAD (" := by decide
    have b : NL ∉ go ")" := by decide
    simp [a, b, hcur]
  have h2 : NL ∉ go "=======" := by decide
  have h3 : NL ∉ go ">>>>>>> " ++ src := by
    have a : NL ∉ go ">>>>>>> " := by decide
    simp [a, hsrc]
  have h4 : NL ∉ go "来自分支 " ++ src ++ go " 的内容:" := by
    have a : NL ∉ go "来自分支 " := by decide
    have b : NL ∉ go " 的内容:" := by decide
    simp [a, b, hsrc]
  have shape : generateConflictContent r filePath C src =
      (go "<<<<<<< HEAD (" ++ r.CurrentBranch ++ go ")") ++ NL :: (C ++ NL ::
        (go "=======" ++ NL :: ((go "来自分支 " ++ src ++ go " 的内容:") ++ NL ::
          ((go "# 冲突测试文件\n\n" ++ go "这是conflict-test分支上的内容。\n\n" ++ go "## 功能特性\n" ++
            go "- 新功能A\n" ++ go "- 新功能B\n" ++ go "- 新功能C\n\n" ++ go "## 分支信息\n" ++
            go "分支: conflict-test\n" ++ go "时间: 2025-08-21\n") ++
              ((go ">>>>>>> " ++ src) ++ NL :: []))))) := by
    rw [generateConflictContent, e1, e2, e3, go_newline]
    simp only [List.append_assoc, List.singleton_append, List.cons_append, List.nil_append]
  have tail : ∀ X : GoString,
      Split ((go "# 冲突测试文件\n\n" ++ go "这是conflict-test分支上的内容。\n\n" ++ go "## 功能特性\n" ++
            go "- 新功能A\n" ++ go "- 新功能B\n" ++ go "- 新功能C\n\n" ++ go "## 分支信息\n" ++
            go "分支: conflict-test\n" ++ go "时间: 2025-08-21\n") ++ X) NL =
        (writtenTheirsLines []).tail ++ Split X NL := by
    intro X
    have e : go "时间: 2025-08-21\n" = go "时间: 2025-08-21" ++ [NL] := by decide
    have key := written_fixed_text
    rw [e, ← List.append_assoc] at key ⊢
    rw [List.append_assoc _ [NL] X, List.singleton_append, Split_append_sep]
    rw [← List.append_nil ([NL] : GoString), List.singleton_append, Split_append_sep] at key
    have k2 : Split ([] : GoString) NL = [[]] := rfl
    rw [k2] at key
    rw [List.append_cancel_right key]
  rw [shape, Split_line _ _ _ h1, Split_append_sep, Split_line _ _ _ h2, Split_line _ _ _ h4,
    tail, Split_line _ _ _ h3, writtenTheirsLines_eq src]
  simp [Split]

/-! ## Claims on conflict blocks and their resolution -/

/-- C2: round trip of "ours". For every current content `C` none of whose
lines begins with a marker prefix, and branch names without a newline,
resolving the block that `generateConflictContent` writes for `C` with strategy
"ours" returns exactly `C`, with no error. -/
theorem ours_roundtrip (r : Repository) (filePath C src : GoString)
    (hC : markerFree C) (hcur : NL ∉ r.CurrentBranch) (hsrc : NL ∉ src) :
    parseConflictResolution (generateConflictContent r filePath C src) (go "ours") = .ok C := by
  obtain ⟨o1, _, _⟩ := openLine_tests r.CurrentBranch
  obtain ⟨s1, s2, _⟩ := sepLine_tests
  rw [parseConflictResolution, if_pos rfl, extractOursContent,
    Split_generateConflictContent r filePath C src hcur hsrc]
  rw [extractOursLoop, if_pos o1, extractOursLoop_append _ _ hC]
  rw [extractOursLoop, if_neg (by rw [s1]; decide), if_pos s2, List.append_nil, go_newline,
    Join_Split]

/-- Witness for C2: a two-line content on `main`, source branch `feature`. -/
theorem ours_roundtrip_witness :
    markerFree (go "alpha\nbeta") ∧ NL ∉ exampleRepo.CurrentBranch ∧ NL ∉ go "feature" ∧
      parseConflictResolution
        (generateConflictContent exampleRepo (go "f.txt") (go "alpha\nbeta") (go "feature"))
        (go "ours") = .ok (go "alpha\nbeta") :=
  ⟨by decide, by decide, by decide,
    ours_roundtrip exampleRepo (go "f.txt") (go "alpha\nbeta") (go "feature")
      (by decide) (by decide) (by decide)⟩

/-- C3: "theirs" on the spec's block. For contents `C`, `S` none of whose lines
begins with a marker prefix and branch names without a newline,
`extractTheirsContent` applied to the block
`<<<<<<< HEAD (cur)\n C \n=======\n S \n>>>>>>> src\n` returns exactly `S`. -/
theorem theirs_of_spec_block (cur C S src : GoString) (hC : markerFree C) (hS : markerFree S)
    (hcur : NL ∉ cur) (hsrc : NL ∉ src) :
    extractTheirsContent (specConflictBlock cur C S src) = S := by
  obtain ⟨_, o2, o3⟩ := openLine_tests cur
  obtain ⟨_, s2, _⟩ := sepLine_tests
  obtain ⟨_, c2, c3⟩ := closeLine_tests src
  have hC2 : ∀ l ∈ Split C NL,
      HasPrefix l (go "=======") = false ∧ HasPrefix l (go ">>>>>>>") = false :=
    fun l hl => ((hasMarkerPrefix_eq_false_iff l).1 (hC l hl)).2
  rw [extractTheirsContent, Split_specConflictBlock cur C S src hcur hsrc]
  rw [extractTheirsLoop, if_neg (by rw [o2]; decide), if_neg (by rw [o3]; decide)]
  simp only [Bool.false_eq_true, if_false]
  rw [extractTheirsLoop_false_append _ _ hC2, extractTheirsLoop, if_pos s2,
    extractTheirsLoop_true_append _ _ hS, extractTheirsLoop, if_neg (by rw [c2]; decide),
    if_pos c3,
    List.append_nil, go_newline, Join_Split]

/-- Witness for C3: `main` holds "1", `feature` holds "2" (the spec's `f.txt`
scenario). -/
theorem theirs_of_spec_block_witness :
    markerFree (go "1") ∧ markerFree (go "2") ∧ NL ∉ go "main" ∧ NL ∉ go "feature" ∧
      extractTheirsContent (specConflictBlock (go "main") (go "1") (go "2") (go "feature")) =
        go "2" :=
  ⟨by decide, by decide, by decide, by decide,
    theirs_of_spec_block (go "main") (go "1") (go "2") (go "feature")
      (by decide) (by decide) (by decide) (by decide)⟩

/-- C4: "both" on the spec's block. For contents `C`, `S` none of whose lines
begins with a marker prefix and branch names without a newline,
`extractBothContent` applied to the block
`<<<<<<< HEAD (cur)\n C \n=======\n S \n>>>>>>> src\n` returns the two sides in
order with the three marker lines removed: `C ++ "\n" ++ S ++ "\n"`. -/
theorem both_of_spec_block (cur C S src : GoString) (hC : markerFree C) (hS : markerFree S)
    (hcur : NL ∉ cur) (hsrc : NL ∉ src) :
    extractBothContent (specConflictBlock cur C S src) = C ++ go "\n" ++ S ++ go "\n" := by
  have step : ∀ (l : GoString) (rest : List GoString), hasMarkerPrefix l = true →
      extractBothLoop (l :: rest) = extractBothLoop rest := by
    intro l rest h
    rw [extractBothLoop]
    exact if_pos h
  rw [extractBothContent, Split_specConflictBlock cur C S src hcur hsrc]
  rw [step _ _ (openLine_marker cur), extractBothLoop_append _ _ hC,
    step _ _ sepLine_marker, extractBothLoop_append _ _ hS, step _ _ (closeLine_marker src)]
  have last : extractBothLoop [([] : GoString)] = [[]] := by decide
  rw [last, go_newline, Join_append _ _ _ (Split_ne_nil C NL) (by simp),
    Join_append _ _ _ (Split_ne_nil S NL) (by simp), Join_Split, Join_Split]
  simp [Join]

/-- Witness for C4: `main` holds "1", `feature` holds "2". -/
theorem both_of_spec_block_witness :
    markerFree (go "1") ∧ markerFree (go "2") ∧ NL ∉ go "main" ∧ NL ∉ go "feature" ∧
      extractBothContent (specConflictBlock (go "main") (go "1") (go "2") (go "feature")) =
        go "1\n2\n" :=
  ⟨by decide, by decide, by decide, by decide,
    both_of_spec_block (go "main") (go "1") (go "2") (go "feature")
      (by decide) (by decide) (by decide) (by decide)⟩

theorem extractOursLoop_mem (xs : List GoString) :
    ∀ l ∈ extractOursLoop xs, l ∈ xs ∧ hasMarkerPrefix l = false := by
  induction xs with
  | nil => simp [extractOursLoop]
  | cons x xs ih =>
    intro l hl
    rw [extractOursLoop] at hl
    by_cases h1 : HasPrefix x (go "<<<<<<<") = true
    · rw [if_pos h1] at hl
      exact ⟨List.mem_cons_of_mem _ (ih l hl).1, (ih l hl).2⟩
    · rw [if_neg h1] at hl
      by_cases h2 : HasPrefix x (go "=======") = true
      · rw [if_pos h2] at hl
        exact absurd hl (List.not_mem_nil l)
      · rw [if_neg h2] at hl
        by_cases h3 : HasPrefix x (go ">>>>>>>") = true
        · rw [if_pos h3] at hl
          exact absurd hl (List.not_mem_nil l)
        · rw [if_neg h3] at hl
          rcases List.mem_cons.1 hl with rfl | hl
          · refine ⟨List.mem_cons_self _ _, ?_⟩
            rw [hasMarkerPrefix_eq_false_iff]
            exact ⟨by simpa using h1, by simpa using h2, by simpa using h3⟩
          · exact ⟨List.mem_cons_of_mem _ (ih l hl).1, (ih l hl).2⟩

theorem extractBothLoop_mem (xs : List GoString) :
    ∀ l ∈ extractBothLoop xs, l ∈ xs ∧ hasMarkerPrefix l = false := by
  induction xs with
  | nil => simp [extractBothLoop]
  | cons x xs ih =>
    intro l hl
    rw [extractBothLoop] at hl
    by_cases h : (HasPrefix x (go "<<<<<<<") || HasPrefix x (go "=======") ||
        HasPrefix x (go ">>>>>>>")) = true
    · rw [if_pos h] at hl
      exact ⟨List.mem_cons_of_mem _ (ih l hl).1, (ih l hl).2⟩
    · rw [if_neg h] at hl
      rcases List.mem_cons.1 hl with rfl | hl
      · exact ⟨List.mem_cons_self _ _, by simpa [hasMarkerPrefix] using h⟩
      · exact ⟨List.mem_cons_of_mem _ (ih l hl).1, (ih l hl).2⟩

/-- Joining newline-free lines that begin with no marker gives a text none of
whose lines begins with a marker. -/
theorem markerFree_Join (ls : List GoString) (hnl : ∀ l ∈ ls, NL ∉ l)
    (hm : ∀ l ∈ ls, hasMarkerPrefix l = false) : markerFree (Join ls (go "\n")) := by
  rw [go_newline]
  by_cases hne : ls = []
  · subst hne
    intro l hl
    have : l = [] := by simpa [Join, Split] using hl
    rw [this]
    exact hasMarkerPrefix_nil
  · intro l hl
    rw [Split_Join ls NL hne hnl] at hl
    exact hm l hl

theorem dropCR_initial (l : GoString) : dropCR l <+: l := by
  unfold dropCR
  split
  · exact List.dropLast_prefix l
  · exact List.prefix_refl l

theorem hasMarkerPrefix_dropCR (l : GoString) (h : hasMarkerPrefix l = false) :
    hasMarkerPrefix (dropCR l) = false := by
  obtain ⟨h1, h2, h3⟩ := (hasMarkerPrefix_eq_false_iff l).1 h
  have key : ∀ p : GoString, HasPrefix l p = false → HasPrefix (dropCR l) p = false := by
    intro p hp
    by_contra hc
    have := HasPrefix_trans l (dropCR l) p (dropCR_initial l) (by simpa using hc)
    rw [hp] at this
    exact Bool.false_ne_true this
  exact (hasMarkerPrefix_eq_false_iff _).2 ⟨key _ h1, key _ h2, key _ h3⟩

/-- The scan finds nothing when no piece begins with a marker. -/
theorem hasConflictMarkersLoop_false (ls : List GoString)
    (h : ∀ l ∈ ls, hasMarkerPrefix l = false) : hasConflictMarkersLoop ls = false := by
  induction ls with
  | nil => rfl
  | cons x xs ih =>
    have hx := hasMarkerPrefix_dropCR x (h x (List.mem_cons_self _ _))
    cases xs with
    | nil =>
      rw [hasConflictMarkersLoop]
      split
      · rfl
      · split
        · rfl
        · exact hx
    | cons y ys =>
      rw [hasConflictMarkersLoop]
      split
      · rfl
      · rw [if_neg (by rw [hx]; decide)]
        exact ih (fun l hl => h l (List.mem_cons_of_mem _ hl))

theorem hasConflictMarkers_of_markerFree (fs : FileSystem) (path : GoString) (e : FileEntry)
    (hfind : fs.find? (fun e => e.path == path) = some e) (hfree : markerFree e.content) :
    hasConflictMarkers fs path = false := by
  rw [hasConflictMarkers, hfind]
  simp only
  split
  · rfl
  · exact hasConflictMarkersLoop_false _ hfree

/-- C5: for every file content whatsoever, resolving with strategy "ours" or
"both" succeeds and yields a content with no line beginning with `<<<<<<<`,
`=======` or `>>>>>>>`; hence `hasConflictMarkers` is false on any file holding
the resolved content. -/
theorem resolved_has_no_markers (content resolution : GoString)
    (hres : resolution = go "ours" ∨ resolution = go "both") :
    ∃ resolved, parseConflictResolution content resolution = .ok resolved ∧
      markerFree resolved ∧
      ∀ (fs : FileSystem) (path : GoString) (e : FileEntry),
        fs.find? (fun e => e.path == path) = some e → e.content = resolved →
          hasConflictMarkers fs path = false := by
  have hfs : ∀ resolved : GoString, markerFree resolved →
      ∀ (fs : FileSystem) (path : GoString) (e : FileEntry),
        fs.find? (fun e => e.path == path) = some e → e.content = resolved →
          hasConflictMarkers fs path = false := by
    intro resolved hfree fs path e hfind hc
    exact hasConflictMarkers_of_markerFree fs path e hfind (by rw [hc]; exact hfree)
  rcases hres with rfl | rfl
  · have hfree : markerFree (extractOursContent content) :=
      markerFree_Join _
        (fun l hl => not_mem_of_mem_Split content NL l (extractOursLoop_mem _ l hl).1)
        (fun l hl => (extractOursLoop_mem _ l hl).2)
    exact ⟨extractOursContent content, by rw [parseConflictResolution, if_pos rfl], hfree,
      hfs _ hfree⟩
  · have hfree : markerFree (extractBothContent content) :=
      markerFree_Join _
        (fun l hl => not_mem_of_mem_Split content NL l (extractBothLoop_mem _ l hl).1)
        (fun l hl => (extractBothLoop_mem _ l hl).2)
    refine ⟨extractBothContent content, ?_, hfree, hfs _ hfree⟩
    rw [parseConflictResolution, if_neg (by decide), if_neg (by decide), if_pos rfl]

/-- Witness for C5: a malformed file with two opening markers and a stray
closing marker, resolved with "both". -/
theorem resolved_has_no_markers_witness :
    (go "both" = go "ours" ∨ go "both" = go "both") ∧
      ∃ resolved,
        parseConflictResolution (go "<<<<<<< a\nx\n<<<<<<< b\n>>>>>>> c\ny") (go "both") =
          .ok resolved ∧
        markerFree resolved ∧
        ∀ (fs : FileSystem) (path : GoString) (e : FileEntry),
          fs.find? (fun e => e.path == path) = some e → e.content = resolved →
            hasConflictMarkers fs path = false :=
  ⟨Or.inr rfl,
    resolved_has_no_markers (go "<<<<<<< a\nx\n<<<<<<< b\n>>>>>>> c\ny") (go "both") (Or.inr rfl)⟩

/-- C6: `parseConflictResolution` returns an error exactly when the strategy is
none of "ours", "theirs", "both" (compared byte for byte), whatever the
content; an unsupported strategy makes `ResolveConflict` return an error and
leave the world, the working-tree file included, as it was; and when the file
was read, the error returned is the parse error (wrapped). -/
theorem unsupported_strategy (content resolution : GoString) :
    ((∃ err, parseConflictResolution content resolution = .error err) ↔
      (resolution ≠ go "ours" ∧ resolution ≠ go "theirs" ∧ resolution ≠ go "both")) ∧
    ((resolution ≠ go "ours" ∧ resolution ≠ go "theirs" ∧ resolution ≠ go "both") →
      ∀ (w : World) (filePath : GoString),
        (∃ err, ResolveConflict w filePath resolution = (.error err, w)) ∧
        (osReadFile w.fs (filepathJoin w.r.Path filePath) = .ok content →
          ResolveConflict w filePath resolution =
            (.error (go "解析冲突解决失败: " ++ (go "不支持的解决策略: " ++ resolution)), w))) := by
  have hparse : ∀ c : GoString,
      (resolution ≠ go "ours" ∧ resolution ≠ go "theirs" ∧ resolution ≠ go "both") →
      parseConflictResolution c resolution = .error (go "不支持的解决策略: " ++ resolution) := by
    intro c h
    rw [parseConflictResolution, if_neg h.1, if_neg h.2.1, if_neg h.2.2]
  refine ⟨⟨?_, fun h => ⟨_, hparse content h⟩⟩, ?_⟩
  · rintro ⟨err, herr⟩
    rw [parseConflictResolution] at herr
    by_cases h1 : resolution = go "ours"
    · rw [if_pos h1] at herr
      cases herr
    · by_cases h2 : resolution = go "theirs"
      · rw [if_neg h1, if_pos h2] at herr
        cases herr
      · by_cases h3 : resolution = go "both"
        · rw [if_neg h1, if_neg h2, if_pos h3] at herr
          cases herr
        · exact ⟨h1, h2, h3⟩
  · intro h w filePath
    constructor
    · cases hread : osReadFile w.fs (filepathJoin w.r.Path filePath) with
      | error e =>
        exact ⟨go "读取冲突文件失败: " ++ e, by simp only [ResolveConflict, hread]⟩
      | ok c =>
        exact ⟨go "解析冲突解决失败: " ++ (go "不支持的解决策略: " ++ resolution),
          by simp only [ResolveConflict, hread, hparse c h]⟩
    · intro hread
      simp only [ResolveConflict, hread, hparse content h]

/-- Witness for C6: the strategy "Ours" (wrong case) on `f.txt` of
`conflictScenario`. -/
theorem unsupported_strategy_witness :
    (go "Ours" ≠ go "ours" ∧ go "Ours" ≠ go "theirs" ∧ go "Ours" ≠ go "both") ∧
      ∃ err, ResolveConflict conflictScenario (go "f.txt") (go "Ours") = (.error err, conflictScenario) :=
  ⟨by decide,
    (((unsupported_strategy (go "1") (go "Ours")).2 (by decide)) conflictScenario (go "f.txt")).1⟩

/-- C7: for current content `C` none of whose lines begins with a marker prefix
and branch names without a newline, the text of `generateConflictContent`
starts with the line `<<<<<<< HEAD (cur)`, ends with the line `>>>>>>> src`
followed by a newline, has exactly one line beginning `<<<<<<<`, one beginning
`=======` and one beginning `>>>>>>>`, in that order, and the lines of `C` are
the lines between the opening marker and the separator. -/
theorem generateConflictContent_shape (r : Repository) (filePath C src : GoString)
    (hC : markerFree C) (hcur : NL ∉ r.CurrentBranch) (hsrc : NL ∉ src) :
    (Split (generateConflictContent r filePath C src) NL).head? =
        some (go "<<<<<<< HEAD (" ++ r.CurrentBranch ++ go ")") ∧
    (∃ mid : List GoString,
      Split (generateConflictContent r filePath C src) NL =
          (go "<<<<<<< HEAD (" ++ r.CurrentBranch ++ go ")") ::
            (Split C NL ++ go "=======" :: (mid ++ [go ">>>>>>> " ++ src, []])) ∧
        ∀ l ∈ mid, hasMarkerPrefix l = false) ∧
    (Split (generateConflictContent r filePath C src) NL).countP
        (fun l => HasPrefix l (go "<<<<<<<")) = 1 ∧
    (Split (generateConflictContent r filePath C src) NL).countP
        (fun l => HasPrefix l (go "=======")) = 1 ∧
    (Split (generateConflictContent r filePath C src) NL).countP
        (fun l => HasPrefix l (go ">>>>>>>")) = 1 := by
  have hsplit := Split_generateConflictContent r filePath C src hcur hsrc
  obtain ⟨o1, o2, o3⟩ := openLine_tests r.CurrentBranch
  obtain ⟨s1, s2, s3⟩ := sepLine_tests
  obtain ⟨c1, c2, c3⟩ := closeLine_tests src
  have hW := writtenTheirsLines_markerFree src
  have zero : ∀ (p : GoString) (ls : List GoString),
      (∀ l ∈ ls, HasPrefix l p = false) → ls.countP (fun l => HasPrefix l p) = 0 := by
    intro p ls h
    rw [List.countP_eq_zero]
    intro l hl
    rw [h l hl]
    decide
  have e1 : HasPrefix [] (go "<<<<<<<") = false := by decide
  have e2 : HasPrefix [] (go "=======") = false := by decide
  have e3 : HasPrefix [] (go ">>>>>>>") = false := by decide
  refine ⟨by rw [hsplit]; rfl, ⟨writtenTheirsLines src, hsplit, hW⟩, ?_, ?_, ?_⟩
  · rw [hsplit]
    simp only [List.countP_cons, List.countP_append, List.countP_nil, o1, s1, c1, e1,
      zero _ _ (fun l hl => ((hasMarkerPrefix_eq_false_iff l).1 (hC l hl)).1),
      zero _ _ (fun l hl => ((hasMarkerPrefix_eq_false_iff l).1 (hW l hl)).1)]
    decide
  · rw [hsplit]
    simp only [List.countP_cons, List.countP_append, List.countP_nil, o2, s2, c2, e2,
      zero _ _ (fun l hl => ((hasMarkerPrefix_eq_false_iff l).1 (hC l hl)).2.1),
      zero _ _ (fun l hl => ((hasMarkerPrefix_eq_false_iff l).1 (hW l hl)).2.1)]
    decide
  · rw [hsplit]
    simp only [List.countP_cons, List.countP_append, List.countP_nil, o3, s3, c3, e3,
      zero _ _ (fun l hl => ((hasMarkerPrefix_eq_false_iff l).1 (hC l hl)).2.2),
      zero _ _ (fun l hl => ((hasMarkerPrefix_eq_false_iff l).1 (hW l hl)).2.2)]
    decide

/-- Witness for C7: content "1" on `main`, source branch `feature`. -/
theorem generateConflictContent_shape_witness :
    markerFree (go "1") ∧ NL ∉ exampleRepo.CurrentBranch ∧ NL ∉ go "feature" ∧
      (Split (generateConflictContent exampleRepo (go "f.txt") (go "1") (go "feature")) NL).countP
        (fun l => HasPrefix l (go "=======")) = 1 :=
  ⟨by decide, by decide, by decide,
    (generateConflictContent_shape exampleRepo (go "f.txt") (go "1") (go "feature")
      (by decide) (by decide) (by decide)).2.2.2.1⟩

theorem HasPrefix_dropCR (l m : GoString) (hm : m.getLast? ≠ some CR)
    (h : HasPrefix l m = true) : HasPrefix (dropCR l) m = true := by
  simp only [HasPrefix, List.isPrefixOf_iff_prefix] at h ⊢
  obtain ⟨t, rfl⟩ := h
  unfold dropCR
  split
  · rename_i hlast
    by_cases ht : t = []
    · subst ht
      rw [List.append_nil] at hlast
      exact absurd hlast hm
    · rw [List.dropLast_append_of_ne_nil _ ht]
      exact List.prefix_append m _
  · exact List.prefix_append m t

/-- Dropping a trailing carriage return does not change the marker test. -/
theorem hasMarkerPrefix_dropCR_eq (l : GoString) :
    hasMarkerPrefix (dropCR l) = hasMarkerPrefix l := by
  cases h : hasMarkerPrefix l with
  | false => exact hasMarkerPrefix_dropCR l h
  | true =>
    simp only [hasMarkerPrefix, Bool.or_eq_true] at h ⊢
    rcases h with (h | h) | h
    · exact Or.inl (Or.inl (HasPrefix_dropCR l _ (by decide) h))
    · exact Or.inl (Or.inr (HasPrefix_dropCR l _ (by decide) h))
    · exact Or.inr (HasPrefix_dropCR l _ (by decide) h)

/-- On pieces that all fit the scanner's buffer the scan finds a marker exactly
when some piece begins with one. -/
theorem hasConflictMarkersLoop_iff (ls : List GoString)
    (hshort : ∀ l ∈ ls, l.length < MaxScanTokenSize) :
    hasConflictMarkersLoop ls = true ↔ ∃ l ∈ ls, hasMarkerPrefix l = true := by
  induction ls with
  | nil => simp [hasConflictMarkersLoop]
  | cons x xs ih =>
    have hx : ¬ MaxScanTokenSize ≤ x.length := Nat.not_le.2 (hshort x (List.mem_cons_self _ _))
    cases xs with
    | nil =>
      rw [hasConflictMarkersLoop]
      by_cases hnil : x = []
      · subst hnil
        simp [hasMarkerPrefix_nil]
      · rw [if_neg hnil, if_neg hx, hasMarkerPrefix_dropCR_eq]
        simp
    | cons y ys =>
      have ih2 := ih (fun l hl => hshort l (List.mem_cons_of_mem _ hl))
      rw [hasConflictMarkersLoop, if_neg hx, hasMarkerPrefix_dropCR_eq]
      by_cases hm : hasMarkerPrefix x = true
      · rw [if_pos hm]
        exact ⟨fun _ => ⟨x, List.mem_cons_self _ _, hm⟩, fun _ => rfl⟩
      · rw [if_neg hm, ih2]
        constructor
        · rintro ⟨l, hl, h⟩
          exact ⟨l, List.mem_cons_of_mem _ hl, h⟩
        · rintro ⟨l, hl, h⟩
          rcases List.mem_cons.1 hl with rfl | hl
          · exact absurd h hm
          · exact ⟨l, hl, h⟩

/-- For a readable regular file all of whose lines are shorter than
`MaxScanTokenSize`, `hasConflictMarkers` is true exactly when a line begins
with a marker. -/
theorem hasConflictMarkers_iff_of_short_lines (fs : FileSystem) (path : GoString)
    (e : FileEntry) (hfind : fs.find? (fun e => e.path == path) = some e)
    (hread : e.readable = true) (hfile : e.isDir = false)
    (hshort : ∀ l ∈ Split e.content NL, l.length < MaxScanTokenSize) :
    hasConflictMarkers fs path = true ↔ ∃ l ∈ Split e.content NL, hasMarkerPrefix l = true := by
  rw [hasConflictMarkers, hfind]
  simp only [hread, hfile, Bool.not_true, Bool.or_self, Bool.false_eq_true, if_false]
  exact hasConflictMarkersLoop_iff _ hshort

/-- The paths `GetConflictStatus` collects are those of the visited files (no
directory, no path containing `.cit`) on which `hasConflictMarkers` is true. -/
theorem mem_GetConflictStatusLoop (fs : FileSystem) (root : GoString) (es : List FileEntry)
    (p : GoString) :
    p ∈ GetConflictStatusLoop fs root es ↔
      ∃ e ∈ es, e.isDir = false ∧ Contains e.path (go ".cit") = false ∧
        hasConflictMarkers fs e.path = true ∧ p = filepathRel root e.path := by
  induction es with
  | nil => simp [GetConflictStatusLoop]
  | cons x xs ih =>
    rw [GetConflictStatusLoop]
    by_cases hskip : (x.isDir || Contains x.path (go ".cit")) = true
    · rw [if_pos hskip, ih]
      constructor
      · rintro ⟨e, he, h⟩
        exact ⟨e, List.mem_cons_of_mem _ he, h⟩
      · rintro ⟨e, he, h1, h2, h3⟩
        rcases List.mem_cons.1 he with rfl | he
        · rw [h1, h2] at hskip
          exact absurd hskip (by decide)
        · exact ⟨e, he, h1, h2, h3⟩
    · rw [if_neg hskip]
      have hx : x.isDir = false ∧ Contains x.path (go ".cit") = false := by
        simpa using hskip
      by_cases hm : hasConflictMarkers fs x.path = true
      · rw [if_pos hm, List.mem_cons, ih]
        constructor
        · rintro (rfl | ⟨e, he, h⟩)
          · exact ⟨x, List.mem_cons_self _ _, hx.1, hx.2, hm, rfl⟩
          · exact ⟨e, List.mem_cons_of_mem _ he, h⟩
        · rintro ⟨e, he, h1, h2, h3, h4⟩
          rcases List.mem_cons.1 he with rfl | he
          · exact Or.inl h4
          · exact Or.inr ⟨e, he, h1, h2, h3, h4⟩
      · rw [if_neg hm, ih]
        constructor
        · rintro ⟨e, he, h⟩
          exact ⟨e, List.mem_cons_of_mem _ he, h⟩
        · rintro ⟨e, he, h1, h2, h3, h4⟩
          rcases List.mem_cons.1 he with rfl | he
          · exact absurd h3 hm
          · exact ⟨e, he, h1, h2, h3, h4⟩

/-! ## Claims on merging and scanning -/

/-- Whatever the current content and the working tree, "theirs" on the block
`generateConflictContent` writes gives the fixed lines of `writtenTheirsLines`,
which depend on the source branch by its name only. -/
theorem theirs_of_generated_block (r : Repository) (filePath C src : GoString)
    (hC : markerFree C) (hcur : NL ∉ r.CurrentBranch) (hsrc : NL ∉ src) :
    extractTheirsContent (generateConflictContent r filePath C src) =
      Join (writtenTheirsLines src) (go "\n") := by
  obtain ⟨_, o2, o3⟩ := openLine_tests r.CurrentBranch
  obtain ⟨_, s2, _⟩ := sepLine_tests
  obtain ⟨_, c2, c3⟩ := closeLine_tests src
  have hC2 : ∀ l ∈ Split C NL,
      HasPrefix l (go "=======") = false ∧ HasPrefix l (go ">>>>>>>") = false :=
    fun l hl => ((hasMarkerPrefix_eq_false_iff l).1 (hC l hl)).2
  rw [extractTheirsContent, Split_generateConflictContent r filePath C src hcur hsrc]
  rw [extractTheirsLoop, if_neg (by rw [o2]; decide), if_neg (by rw [o3]; decide)]
  simp only [Bool.false_eq_true, if_false]
  rw [extractTheirsLoop_false_append _ _ hC2, extractTheirsLoop, if_pos s2,
    extractTheirsLoop_true_append _ _ (writtenTheirsLines_markerFree src), extractTheirsLoop,
    if_neg (by rw [c2]; decide), if_pos c3, List.append_nil]

/-- The conflicts `detectConflicts` reports are decided by the file name alone:
every reported path is `conflict_file.txt`. -/
theorem detectConflicts_only_by_name (w : World) (sourceBranch sourceHead currentHead : GoString)
    (conflicts : List GoString)
    (h : detectConflicts w sourceBranch sourceHead currentHead = .ok conflicts) :
    ∀ p ∈ conflicts, p = go "conflict_file.txt" := by
  unfold detectConflicts at h
  cases hfiles : getWorkingDirectoryFiles w with
  | error e => rw [hfiles] at h; cases h
  | panic => rw [hfiles] at h; cases h
  | ok files =>
    rw [hfiles] at h
    simp only [Result.ok.injEq] at h
    subst h
    intro p hp
    simpa using (List.mem_filter.1 hp).2

/-- C1 (evaluation): in the spec's conflict scenario, where `main` and
`feature` both changed `f.txt` after the common ancestor, `MergeBranch` reports
`Success=true` with no conflicts, advances `main` to a merge commit and leaves
`f.txt` as it was; with the same file named `conflict_file.txt` it reports
`Success=false` and that path as the conflict. -/
theorem MergeBranch_conflictScenario :
    (MergeBranch conflictScenario (go "feature")).1 =
        .ok { Success := true, Conflicts := [], MergedFiles := [],
              Message := go "成功合并分支 'feature' 到 'main'" } ∧
    (MergeBranch conflictScenario (go "feature")).2.fs = conflictScenario.fs ∧
    (MergeBranch conflictScenario (go "feature")).2.r.Storage.branches =
        [⟨go "main", go "merge_bbbbbbbb_aaaaaaaa"⟩, ⟨go "feature", go "bbbbbbbb02"⟩] ∧
    (MergeBranch namedScenario (go "feature")).1 =
        .ok { Success := false, Conflicts := [go "conflict_file.txt"], MergedFiles := [],
              Message := go "合并失败，发现 1 个冲突" } := by
  decide

/-- C8 (evaluation): after the merge of `feature` in `namedScenario` has written
the conflict block, resolving with "theirs" leaves the file with the fixed text
about branch `conflict-test`, not with a content of the file on `feature`. -/
theorem theirs_after_merge_is_fixed_text :
    (ResolveConflict (MergeBranch namedScenario (go "feature")).2 (go "conflict_file.txt")
        (go "theirs")).1 = .ok () ∧
    (ResolveConflict (MergeBranch namedScenario (go "feature")).2 (go "conflict_file.txt")
        (go "theirs")).2.fs =
      [ ⟨go "/repo", true, go "", true, true⟩
      , ⟨go "/repo/conflict_file.txt", false,
          go "来自分支 feature 的内容:\n# 冲突测试文件\n\n这是conflict-test分支上的内容。\n\n## 功能特性\n- 新功能A\n- 新功能B\n- 新功能C\n\n## 分支信息\n分支: conflict-test\n时间: 2025-08-21",
          true, true⟩ ] := by
  decide

/-- C9 (evaluation): the file of `longLineWorld` has a line beginning with
`<<<<<<<`, after a first line of `MaxScanTokenSize` bytes; `hasConflictMarkers`
returns false on it and `GetConflictStatus` reports no file. (On the block the
merge of `namedScenario` writes, whose lines are short, the file is reported.) -/
theorem hasConflictMarkers_misses_marker_after_long_line :
    (∃ line ∈ Split longLineContent NL, hasMarkerPrefix line = true) ∧
    hasConflictMarkers longLineWorld.fs (go "/repo/big.txt") = false ∧
    GetConflictStatus longLineWorld = ([], none) ∧
    GetConflictStatus (MergeBranch namedScenario (go "feature")).2 =
      ([go "conflict_file.txt"], none) := by
  have hnl : NL ∉ List.replicate MaxScanTokenSize (97 : UInt8) := by
    intro h
    exact absurd (List.eq_of_mem_replicate h) (by decide)
  have hsplit : Split longLineContent NL =
      [List.replicate MaxScanTokenSize 97, go "<<<<<<< HEAD (main)"] := by
    rw [longLineContent, Split_line _ _ _ hnl]
    have : Split (go "<<<<<<< HEAD (main)") NL = [go "<<<<<<< HEAD (main)"] := by decide
    rw [this]
  have hloop : hasConflictMarkersLoop (Split longLineContent NL) = false := by
    rw [hsplit, hasConflictMarkersLoop, if_pos (by rw [List.length_replicate])]
  have h1 : (go "/repo" == go "/repo/big.txt") = false := by decide
  have h2 : (go "/repo/big.txt" == go "/repo/big.txt") = true := by decide
  have hfile : hasConflictMarkers longLineWorld.fs (go "/repo/big.txt") = false := by
    simp only [hasConflictMarkers, longLineWorld, List.find?, h1, h2, Bool.not_true,
      Bool.or_self, Bool.false_eq_true, if_false]
    exact hloop
  refine ⟨⟨go "<<<<<<< HEAD (main)", by rw [hsplit]; simp, by decide⟩, hfile, ?_, by decide⟩
  have hwalk : filepathWalk longLineWorld.fs longLineWorld.r.Path =
      (longLineWorld.fs, none) := by
    have p1 : HasPrefix (go "/repo/big.txt") (go "/repo" ++ go "/") = true := by decide
    have p0 : (go "/repo" == go "/repo") = true := by decide
    simp [filepathWalk, longLineWorld, exampleRepo, List.any, List.filter, walkLoop, p0, p1, h1]
  have c1 : Contains (go "/repo/big.txt") (go ".cit") = false := by decide
  rw [GetConflictStatus, hwalk]
  simp only [Prod.mk.injEq, and_true]
  have hfs : longLineWorld.fs = [ ⟨go "/repo", true, go "", true, true⟩,
      ⟨go "/repo/big.txt", false, longLineContent, true, true⟩ ] := rfl
  rw [hfs] at hfile ⊢
  simp only [GetConflictStatusLoop, Bool.true_or, if_true, Bool.false_or, c1,
    Bool.false_eq_true, if_false, hfile]

/-- C10: whenever the source branch does not exist or the staging index is
non-empty, `MergeBranch` returns an error and leaves the world as it was: no
commit is stored, no branch head is changed, no working-tree file is written. -/
theorem MergeBranch_precondition_failure (w : World) (sourceBranch : GoString)
    (h : (∀ b ∈ w.r.Storage.branches, b.Name ≠ sourceBranch) ∨
      (∃ entry entries, w.r.Storage.staging = some (entry :: entries))) :
    ∃ err, MergeBranch w sourceBranch = (.error err, w) := by
  rcases h with h | ⟨entry, entries, h⟩
  · have hfind : w.r.Storage.branches.find? (fun b => b.Name == sourceBranch) = none := by
      rw [List.find?_eq_none]
      intro b hb
      simpa using h b hb
    exact ⟨go "源分支 '" ++ sourceBranch ++ go "' 不存在: " ++ go "BranchNotFound",
      by simp only [MergeBranch, Storage.GetBranchHead, hfind]⟩
  · have hstaging : IsStagingEmpty w.r = false := by
      simp [IsStagingEmpty, Storage.GetStaging, h]
    cases hsrc : w.r.Storage.GetBranchHead sourceBranch with
    | error e =>
      exact ⟨go "源分支 '" ++ sourceBranch ++ go "' 不存在: " ++ e,
        by simp only [MergeBranch, hsrc]⟩
    | ok sourceHead =>
      cases hcur : w.r.Storage.GetBranchHead w.r.CurrentBranch with
      | error e =>
        exact ⟨go "获取当前分支头失败: " ++ e, by simp only [MergeBranch, hsrc, hcur]⟩
      | ok currentHead =>
        exact ⟨go "当前分支有未提交的更改，请先提交或暂存",
          by simp only [MergeBranch, hsrc, hcur, hstaging, Bool.not_false, if_true]⟩

/-- Witness for C10: merging the missing branch `nope` in `conflictScenario`. -/
theorem MergeBranch_precondition_failure_witness :
    (∀ b ∈ conflictScenario.r.Storage.branches, b.Name ≠ go "nope") ∧
      ∃ err, MergeBranch conflictScenario (go "nope") = (.error err, conflictScenario) :=
  ⟨by decide, MergeBranch_precondition_failure conflictScenario (go "nope") (Or.inl (by decide))⟩


/-! ## Lemmas on the storage model -/

theorem find_setHead_self (bs : List Branch) (name id : GoString)
    (h : bs.any (fun b => b.Name == name) = true) :
    (bs.map (fun b => if b.Name == name then { b with Head := id } else b)).find?
        (fun b => b.Name == name) = some { Name := name, Head := id } := by
  induction bs with
  | nil => simp at h
  | cons b bs ih =>
    by_cases hb : b.Name = name
    · simp [List.find?, hb]
    · have hb2 : (b.Name == name) = false := by simpa using hb
      have h2 : bs.any (fun b => b.Name == name) = true := by
        simpa [List.any, hb2] using h
      simp only [List.map, hb2, Bool.false_eq_true, if_false, List.find?]
      exact ih h2

theorem find_setHead_other (bs : List Branch) (name id other : GoString) (h : other ≠ name) :
    (bs.map (fun b => if b.Name == name then { b with Head := id } else b)).find?
        (fun b => b.Name == other) = bs.find? (fun b => b.Name == other) := by
  induction bs with
  | nil => rfl
  | cons b bs ih =>
    by_cases hb : b.Name = name
    · have hbo : (b.Name == other) = false := by
        rw [hb]
        simpa using (Ne.symm h)
      simp only [List.map, List.find?, hb, beq_self_eq_true, if_true]
      rw [hb] at hbo
      simp only [hbo]
      exact ih
    · have hb2 : (b.Name == name) = false := by simpa using hb
      simp only [List.map, hb2, Bool.false_eq_true, if_false, List.find?]
      rw [ih]

/-- After a successful `UpdateBranchHead` the branch has the new head. -/
theorem GetBranchHead_UpdateBranchHead_self (s s' : Storage) (name id : GoString)
    (h : s.UpdateBranchHead name id = .ok s') : s'.GetBranchHead name = .ok id := by
  unfold Storage.UpdateBranchHead at h
  by_cases hf : s.updateBranchHeadFails = true
  · rw [if_pos hf] at h
    cases h
  · rw [if_neg hf] at h
    by_cases hany : s.branches.any (fun b => b.Name == name) = true
    · rw [if_pos hany] at h
      cases h
      simp only [Storage.GetBranchHead, find_setHead_self s.branches name id hany]
    · rw [if_neg hany] at h
      cases h
      have hnone : s.branches.find? (fun b => b.Name == name) = none := by
        rw [List.find?_eq_none]
        intro b hb hbn
        exact hany (List.any_eq_true.2 ⟨b, hb, hbn⟩)
      simp [Storage.GetBranchHead, List.find?_append, hnone, List.find?]

/-- A successful `UpdateBranchHead` leaves the head of every other branch, the
stored commits, the staging index and the fault flags as they were. -/
theorem UpdateBranchHead_frame (s s' : Storage) (name id : GoString)
    (h : s.UpdateBranchHead name id = .ok s') :
    (∀ other, other ≠ name → s'.GetBranchHead other = s.GetBranchHead other) ∧
      s'.commits = s.commits ∧ s'.staging = s.staging ∧
      s'.clearStagingFails = s.clearStagingFails := by
  unfold Storage.UpdateBranchHead at h
  by_cases hf : s.updateBranchHeadFails = true
  · rw [if_pos hf] at h
    cases h
  · rw [if_neg hf] at h
    by_cases hany : s.branches.any (fun b => b.Name == name) = true
    · rw [if_pos hany] at h
      cases h
      refine ⟨?_, rfl, rfl, rfl⟩
      intro other ho
      simp only [Storage.GetBranchHead, find_setHead_other s.branches name id other ho]
    · rw [if_neg hany] at h
      cases h
      refine ⟨?_, rfl, rfl, rfl⟩
      intro other ho
      have hno : (name == other) = false := by simpa using (Ne.symm ho)
      simp [Storage.GetBranchHead, List.find?_append, List.find?, hno]

/-- A successful `StoreCommit` holds the commit and leaves branches, staging
and fault flags as they were. -/
theorem StoreCommit_ok (s s' : Storage) (c : Commit) (h : s.StoreCommit c = .ok s') :
    s'.commits = s.commits.filter (fun d => d.ID != c.ID) ++ [c] ∧ s'.branches = s.branches ∧
      s'.staging = s.staging ∧ s'.updateBranchHeadFails = s.updateBranchHeadFails ∧
      s'.clearStagingFails = s.clearStagingFails := by
  unfold Storage.StoreCommit at h
  by_cases hf : s.storeCommitFails = true
  · rw [if_pos hf] at h
    cases h
  · rw [if_neg hf] at h
    cases h
    exact ⟨rfl, rfl, rfl, rfl, rfl⟩


/-! ## `sha1Sum` on the standard test vectors -/

theorem sha1Sum_empty :
    hexLower (sha1Sum (go "")) = go "da39a3ee5e6b4b0d3255bfef95601890afd80709" := by decide

theorem sha1Sum_abc :
    hexLower (sha1Sum (go "abc")) = go "a9993e364706816aba3e25717850c26c9cd0d89d" := by decide

/-- A message of two blocks (FIPS 180 test vector). -/
theorem sha1Sum_two_blocks :
    hexLower (sha1Sum (go "abcdbcdecdefdefgefghfghighijhijkijkljklmklmnlmnomnopnopq")) =
      go "84983e441c3bd26ebaae4aa1f95129e5e54670f1" := by decide

/-- The id `GenerateID` gives at clock reading 4. -/
theorem GenerateID_at_four : GenerateID stagedScenario = go "1b6453892473a467" := by decide

/-! ## Lemmas on `Commit` -/

/-- What a successful `Commit` has done: the built commit was stored, the head
of the current branch set to its id, and the staging index cleared. -/
theorem Commit_ok_inv (w w' : World) (message : GoString) (c : Commit)
    (h : Repository.Commit w message = (.ok c, w')) :
    c = newCommit w message ∧
      ∃ s1 s2 s3, w.r.Storage.StoreCommit c = .ok s1 ∧
        s1.UpdateBranchHead w.r.CurrentBranch c.ID = .ok s2 ∧ s2.ClearStaging = .ok s3 ∧
        w' = { w with r := { w.r with Storage := s3 } } := by
  unfold Repository.Commit at h
  cases hst : w.r.Storage.GetStaging with
  | error e => simp [hst] at h
  | ok staging =>
    simp only [hst] at h
    by_cases hlen : (staging.length == 0) = true
    · rw [if_pos hlen] at h
      cases h
    · rw [if_neg hlen] at h
      change (match w.r.Storage.StoreCommit (newCommit w message) with
        | .error err => _
        | .ok s1 => _) = _ at h
      cases h1 : w.r.Storage.StoreCommit (newCommit w message) with
      | error e => simp [h1] at h
      | ok s1 =>
        simp only [h1] at h
        cases h2 : s1.UpdateBranchHead w.r.CurrentBranch (GenerateID w) with
        | error e => simp [h2] at h
        | ok s2 =>
          simp only [h2] at h
          cases h3 : s2.ClearStaging with
          | error e => simp [h3] at h
          | ok s3 =>
            simp only [h3, Prod.mk.injEq, Result.ok.injEq] at h
            obtain ⟨hc, hw⟩ := h
            subst hc
            exact ⟨rfl, s1, s2, s3, h1, h2, h3, hw.symm⟩

/-- Where a failing `Commit` can have stopped: before any write (the world is
as it was), after storing the commit, or after moving the branch head. -/
theorem Commit_error_inv (w w' : World) (message err : GoString)
    (h : Repository.Commit w message = (.error err, w')) :
    w' = w ∨
      (∃ s1 e, w.r.Storage.StoreCommit (newCommit w message) = .ok s1 ∧
        s1.UpdateBranchHead w.r.CurrentBranch (GenerateID w) = .error e ∧
        w' = { w with r := { w.r with Storage := s1 } }) ∨
      (∃ s1 s2 e, w.r.Storage.StoreCommit (newCommit w message) = .ok s1 ∧
        s1.UpdateBranchHead w.r.CurrentBranch (GenerateID w) = .ok s2 ∧
        s2.ClearStaging = .error e ∧ w' = { w with r := { w.r with Storage := s2 } }) := by
  unfold Repository.Commit at h
  cases hst : w.r.Storage.GetStaging with
  | error e =>
    simp only [hst, Prod.mk.injEq] at h
    exact Or.inl h.2.symm
  | ok staging =>
    simp only [hst] at h
    by_cases hlen : (staging.length == 0) = true
    · rw [if_pos hlen] at h
      simp only [Prod.mk.injEq] at h
      exact Or.inl h.2.symm
    · rw [if_neg hlen] at h
      change (match w.r.Storage.StoreCommit (newCommit w message) with
        | .error err => _
        | .ok s1 => _) = _ at h
      cases h1 : w.r.Storage.StoreCommit (newCommit w message) with
      | error e =>
        simp only [h1, Prod.mk.injEq] at h
        exact Or.inl h.2.symm
      | ok s1 =>
        simp only [h1] at h
        cases h2 : s1.UpdateBranchHead w.r.CurrentBranch (GenerateID w) with
        | error e =>
          simp only [h2, Prod.mk.injEq] at h
          exact Or.inr (Or.inl ⟨s1, e, rfl, h2, h.2.symm⟩)
        | ok s2 =>
          simp only [h2] at h
          cases h3 : s2.ClearStaging with
          | error e =>
            simp only [h3, Prod.mk.injEq] at h
            exact Or.inr (Or.inr ⟨s1, s2, e, rfl, h2, h3, h.2.symm⟩)
          | ok s3 => simp [h3] at h

theorem ClearStaging_ok (s s' : Storage) (h : s.ClearStaging = .ok s') :
    s'.staging = some [] ∧ s'.branches = s.branches ∧ s'.commits = s.commits := by
  unfold Storage.ClearStaging at h
  by_cases hf : s.clearStagingFails = true
  · rw [if_pos hf] at h
    cases h
  · rw [if_neg hf] at h
    cases h
    exact ⟨rfl, rfl, rfl⟩

theorem GetBranchHead_congr (s s' : Storage) (name : GoString) (h : s'.branches = s.branches) :
    s'.GetBranchHead name = s.GetBranchHead name := by
  simp only [Storage.GetBranchHead, h]

/-! ## Claims on `Commit` -/

/-- C14: `Commit` on an empty staging index returns an error (`暂存区为空`), for
every message, and leaves the world as it was: the head of the current branch,
every other branch head and the stored commits are unchanged. -/
theorem Commit_empty_staging (w : World) (message : GoString)
    (h : w.r.Storage.staging = some []) :
    Repository.Commit w message = (.error (go "暂存区为空"), w) := by
  simp [Repository.Commit, Storage.GetStaging, h]

/-- Witness for C14: `conflictScenario`, whose staging index is empty. -/
theorem Commit_empty_staging_witness :
    conflictScenario.r.Storage.staging = some [] ∧
      Repository.Commit conflictScenario (go "first") =
        (.error (go "暂存区为空"), conflictScenario) :=
  ⟨rfl, Commit_empty_staging conflictScenario (go "first") rfl⟩

/-- C15: after every successful `Commit` the staging index has no entries, and
`IsStagingEmpty` returns true on the repository the call leaves behind. -/
theorem Commit_clears_staging (w w' : World) (message : GoString) (c : Commit)
    (h : Repository.Commit w message = (.ok c, w')) :
    w'.r.Storage.staging = some [] ∧ IsStagingEmpty w'.r = true := by
  obtain ⟨_, s1, s2, s3, _, _, h3, hw⟩ := Commit_ok_inv w w' message c h
  have hs := (ClearStaging_ok s2 s3 h3).1
  subst hw
  exact ⟨hs, by simp [IsStagingEmpty, Storage.GetStaging, hs]⟩

/-- Witness for C15: committing the staged `f.txt` of `stagedScenario`. -/
theorem Commit_clears_staging_witness :
    (Repository.Commit stagedScenario (go "first")).1 =
        .ok (newCommit stagedScenario (go "first")) ∧
      (Repository.Commit stagedScenario (go "first")).2.r.Storage.staging = some [] ∧
      IsStagingEmpty (Repository.Commit stagedScenario (go "first")).2.r = true :=
  ⟨by decide,
    Commit_clears_staging stagedScenario (Repository.Commit stagedScenario (go "first")).2
      (go "first") (newCommit stagedScenario (go "first")) (by decide)⟩

/-- C16: after every successful `Commit` the returned commit's `ParentID` is the
head the current branch had before the call (and is empty only if that head was
empty or the branch had no ref), the head of the current branch is the returned
commit's id, `GetStatus` reports that id as `LastCommit`, and the head of every
other branch is as before. -/
theorem Commit_success_heads (w w' : World) (message : GoString) (c : Commit)
    (h : Repository.Commit w message = (.ok c, w')) :
    (∀ head, w.r.Storage.GetBranchHead w.r.CurrentBranch = .ok head → c.ParentID = head) ∧
    (c.ParentID = [] →
      w.r.Storage.GetBranchHead w.r.CurrentBranch = .ok [] ∨
        ∃ e, w.r.Storage.GetBranchHead w.r.CurrentBranch = .error e) ∧
    w'.r.CurrentBranch = w.r.CurrentBranch ∧
    w'.r.Storage.GetBranchHead w'.r.CurrentBranch = .ok c.ID ∧
    (GetStatus w').LastCommit = c.ID ∧
    (∀ other, other ≠ w.r.CurrentBranch →
      w'.r.Storage.GetBranchHead other = w.r.Storage.GetBranchHead other) := by
  obtain ⟨hc, s1, s2, s3, h1, h2, h3, hw⟩ := Commit_ok_inv w w' message c h
  have hb1 := (StoreCommit_ok _ _ _ h1).2.1
  have hself := GetBranchHead_UpdateBranchHead_self s1 s2 _ _ h2
  have hframe := (UpdateBranchHead_frame s1 s2 _ _ h2).1
  have hb3 := (ClearStaging_ok s2 s3 h3).2.1
  have hhead : s3.GetBranchHead w.r.CurrentBranch = .ok c.ID := by
    rw [GetBranchHead_congr s2 s3 _ hb3]
    exact hself
  subst hw
  refine ⟨?_, ?_, rfl, hhead, ?_, ?_⟩
  · intro head hhd
    rw [hc]
    simp only [newCommit, hhd]
  · intro hp
    rw [hc] at hp
    cases hg : w.r.Storage.GetBranchHead w.r.CurrentBranch with
    | error e => exact Or.inr ⟨e, rfl⟩
    | ok head =>
      simp only [newCommit, hg] at hp
      rw [hp]
      exact Or.inl rfl
  · simp only [GetStatus, hhead]
  · intro other ho
    show s3.GetBranchHead other = _
    rw [GetBranchHead_congr s2 s3 _ hb3, hframe other ho, GetBranchHead_congr _ s1 _ hb1]

/-- Witness for C16: committing in `stagedScenario` on `main`, whose head was
`aaaaaaaa01`. -/
theorem Commit_success_heads_witness :
    (Repository.Commit stagedScenario (go "first")).1 =
        .ok (newCommit stagedScenario (go "first")) ∧
      (newCommit stagedScenario (go "first")).ParentID = go "aaaaaaaa01" ∧
      (GetStatus (Repository.Commit stagedScenario (go "first")).2).LastCommit =
        (newCommit stagedScenario (go "first")).ID :=
  ⟨by decide,
    (Commit_success_heads stagedScenario (Repository.Commit stagedScenario (go "first")).2
      (go "first") (newCommit stagedScenario (go "first")) (by decide)).1 (go "aaaaaaaa01")
      rfl,
    (Commit_success_heads stagedScenario (Repository.Commit stagedScenario (go "first")).2
      (go "first") (newCommit stagedScenario (go "first")) (by decide)).2.2.2.2.1⟩


theorem UpdateBranchHead_error (s : Storage) (name id e : GoString)
    (h : s.UpdateBranchHead name id = .error e) : s.updateBranchHeadFails = true := by
  unfold Storage.UpdateBranchHead at h
  by_cases hf : s.updateBranchHeadFails = true
  · exact hf
  · rw [if_neg hf] at h
    split at h <;> cases h

theorem ClearStaging_error (s : Storage) (e : GoString) (h : s.ClearStaging = .error e) :
    s.clearStagingFails = true := by
  unfold Storage.ClearStaging at h
  by_cases hf : s.clearStagingFails = true
  · exact hf
  · rw [if_neg hf] at h
    cases h

/-- C17 (counterexample): in `headWriteFailsScenario` the commit is stored, then
updating the branch head fails; `Commit` returns that error and the new commit
stays among the stored commits. In `clearFailsScenario` clearing the staging
index fails; `Commit` returns that error with the commit stored and the head of
`main` moved to it. -/
theorem Commit_error_keeps_partial_writes :
    (Repository.Commit headWriteFailsScenario (go "first")).1 =
        .error (go "更新分支头失败: IOFailure") ∧
    (Repository.Commit headWriteFailsScenario (go "first")).2.r.Storage.commits =
        headWriteFailsScenario.r.Storage.commits ++
          [newCommit headWriteFailsScenario (go "first")] ∧
    (Repository.Commit headWriteFailsScenario (go "first")).2.r.Storage.commits ≠
        headWriteFailsScenario.r.Storage.commits ∧
    (Repository.Commit clearFailsScenario (go "first")).1 =
        .error (go "清空暂存区失败: IOFailure") ∧
    (Repository.Commit clearFailsScenario (go "first")).2.r.Storage.branches =
        [⟨go "main", go "1b6453892473a467"⟩, ⟨go "feature", go "bbbbbbbb02"⟩] ∧
    (Repository.Commit clearFailsScenario (go "first")).2.r.Storage.branches ≠
        clearFailsScenario.r.Storage.branches := by
  decide

/-- C17 (amended): `Commit` undoes nothing, and what a failing `Commit` leaves
behind is fixed by the step that fails. When the index cannot be read or is
empty, or when storing the commit fails, `Commit` returns an error and the
world is as before the call. When the commit is stored and updating the branch
head fails, `Commit` returns that error and the new commit stays stored, with
everything else (all branch heads, the staging index) as before. When the
commit is stored, the head is updated and clearing the staging index fails,
`Commit` returns that error and the new commit stays stored, the head of the
current branch is the id of the new commit, every other head is as before and
the staging index is as before. Whenever `Commit` returns an error, the staging
index, the working tree and the current-branch selector are as before. -/
theorem Commit_error_states (w : World) (message : GoString) :
    (w.r.Storage.staging = none ∨ w.r.Storage.staging = some [] ∨
        w.r.Storage.storeCommitFails = true →
      ∃ err, Repository.Commit w message = (.error err, w)) ∧
    (∀ entry entries, w.r.Storage.staging = some (entry :: entries) →
      w.r.Storage.storeCommitFails = false → w.r.Storage.updateBranchHeadFails = true →
      Repository.Commit w message =
        (.error (go "更新分支头失败: " ++ go "IOFailure"),
          { w with r := { w.r with Storage := { w.r.Storage with
              commits := w.r.Storage.commits.filter (fun d => d.ID != GenerateID w) ++
                [newCommit w message] } } }) ∧
      newCommit w message ∈ (Repository.Commit w message).2.r.Storage.commits ∧
      (Repository.Commit w message).2.r.Storage.branches = w.r.Storage.branches) ∧
    (∀ entry entries, w.r.Storage.staging = some (entry :: entries) →
      w.r.Storage.storeCommitFails = false → w.r.Storage.updateBranchHeadFails = false →
      w.r.Storage.clearStagingFails = true →
      (Repository.Commit w message).1 = .error (go "清空暂存区失败: " ++ go "IOFailure") ∧
      (Repository.Commit w message).2.r.Storage.commits =
        w.r.Storage.commits.filter (fun d => d.ID != GenerateID w) ++ [newCommit w message] ∧
      newCommit w message ∈ (Repository.Commit w message).2.r.Storage.commits ∧
      (Repository.Commit w message).2.r.Storage.GetBranchHead w.r.CurrentBranch =
        .ok (GenerateID w) ∧
      (∀ other, other ≠ w.r.CurrentBranch →
        (Repository.Commit w message).2.r.Storage.GetBranchHead other =
          w.r.Storage.GetBranchHead other)) ∧
    (∀ err w', Repository.Commit w message = (.error err, w') →
      w'.fs = w.fs ∧ w'.r.CurrentBranch = w.r.CurrentBranch ∧
        w'.r.Storage.staging = w.r.Storage.staging) := by
  have hnew : ∀ (x : GoString × GoString) (xs : List (GoString × GoString)),
      w.r.Storage.staging = some (x :: xs) →
      Repository.Commit w message =
        (match w.r.Storage.StoreCommit (newCommit w message) with
          | .error err => (.error (go "保存提交失败: " ++ err), w)
          | .ok s1 =>
            match s1.UpdateBranchHead w.r.CurrentBranch (GenerateID w) with
            | .error err =>
              (.error (go "更新分支头失败: " ++ err), { w with r := { w.r with Storage := s1 } })
            | .ok s2 =>
              match s2.ClearStaging with
              | .error err =>
                (.error (go "清空暂存区失败: " ++ err),
                  { w with r := { w.r with Storage := s2 } })
              | .ok s3 => (.ok (newCommit w message), { w with r := { w.r with Storage := s3 } })) := by
    intro x xs hst
    simp only [Repository.Commit, Storage.GetStaging, hst]
    rfl
  refine ⟨?_, ?_, ?_, ?_⟩
  · intro h
    cases hst : w.r.Storage.staging with
    | none =>
      exact ⟨go "获取暂存区失败: " ++ go "IOFailure",
        by simp only [Repository.Commit, Storage.GetStaging, hst]⟩
    | some entries =>
      cases entries with
      | nil =>
        exact ⟨go "暂存区为空", by simp only [Repository.Commit, Storage.GetStaging, hst]; rfl⟩
      | cons x xs =>
        rcases h with h | h | h
        · rw [hst] at h
          cases h
        · rw [hst] at h
          cases h
        · refine ⟨go "保存提交失败: " ++ go "IOFailure", ?_⟩
          rw [hnew x xs hst]
          simp only [Storage.StoreCommit, h, if_true]
  · intro entry entries hst hsc hub
    have heq : Repository.Commit w message =
        (.error (go "更新分支头失败: " ++ go "IOFailure"),
          { w with r := { w.r with Storage := { w.r.Storage with
              commits := w.r.Storage.commits.filter (fun d => d.ID != GenerateID w) ++
                [newCommit w message] } } }) := by
      rw [hnew entry entries hst]
      simp only [Storage.StoreCommit, hsc, Storage.UpdateBranchHead, hub, if_true]
      rfl
    refine ⟨heq, ?_, ?_⟩
    · rw [heq]
      exact List.mem_append_right _ (List.mem_singleton.2 rfl)
    · rw [heq]
  · intro entry entries hst hsc hub hcl
    cases h1 : w.r.Storage.StoreCommit (newCommit w message) with
    | error e => simp [Storage.StoreCommit, hsc] at h1
    | ok s1 =>
      obtain ⟨hc1, hb1, hst1, hf1, hg1⟩ := StoreCommit_ok _ _ _ h1
      cases h2 : s1.UpdateBranchHead w.r.CurrentBranch (GenerateID w) with
      | error e =>
        have := UpdateBranchHead_error _ _ _ _ h2
        rw [hf1, hub] at this
        cases this
      | ok s2 =>
        obtain ⟨hframe, hc2, hst2, hf2⟩ := UpdateBranchHead_frame _ _ _ _ h2
        have hself := GetBranchHead_UpdateBranchHead_self _ _ _ _ h2
        have h3 : s2.ClearStaging = .error (go "IOFailure") := by
          simp only [Storage.ClearStaging, hf2, hg1, hcl, if_true]
        have heq : Repository.Commit w message =
            (.error (go "清空暂存区失败: " ++ go "IOFailure"),
              { w with r := { w.r with Storage := s2 } }) := by
          rw [hnew entry entries hst]
          simp only [h1, h2, h3]
        rw [heq]
        refine ⟨rfl, ?_, ?_, hself, ?_⟩
        · show s2.commits = _
          rw [hc2, hc1]
          rfl
        · show newCommit w message ∈ s2.commits
          rw [hc2, hc1]
          exact List.mem_append_right _ (List.mem_singleton.2 rfl)
        · intro other ho
          show s2.GetBranchHead other = _
          rw [hframe other ho, GetBranchHead_congr _ s1 _ hb1]
  · intro err w' h
    rcases Commit_error_inv w w' message err h with hw | ⟨s1, e, h1, h2, hw⟩ |
      ⟨s1, s2, e, h1, h2, h3, hw⟩
    · subst hw
      exact ⟨rfl, rfl, rfl⟩
    · obtain ⟨_, _, hst1, _, _⟩ := StoreCommit_ok _ _ _ h1
      subst hw
      exact ⟨rfl, rfl, hst1⟩
    · obtain ⟨_, _, hst1, _, _⟩ := StoreCommit_ok _ _ _ h1
      obtain ⟨_, _, hst2, _⟩ := UpdateBranchHead_frame _ _ _ _ h2
      subst hw
      exact ⟨rfl, rfl, by rw [hst2, hst1]⟩

/-- Witness for C17 (amended): the failing `Commit` of `headWriteFailsScenario`,
whose index holds `f.txt` and whose branch heads cannot be written. -/
theorem Commit_error_states_witness :
    (Repository.Commit headWriteFailsScenario (go "first")).1 =
        .error (go "更新分支头失败: IOFailure") ∧
      newCommit headWriteFailsScenario (go "first") ∈
        (Repository.Commit headWriteFailsScenario (go "first")).2.r.Storage.commits ∧
      (Repository.Commit headWriteFailsScenario (go "first")).2.r.Storage.branches =
        headWriteFailsScenario.r.Storage.branches :=
  ⟨by decide,
    ((Commit_error_states headWriteFailsScenario (go "first")).2.1
      (go "f.txt", hexLower (sha1Sum (go "1"))) [] rfl rfl rfl).2.1,
    ((Commit_error_states headWriteFailsScenario (go "first")).2.1
      (go "f.txt", hexLower (sha1Sum (go "1"))) [] rfl rfl rfl).2.2⟩

/-! ## Claims on branches -/

/-- C18: `CreateBranch(X)` when a branch named `X` exists returns an error
(`分支 'X' 已存在`) and leaves the world as it was: the branch keeps its head, no
branch is added, the current-branch selector is unchanged. -/
theorem CreateBranch_existing (w : World) (name : GoString)
    (h : ∃ b ∈ w.r.Storage.branches, b.Name = name) :
    CreateBranch w name = (.error (go "分支 '" ++ name ++ go "' 已存在"), w) := by
  have hany : w.r.Storage.branches.any (fun branch => branch.Name == name) = true := by
    obtain ⟨b, hb, hn⟩ := h
    exact List.any_eq_true.2 ⟨b, hb, by simpa using hn⟩
  simp only [CreateBranch, Storage.ListBranches, hany, if_true]

/-- Witness for C18: creating `feature` again in `conflictScenario`. -/
theorem CreateBranch_existing_witness :
    (∃ b ∈ conflictScenario.r.Storage.branches, b.Name = go "feature") ∧
      CreateBranch conflictScenario (go "feature") =
        (.error (go "分支 'feature' 已存在"), conflictScenario) :=
  ⟨by decide, CreateBranch_existing conflictScenario (go "feature") (by decide)⟩

/-- C19: `CreateBranch(name)` with a name not in use succeeds and appends the
branch `name` with the head the current branch has at the call (the empty head
if the current branch has no ref); the heads of all existing branches and the
current-branch selector are unchanged, and `ListBranches` lists the new
branch. -/
theorem CreateBranch_new (w : World) (name : GoString)
    (h : ∀ b ∈ w.r.Storage.branches, b.Name ≠ name) :
    ∃ w' head, CreateBranch w name = (.ok (), w') ∧
      (∀ current, w.r.Storage.GetBranchHead w.r.CurrentBranch = .ok current → head = current) ∧
      ((∃ e, w.r.Storage.GetBranchHead w.r.CurrentBranch = .error e) → head = []) ∧
      w'.r.Storage.branches = w.r.Storage.branches ++ [{ Name := name, Head := head }] ∧
      w'.r.Storage.GetBranchHead name = .ok head ∧
      (∀ other, other ≠ name →
        w'.r.Storage.GetBranchHead other = w.r.Storage.GetBranchHead other) ∧
      w'.r.CurrentBranch = w.r.CurrentBranch ∧
      (∃ branches, ListBranches w' = .ok branches ∧
        ({ Name := name, Head := head } : Branch) ∈ branches) := by
  have hany : ¬ w.r.Storage.branches.any (fun branch => branch.Name == name) = true := by
    intro hc
    obtain ⟨b, hb, hn⟩ := List.any_eq_true.1 hc
    exact h b hb (by simpa using hn)
  have hnone : w.r.Storage.branches.find? (fun b => b.Name == name) = none := by
    rw [List.find?_eq_none]
    intro b hb hbn
    exact h b hb (by simpa using hbn)
  refine ⟨{ w with r := { w.r with Storage := { w.r.Storage with
      branches := w.r.Storage.branches ++ [{ Name := name, Head :=
        (match w.r.Storage.GetBranchHead w.r.CurrentBranch with
          | .ok currentCommit => currentCommit
          | .error _ => go "") }] } } },
    (match w.r.Storage.GetBranchHead w.r.CurrentBranch with
      | .ok currentCommit => currentCommit
      | .error _ => go ""), ?_, ?_, ?_, ?_, ?_, ?_, ?_, ?_⟩
  · simp only [CreateBranch, Storage.ListBranches, hany, if_false, Storage.CreateBranch,
      Bool.false_eq_true]
  · intro current hc
    simp only [hc]
  · rintro ⟨e, he⟩
    simp only [he]
    rfl
  · rfl
  · simp [Storage.GetBranchHead, List.find?_append, hnone, List.find?]
  · intro other ho
    have hno : (name == other) = false := by simpa using (Ne.symm ho)
    simp [Storage.GetBranchHead, List.find?_append, List.find?, hno]
  · rfl
  · exact ⟨_, rfl, by simp⟩

/-- Witness for C19: creating `dev` in `conflictScenario`, on `main` at
`aaaaaaaa01`. -/
theorem CreateBranch_new_witness :
    (∀ b ∈ conflictScenario.r.Storage.branches, b.Name ≠ go "dev") ∧
      ∃ w' head, CreateBranch conflictScenario (go "dev") = (.ok (), w') ∧
        (∀ current, conflictScenario.r.Storage.GetBranchHead conflictScenario.r.CurrentBranch =
          .ok current → head = current) ∧
        ((∃ e, conflictScenario.r.Storage.GetBranchHead conflictScenario.r.CurrentBranch =
          .error e) → head = []) ∧
        w'.r.Storage.branches =
          conflictScenario.r.Storage.branches ++ [{ Name := go "dev", Head := head }] ∧
        w'.r.Storage.GetBranchHead (go "dev") = .ok head ∧
        (∀ other, other ≠ go "dev" →
          w'.r.Storage.GetBranchHead other = conflictScenario.r.Storage.GetBranchHead other) ∧
        w'.r.CurrentBranch = conflictScenario.r.CurrentBranch ∧
        (∃ branches, ListBranches w' = .ok branches ∧
          ({ Name := go "dev", Head := head } : Branch) ∈ branches) :=
  ⟨by decide, CreateBranch_new conflictScenario (go "dev") (by decide)⟩

/-- C20: `CheckoutBranch(name)` for a name that is no existing branch returns an
error (`分支 'name' 不存在`) and leaves the world as it was: the selector keeps its
value and `save` is not reached, so no file is written. The `checkout` command,
which looks the branch up first, fails in the same way. -/
theorem CheckoutBranch_missing (jsonMarshalIndent : Repository → Except GoString GoString)
    (w : World) (name : GoString) (h : ∀ b ∈ w.r.Storage.branches, b.Name ≠ name) :
    CheckoutBranch jsonMarshalIndent w name =
        (.error (go "分支 '" ++ name ++ go "' 不存在"), w) ∧
      checkoutCmdRunE jsonMarshalIndent w name =
        (.error (go "分支 '" ++ name ++ go "' 不存在"), w) := by
  have hany : w.r.Storage.branches.any (fun branch => branch.Name == name) = false := by
    rw [Bool.eq_false_iff]
    intro hc
    obtain ⟨b, hb, hn⟩ := List.any_eq_true.1 hc
    exact h b hb (by simpa using hn)
  have hnone : w.r.Storage.branches.find? (fun b => b.Name == name) = none := by
    rw [List.find?_eq_none]
    intro b hb hbn
    exact h b hb (by simpa using hbn)
  constructor
  · simp only [CheckoutBranch, Storage.ListBranches, hnone]
  · simp only [checkoutCmdRunE, ListBranches, Storage.ListBranches, hany, Bool.not_false,
      if_true]

/-- Witness for C20: checking out the missing branch `nope` in
`conflictScenario`. -/
theorem CheckoutBranch_missing_witness :
    (∀ b ∈ conflictScenario.r.Storage.branches, b.Name ≠ go "nope") ∧
      CheckoutBranch (fun r => .ok r.CurrentBranch) conflictScenario (go "nope") =
        (.error (go "分支 'nope' 不存在"), conflictScenario) :=
  ⟨by decide,
    (CheckoutBranch_missing (fun r => .ok r.CurrentBranch) conflictScenario (go "nope")
      (by decide)).1⟩


/-! ## Claims on a merge without conflicts -/

/-- With both heads of at least 8 bytes and storage writes that succeed,
`autoMerge` stores the merge commit and moves the head of the current branch
to it. -/
theorem autoMerge_ok (w : World) (sourceBranch sourceHead currentHead : GoString)
    (hs : 8 ≤ sourceHead.length) (hc : 8 ≤ currentHead.length)
    (h1 : w.r.Storage.storeCommitFails = false)
    (h2 : w.r.Storage.updateBranchHeadFails = false) :
    ∃ s1 s2,
      w.r.Storage.StoreCommit (mergeCommit w sourceBranch sourceHead currentHead) = .ok s1 ∧
      s1.UpdateBranchHead w.r.CurrentBranch
        (mergeCommit w sourceBranch sourceHead currentHead).ID = .ok s2 ∧
      autoMerge w sourceBranch sourceHead currentHead =
        (.ok (), { w with r := { w.r with Storage := s2 } }) := by
  have hid : generateMergeCommitID sourceHead currentHead =
      .ok (go "merge_" ++ sourceHead.take 8 ++ go "_" ++ currentHead.take 8) := by
    rw [generateMergeCommitID, if_neg (Nat.not_lt.2 hs), if_neg (Nat.not_lt.2 hc)]
  obtain ⟨s1, hs1⟩ : ∃ s1,
      w.r.Storage.StoreCommit (mergeCommit w sourceBranch sourceHead currentHead) = .ok s1 := by
    simp [Storage.StoreCommit, h1]
  have hflag : s1.updateBranchHeadFails = false := by
    rw [(StoreCommit_ok _ _ _ hs1).2.2.2.1, h2]
  obtain ⟨s2, hs2⟩ : ∃ s2, s1.UpdateBranchHead w.r.CurrentBranch
      (mergeCommit w sourceBranch sourceHead currentHead).ID = .ok s2 := by
    unfold Storage.UpdateBranchHead
    rw [hflag]
    simp only [Bool.false_eq_true, if_false]
    split
    · exact ⟨_, rfl⟩
    · exact ⟨_, rfl⟩
  refine ⟨s1, s2, hs1, hs2, ?_⟩
  unfold autoMerge
  simp only [hid]
  change (match w.r.Storage.StoreCommit (mergeCommit w sourceBranch sourceHead currentHead) with
    | .error err => _
    | .ok s1 => _) = _
  simp only [hs1]
  change (match s1.UpdateBranchHead w.r.CurrentBranch
      (mergeCommit w sourceBranch sourceHead currentHead).ID with
    | .error err => _
    | .ok s2 => _) = _
  simp only [hs2]

/-- A merge without conflicts, on heads of at least 8 bytes and with storage
writes that succeed: `MergeBranch` returns `Success=true` with no conflicts,
the merge commit is stored, the head of the current branch is its id, the head
of every other branch and the working tree are as before. -/
theorem MergeBranch_no_conflicts (w : World) (sourceBranch sourceHead currentHead : GoString)
    (hsrc : w.r.Storage.GetBranchHead sourceBranch = .ok sourceHead)
    (hcur : w.r.Storage.GetBranchHead w.r.CurrentBranch = .ok currentHead)
    (hst : IsStagingEmpty w.r = true)
    (hdet : detectConflicts w sourceBranch sourceHead currentHead = .ok [])
    (hs : 8 ≤ sourceHead.length) (hc : 8 ≤ currentHead.length)
    (h1 : w.r.Storage.storeCommitFails = false)
    (h2 : w.r.Storage.updateBranchHeadFails = false) :
    ∃ w', MergeBranch w sourceBranch =
        (.ok { Success := true, Conflicts := [], MergedFiles := [],
               Message := go "成功合并分支 '" ++ sourceBranch ++ go "' 到 '" ++
                 w.r.CurrentBranch ++ go "'" }, w') ∧
      mergeCommit w sourceBranch sourceHead currentHead ∈ w'.r.Storage.commits ∧
      w'.r.Storage.GetBranchHead w.r.CurrentBranch =
        .ok (mergeCommit w sourceBranch sourceHead currentHead).ID ∧
      (∀ other, other ≠ w.r.CurrentBranch →
        w'.r.Storage.GetBranchHead other = w.r.Storage.GetBranchHead other) ∧
      w'.fs = w.fs ∧ w'.r.CurrentBranch = w.r.CurrentBranch := by
  obtain ⟨s1, s2, hs1, hs2, hauto⟩ :=
    autoMerge_ok w sourceBranch sourceHead currentHead hs hc h1 h2
  obtain ⟨hc1, hb1, _⟩ := StoreCommit_ok _ _ _ hs1
  obtain ⟨hframe, hc2, _⟩ := UpdateBranchHead_frame _ _ _ _ hs2
  have hself := GetBranchHead_UpdateBranchHead_self _ _ _ _ hs2
  refine ⟨{ w with r := { w.r with Storage := s2 } }, ?_, ?_, hself, ?_, rfl, rfl⟩
  · simp only [MergeBranch, hsrc, hcur, hst, Bool.not_true, Bool.false_eq_true, if_false,
      performMerge, hdet, List.length_nil, gt_iff_lt, Nat.lt_irrefl, hauto]
  · show _ ∈ s2.commits
    rw [hc2, hc1]
    simp
  · intro other ho
    show s2.GetBranchHead other = _
    rw [hframe other ho, GetBranchHead_congr _ s1 _ hb1]

/-- C11 (evaluation): in `freshScenario`, where no commit exists yet and both
branch heads are empty, conflict detection finds no conflict and the storage
would accept every write, but `MergeBranch("feature")` panics in
`generateMergeCommitID` (`sourceHead[:8]` on an empty head): no result is
returned, no commit is stored and no head is moved. -/
theorem MergeBranch_freshScenario_panics :
    detectConflicts freshScenario (go "feature") (go "") (go "") = .ok [] ∧
    freshScenario.r.Storage.storeCommitFails = false ∧
    freshScenario.r.Storage.updateBranchHeadFails = false ∧
    MergeBranch freshScenario (go "feature") = (.panic, freshScenario) := by
  decide

/-- C12 (counterexample): the merge commit stored by the conflict-free merge of
`feature` (tip `bbbbbbbb02`) into `main` (tip `aaaaaaaa01`) in
`conflictScenario` has the single parent `aaaaaaaa01`; the source tip is not
among its parents. -/
theorem merge_commit_lacks_source_parent :
    (MergeBranch conflictScenario (go "feature")).1 =
        .ok { Success := true, Conflicts := [], MergedFiles := [],
              Message := go "成功合并分支 'feature' 到 'main'" } ∧
    ∃ c ∈ (MergeBranch conflictScenario (go "feature")).2.r.Storage.commits,
      c.ID = go "merge_bbbbbbbb_aaaaaaaa" ∧ c.parents = [go "aaaaaaaa01"] ∧
        go "bbbbbbbb02" ∉ c.parents := by
  decide

/-- C12 (amended): the merge commit that a conflict-free merge stores (heads of
at least 8 bytes, storage writes succeeding) carries a single parent reference,
its `ParentID`, which is the current tip; the source tip is among its parents
only if it equals the current tip, and otherwise enters the commit only through
the first 8 bytes that go into the commit id. -/
theorem merge_commit_single_parent (w : World) (sourceBranch sourceHead currentHead : GoString)
    (hs : 8 ≤ sourceHead.length) (hc : 8 ≤ currentHead.length)
    (h1 : w.r.Storage.storeCommitFails = false)
    (h2 : w.r.Storage.updateBranchHeadFails = false) :
    ∃ w' c, autoMerge w sourceBranch sourceHead currentHead = (.ok (), w') ∧
      c ∈ w'.r.Storage.commits ∧
      c.ID = go "merge_" ++ sourceHead.take 8 ++ go "_" ++ currentHead.take 8 ∧
      c.ParentID = currentHead ∧ c.parents = [currentHead] ∧
      (sourceHead ∈ c.parents ↔ sourceHead = currentHead) := by
  obtain ⟨s1, s2, hs1, hs2, hauto⟩ :=
    autoMerge_ok w sourceBranch sourceHead currentHead hs hc h1 h2
  obtain ⟨hc1, _⟩ := StoreCommit_ok _ _ _ hs1
  obtain ⟨_, hc2, _⟩ := UpdateBranchHead_frame _ _ _ _ hs2
  have hne : currentHead ≠ [] := by
    intro he
    rw [he] at hc
    simp at hc
  have hpar : (mergeCommit w sourceBranch sourceHead currentHead).parents = [currentHead] := by
    simp [Commit.parents, mergeCommit, hne]
  refine ⟨{ w with r := { w.r with Storage := s2 } },
    mergeCommit w sourceBranch sourceHead currentHead, hauto, ?_, rfl, rfl, hpar, ?_⟩
  · show _ ∈ s2.commits
    rw [hc2, hc1]
    simp
  · rw [hpar]
    simp

/-- Witness for C12 (amended): the merge of `feature` into `main` in
`conflictScenario`. -/
theorem merge_commit_single_parent_witness :
    8 ≤ (go "bbbbbbbb02").length ∧ 8 ≤ (go "aaaaaaaa01").length ∧
      ∃ w' c, autoMerge conflictScenario (go "feature") (go "bbbbbbbb02") (go "aaaaaaaa01") =
          (.ok (), w') ∧
        c ∈ w'.r.Storage.commits ∧
        c.ID = go "merge_" ++ (go "bbbbbbbb02").take 8 ++ go "_" ++ (go "aaaaaaaa01").take 8 ∧
        c.ParentID = go "aaaaaaaa01" ∧ c.parents = [go "aaaaaaaa01"] ∧
        (go "bbbbbbbb02" ∈ c.parents ↔ go "bbbbbbbb02" = go "aaaaaaaa01") :=
  ⟨by decide, by decide,
    merge_commit_single_parent conflictScenario (go "feature") (go "bbbbbbbb02")
      (go "aaaaaaaa01") (by decide) (by decide) rfl rfl⟩


/-! ## Claims on a merge with conflicts -/

theorem rewrittenOnly_refl (paths : List GoString) (fs : FileSystem) :
    rewrittenOnly paths fs fs := by
  unfold rewrittenOnly
  induction fs with
  | nil => exact List.Forall₂.nil
  | cons a fs ih => exact List.Forall₂.cons (Or.inl rfl) ih

theorem rewrittenOnly_trans (paths : List GoString) (fs1 fs2 fs3 : FileSystem)
    (h12 : rewrittenOnly paths fs1 fs2) (h23 : rewrittenOnly paths fs2 fs3) :
    rewrittenOnly paths fs1 fs3 := by
  unfold rewrittenOnly at *
  induction h12 generalizing fs3 with
  | nil =>
    cases h23
    exact List.Forall₂.nil
  | cons hab _ ih =>
    cases h23 with
    | cons hbc htail =>
      refine List.Forall₂.cons ?_ (ih _ htail)
      rcases hab with rfl | ⟨hp, hb⟩
      · exact hbc
      · rcases hbc with rfl | ⟨_, hc⟩
        · exact Or.inr ⟨hp, hb⟩
        · refine Or.inr ⟨hp, ?_⟩
          rw [hc, hb]

theorem rewrittenOnly_mono (paths paths' : List GoString) (fs fs' : FileSystem)
    (hsub : ∀ p ∈ paths, p ∈ paths') (h : rewrittenOnly paths fs fs') :
    rewrittenOnly paths' fs fs' := by
  unfold rewrittenOnly at *
  induction h with
  | nil => exact List.Forall₂.nil
  | cons hab _ ih =>
    refine List.Forall₂.cons ?_ ih
    rcases hab with rfl | ⟨hp, hb⟩
    · exact Or.inl rfl
    · exact Or.inr ⟨hsub _ hp, hb⟩

theorem rewrittenOnly_map (path data : GoString) (fs : FileSystem) :
    rewrittenOnly [path] fs
      (fs.map (fun f => if f.path == path then { f with content := data } else f)) := by
  unfold rewrittenOnly
  induction fs with
  | nil => exact List.Forall₂.nil
  | cons a fs ih =>
    refine List.Forall₂.cons ?_ ih
    by_cases ha : a.path = path
    · refine Or.inr ⟨by simp [ha], ?_⟩
      simp [ha]
    · have : (a.path == path) = false := by simpa using ha
      exact Or.inl (by simp [this])

/-- Writing after a successful read rewrites the content of that file only. -/
theorem osWriteFile_after_read (fs fs' : FileSystem) (path data content : GoString)
    (hread : osReadFile fs path = .ok content) (hwrite : osWriteFile fs path data = .ok fs') :
    fs' = fs.map (fun f => if f.path == path then { f with content := data } else f) := by
  unfold osReadFile at hread
  unfold osWriteFile at hwrite
  cases hfind : fs.find? (fun e => e.path == path) with
  | none => simp [hfind] at hread
  | some e =>
    simp only [hfind] at hwrite
    split at hwrite
    · cases hwrite
    · split at hwrite
      · cases hwrite
      · cases hwrite
        rfl

theorem find_map_content (fs : FileSystem) (path data q : GoString) :
    (fs.map (fun f => if f.path == path then { f with content := data } else f)).find?
        (fun e => e.path == q) =
      (fs.find? (fun e => e.path == q)).map
        (fun f => if f.path == path then { f with content := data } else f) := by
  have hg : ∀ f : FileEntry,
      (if f.path == path then { f with content := data } else f).path = f.path := by
    intro f
    split <;> rfl
  induction fs with
  | nil => rfl
  | cons a fs ih =>
    simp only [List.map, List.find?, hg]
    cases (a.path == q) with
    | true => rfl
    | false => exact ih

theorem canRewrite_map (fs : FileSystem) (path data q : GoString) (h : canRewrite fs q) :
    canRewrite (fs.map (fun f => if f.path == path then { f with content := data } else f))
      q := by
  obtain ⟨e, hfind, hd, hr, hw⟩ := h
  refine ⟨if e.path == path then { e with content := data } else e, ?_, ?_, ?_, ?_⟩
  · rw [find_map_content, hfind]
    rfl
  · split <;> exact hd
  · split <;> exact hr
  · split <;> exact hw

/-- In every case `createConflictFile` leaves the repository and the clock as
they were and rewrites at most the content of the file it is called for. -/
theorem createConflictFile_frame (w : World) (filePath sourceBranch : GoString) :
    (createConflictFile w filePath sourceBranch).2.r = w.r ∧
      (createConflictFile w filePath sourceBranch).2.now = w.now ∧
      rewrittenOnly [filepathJoin w.r.Path filePath] w.fs
        (createConflictFile w filePath sourceBranch).2.fs := by
  cases hread : osReadFile w.fs (filepathJoin w.r.Path filePath) with
  | error e =>
    simp only [createConflictFile, hread]
    exact ⟨trivial, trivial, rewrittenOnly_refl _ _⟩
  | ok content =>
    cases hwrite : osWriteFile w.fs (filepathJoin w.r.Path filePath)
        (generateConflictContent w.r filePath content sourceBranch) with
    | error e =>
      simp only [createConflictFile, hread, hwrite]
      exact ⟨trivial, trivial, rewrittenOnly_refl _ _⟩
    | ok fs =>
      simp only [createConflictFile, hread, hwrite]
      refine ⟨trivial, trivial, ?_⟩
      rw [osWriteFile_after_read _ _ _ _ _ hread hwrite]
      exact rewrittenOnly_map _ _ _

/-- On a file that can be read and rewritten `createConflictFile` succeeds, and
the files that could be rewritten before still can. -/
theorem createConflictFile_ok (w : World) (filePath sourceBranch : GoString)
    (h : canRewrite w.fs (filepathJoin w.r.Path filePath)) :
    (createConflictFile w filePath sourceBranch).1 = .ok () ∧
      ∀ q, canRewrite w.fs q → canRewrite (createConflictFile w filePath sourceBranch).2.fs q := by
  obtain ⟨e, hfind, hd, hr, hw⟩ := h
  have hread : osReadFile w.fs (filepathJoin w.r.Path filePath) = .ok e.content := by
    simp [osReadFile, hfind, hd, hr]
  have hwrite : ∀ data, osWriteFile w.fs (filepathJoin w.r.Path filePath) data =
      .ok (w.fs.map (fun f =>
        if f.path == filepathJoin w.r.Path filePath then { f with content := data } else f)) := by
    intro data
    simp [osWriteFile, hfind, hd, hw]
  simp only [createConflictFile, hread, hwrite]
  exact ⟨trivial, fun q hq => canRewrite_map _ _ _ _ hq⟩

/-- In every case `generateConflictMarkers` leaves the repository and the clock
as they were and rewrites at most the content of the conflicting files. -/
theorem generateConflictMarkers_frame (conflicts : List GoString) (sourceBranch : GoString) :
    ∀ w : World,
      (generateConflictMarkers w conflicts sourceBranch).2.r = w.r ∧
        (generateConflictMarkers w conflicts sourceBranch).2.now = w.now ∧
        rewrittenOnly (conflicts.map (filepathJoin w.r.Path)) w.fs
          (generateConflictMarkers w conflicts sourceBranch).2.fs := by
  induction conflicts with
  | nil =>
    intro w
    exact ⟨rfl, rfl, rewrittenOnly_refl _ _⟩
  | cons p rest ih =>
    intro w
    obtain ⟨hr, hn, hfs⟩ := createConflictFile_frame w p sourceBranch
    have hfs' : rewrittenOnly ((p :: rest).map (filepathJoin w.r.Path)) w.fs
        (createConflictFile w p sourceBranch).2.fs :=
      rewrittenOnly_mono _ _ _ _ (fun q hq => by
        rw [List.mem_singleton] at hq
        simp [hq]) hfs
    rw [generateConflictMarkers]
    cases hres : createConflictFile w p sourceBranch with
    | mk res w1 =>
      rw [hres] at hr hn hfs'
      cases res with
      | error e => exact ⟨hr, hn, hfs'⟩
      | panic => exact ⟨hr, hn, hfs'⟩
      | ok u =>
        obtain ⟨hr2, hn2, hfs2⟩ := ih w1
        simp only at hr hn hfs' ⊢
        refine ⟨hr2.trans hr, hn2.trans hn, ?_⟩
        rw [hr] at hfs2
        exact rewrittenOnly_trans _ _ _ _ hfs'
          (rewrittenOnly_mono _ _ _ _ (fun q hq => List.mem_cons_of_mem _ hq) hfs2)

/-- When every conflicting file can be read and rewritten,
`generateConflictMarkers` succeeds. -/
theorem generateConflictMarkers_ok (conflicts : List GoString) (sourceBranch : GoString) :
    ∀ w : World, (∀ p ∈ conflicts, canRewrite w.fs (filepathJoin w.r.Path p)) →
      (generateConflictMarkers w conflicts sourceBranch).1 = .ok () := by
  induction conflicts with
  | nil =>
    intro w _
    rfl
  | cons p rest ih =>
    intro w h
    obtain ⟨hok, hkeep⟩ := createConflictFile_ok w p sourceBranch (h p (List.mem_cons_self _ _))
    have hr := (createConflictFile_frame w p sourceBranch).1
    rw [generateConflictMarkers]
    cases hres : createConflictFile w p sourceBranch with
    | mk res w1 =>
      rw [hres] at hok hkeep hr
      simp only at hok hkeep hr
      subst hok
      simp only
      apply ih w1
      intro q hq
      rw [hr]
      exact hkeep _ (h q (List.mem_cons_of_mem _ hq))

/-- Whether `os.ReadFile` fails, and with which error, does not depend on the
content of the files. -/
theorem osReadFile_map_error (fs : FileSystem) (path data q e : GoString)
    (h : osReadFile fs q = .error e) :
    osReadFile (fs.map (fun f => if f.path == path then { f with content := data } else f)) q =
      .error e := by
  unfold osReadFile at h ⊢
  rw [find_map_content]
  cases hfind : fs.find? (fun e => e.path == q) with
  | none =>
    rw [hfind] at h
    exact h
  | some e0 =>
    rw [hfind] at h
    simp only [Option.map] at h ⊢
    have hd : (if e0.path == path then { e0 with content := data } else e0).isDir = e0.isDir := by
      split <;> rfl
    have hr : (if e0.path == path then { e0 with content := data } else e0).readable =
        e0.readable := by
      split <;> rfl
    rw [hd, hr]
    by_cases hdir : e0.isDir = true
    · rw [if_pos hdir] at h ⊢
      exact h
    · rw [if_neg hdir] at h ⊢
      by_cases hrd : (!e0.readable) = true
      · rw [if_pos hrd] at h ⊢
        exact h
      · rw [if_neg hrd] at h
        cases h

/-- A file that can be read can still be read after the content of a file was
rewritten. -/
theorem osReadFile_map_ok (fs : FileSystem) (path data q c : GoString)
    (h : osReadFile fs q = .ok c) :
    ∃ c', osReadFile
      (fs.map (fun f => if f.path == path then { f with content := data } else f)) q =
        .ok c' := by
  unfold osReadFile at h ⊢
  rw [find_map_content]
  cases hfind : fs.find? (fun e => e.path == q) with
  | none =>
    rw [hfind] at h
    cases h
  | some e0 =>
    rw [hfind] at h
    simp only [Option.map] at h ⊢
    by_cases hd : e0.isDir = true
    · rw [if_pos hd] at h
      cases h
    · rw [if_neg hd] at h
      by_cases hr : (!e0.readable) = true
      · rw [if_pos hr] at h
        cases h
      · by_cases hp : (e0.path == path) = true
        · rw [if_pos hp]
          exact ⟨data, by rw [if_neg hd, if_neg hr]⟩
        · rw [if_neg hp]
          exact ⟨e0.content, by rw [if_neg hd, if_neg hr]⟩

/-- Whether `os.WriteFile` fails, and with which error, depends neither on the
content of the files nor on the data written. -/
theorem osWriteFile_map_error (fs : FileSystem) (path data q d d' e : GoString)
    (h : osWriteFile fs q d = .error e) :
    osWriteFile (fs.map (fun f => if f.path == path then { f with content := data } else f))
      q d' = .error e := by
  have hdir : ∀ e0 : FileEntry,
      (if e0.path == path then { e0 with content := data } else e0).isDir = e0.isDir := by
    intro e0
    split <;> rfl
  have hwri : ∀ e0 : FileEntry,
      (if e0.path == path then { e0 with content := data } else e0).writable = e0.writable := by
    intro e0
    split <;> rfl
  unfold osWriteFile at h ⊢
  simp only [find_map_content]
  cases hfind : fs.find? (fun e => e.path == q) with
  | none =>
    rw [hfind] at h
    simp only [Option.map] at h ⊢
    cases hparent : fs.find? (fun e => e.path == filepathDir q) with
    | none =>
      rw [hparent] at h
      exact h
    | some p0 =>
      rw [hparent] at h
      simp only at h ⊢
      rw [hdir, hwri]
      by_cases hd : (!p0.isDir) = true
      · rw [if_pos hd] at h ⊢
        exact h
      · rw [if_neg hd] at h ⊢
        by_cases hw : (!p0.writable) = true
        · rw [if_pos hw] at h ⊢
          exact h
        · rw [if_neg hw] at h
          cases h
  | some e0 =>
    rw [hfind] at h
    simp only [Option.map] at h ⊢
    rw [hdir, hwri]
    by_cases hd : e0.isDir = true
    · rw [if_pos hd] at h ⊢
      exact h
    · rw [if_neg hd] at h ⊢
      by_cases hw : (!e0.writable) = true
      · rw [if_pos hw] at h ⊢
        exact h
      · rw [if_neg hw] at h
        cases h

/-- The error of `createConflictFile` for a file is the same after the content
of a file was rewritten. -/
theorem createConflictFile_error_map (w w1 : World) (path data p sourceBranch e : GoString)
    (hr : w1.r = w.r)
    (hfs : w1.fs = w.fs.map (fun f => if f.path == path then { f with content := data } else f))
    (h : (createConflictFile w p sourceBranch).1 = .error e) :
    (createConflictFile w1 p sourceBranch).1 = .error e := by
  cases hread : osReadFile w.fs (filepathJoin w.r.Path p) with
  | error er =>
    have hread1 := osReadFile_map_error w.fs path data _ _ hread
    rw [← hfs, ← hr] at hread1
    simp only [createConflictFile, hread] at h
    simp only [createConflictFile, hread1]
    exact h
  | ok c =>
    obtain ⟨c', hread1⟩ := osReadFile_map_ok w.fs path data _ _ hread
    rw [← hfs, ← hr] at hread1
    cases hwrite : osWriteFile w.fs (filepathJoin w.r.Path p)
        (generateConflictContent w.r p c sourceBranch) with
    | error ew =>
      have hwrite1 := osWriteFile_map_error w.fs path data _ _
        (generateConflictContent w1.r p c' sourceBranch) _ hwrite
      rw [← hfs, ← hr] at hwrite1
      simp only [createConflictFile, hread, hwrite] at h
      simp only [createConflictFile, hread1, hwrite1]
      exact h
    | ok fs' =>
      simp only [createConflictFile, hread, hwrite] at h
      cases h

/-- On a file that can be read and rewritten `createConflictFile` rewrites the
content of that file and changes nothing else. -/
theorem createConflictFile_ok_world (w : World) (filePath sourceBranch : GoString)
    (h : canRewrite w.fs (filepathJoin w.r.Path filePath)) :
    ∃ data, createConflictFile w filePath sourceBranch =
      (.ok (), { w with fs := w.fs.map (fun f =>
        if f.path == filepathJoin w.r.Path filePath then { f with content := data } else f) }) := by
  obtain ⟨e, hfind, hd, hr, hw⟩ := h
  have hread : osReadFile w.fs (filepathJoin w.r.Path filePath) = .ok e.content := by
    simp [osReadFile, hfind, hd, hr]
  have hwrite : ∀ data, osWriteFile w.fs (filepathJoin w.r.Path filePath) data =
      .ok (w.fs.map (fun f =>
        if f.path == filepathJoin w.r.Path filePath then { f with content := data } else f)) := by
    intro data
    simp [osWriteFile, hfind, hd, hw]
  exact ⟨generateConflictContent w.r filePath e.content sourceBranch,
    by simp only [createConflictFile, hread, hwrite]⟩

/-- On a path that is no regular file that can be read and rewritten,
`createConflictFile` returns an error. -/
theorem createConflictFile_error (w : World) (filePath sourceBranch : GoString)
    (h : ¬ canRewrite w.fs (filepathJoin w.r.Path filePath)) :
    ∃ e, (createConflictFile w filePath sourceBranch).1 = .error e := by
  cases hres : createConflictFile w filePath sourceBranch with
  | mk res w1 =>
    cases res with
    | error e => exact ⟨e, rfl⟩
    | panic =>
      exfalso
      unfold createConflictFile at hres
      simp only at hres
      split at hres
      · cases hres
      · split at hres <;> cases hres
    | ok u =>
      exfalso
      apply h
      unfold createConflictFile at hres
      simp only at hres
      cases hread : osReadFile w.fs (filepathJoin w.r.Path filePath) with
      | error er =>
        rw [hread] at hres
        cases hres
      | ok c =>
        rw [hread] at hres
        simp only at hres
        cases hwrite : osWriteFile w.fs (filepathJoin w.r.Path filePath)
            (generateConflictContent w.r filePath c sourceBranch) with
        | error ew =>
          rw [hwrite] at hres
          cases hres
        | ok fs' =>
          unfold osReadFile at hread
          unfold osWriteFile at hwrite
          cases hfind : w.fs.find? (fun e => e.path == filepathJoin w.r.Path filePath) with
          | none =>
            rw [hfind] at hread
            cases hread
          | some e0 =>
            rw [hfind] at hread hwrite
            simp only at hread hwrite
            by_cases hd : e0.isDir = true
            · rw [if_pos hd] at hread
              cases hread
            · rw [if_neg hd] at hread hwrite
              by_cases hr : (!e0.readable) = true
              · rw [if_pos hr] at hread
                cases hread
              · by_cases hwr : (!e0.writable) = true
                · rw [if_pos hwr] at hwrite
                  cases hwrite
                · exact ⟨e0, hfind, by simpa using hd, by simpa using hr, by simpa using hwr⟩

/-- The loop of `generateConflictMarkers` ends at the first file on which
`createConflictFile` fails, with the error of that call. -/
theorem generateConflictMarkers_error (pre : List GoString) (p : GoString)
    (post : List GoString) (sourceBranch e : GoString) :
    ∀ w : World, (∀ q ∈ pre, canRewrite w.fs (filepathJoin w.r.Path q)) →
      (createConflictFile w p sourceBranch).1 = .error e →
      (generateConflictMarkers w (pre ++ p :: post) sourceBranch).1 =
        .error (go "为文件 " ++ p ++ go " 创建冲突标记失败: " ++ e) := by
  induction pre with
  | nil =>
    intro w _ he
    rw [List.nil_append, generateConflictMarkers]
    cases hres : createConflictFile w p sourceBranch with
    | mk res w1 =>
      rw [hres] at he
      simp only at he
      subst he
      rfl
  | cons q rest ih =>
    intro w hpre he
    obtain ⟨data, hq⟩ := createConflictFile_ok_world w q sourceBranch
      (hpre q (List.mem_cons_self _ _))
    rw [List.cons_append, generateConflictMarkers, hq]
    simp only
    apply ih
    · intro x hx
      exact canRewrite_map _ _ _ _ (hpre x (List.mem_cons_of_mem _ hx))
    · exact createConflictFile_error_map w _ (filepathJoin w.r.Path q) data p sourceBranch e rfl
        rfl he

/-- A list on which a property does not hold throughout has a first element on
which it fails. -/
theorem exists_first_failing {α : Type} (P : α → Prop) (l : List α) (h : ¬ ∀ x ∈ l, P x) :
    ∃ pre p post, l = pre ++ p :: post ∧ (∀ q ∈ pre, P q) ∧ ¬ P p := by
  induction l with
  | nil =>
    exfalso
    apply h
    intro x hx
    cases hx
  | cons a rest ih =>
    by_cases ha : P a
    · have hrest : ¬ ∀ x ∈ rest, P x := by
        intro hall
        apply h
        intro x hx
        rcases List.mem_cons.1 hx with rfl | hx
        · exact ha
        · exact hall x hx
      obtain ⟨pre, p, post, hl, hpre, hp⟩ := ih hrest
      refine ⟨a :: pre, p, post, by rw [hl]; rfl, ?_, hp⟩
      intro q hq
      rcases List.mem_cons.1 hq with rfl | hq
      · exact ha
      · exact hpre q hq
    · refine ⟨[], a, rest, rfl, ?_, ha⟩
      intro q hq
      cases hq

/-- C13 (counterexample): in `readOnlyScenario` conflict detection returns the
one path `conflict_file.txt`, the file cannot be rewritten, and `performMerge`
(and so `MergeBranch`) returns an error instead of a result with
`Success=false`. -/
theorem performMerge_readOnly_errors :
    detectConflicts readOnlyScenario (go "feature") (go "bbbbbbbb02") (go "aaaaaaaa01") =
        .ok [go "conflict_file.txt"] ∧
    (performMerge readOnlyScenario (go "feature") (go "bbbbbbbb02") (go "aaaaaaaa01")).1 =
        .error (go "生成冲突标记失败: 为文件 conflict_file.txt 创建冲突标记失败: 写入冲突标记失败: open /repo/conflict_file.txt: permission denied") ∧
    (MergeBranch readOnlyScenario (go "feature")).1 =
        .error (go "生成冲突标记失败: 为文件 conflict_file.txt 创建冲突标记失败: 写入冲突标记失败: open /repo/conflict_file.txt: permission denied") := by
  decide

/-- C13 (amended): when conflict detection returns a non-empty list,
`performMerge` stores no commit and changes no branch head (the repository is
left as it was) and rewrites at most the content of the conflicting
working-tree files, whether it succeeds or not; when each conflicting file
can be read and rewritten it completes without error, with `Success=false` and
`Conflicts` equal to the detected list; and otherwise it returns the error of
`createConflictFile` for the first conflicting file that cannot be read and
rewritten. -/
theorem performMerge_conflicts (w : World) (sourceBranch sourceHead currentHead : GoString)
    (conflicts : List GoString)
    (hdet : detectConflicts w sourceBranch sourceHead currentHead = .ok conflicts)
    (hne : conflicts ≠ []) :
    (performMerge w sourceBranch sourceHead currentHead).2.r = w.r ∧
    rewrittenOnly (conflicts.map (filepathJoin w.r.Path)) w.fs
      (performMerge w sourceBranch sourceHead currentHead).2.fs ∧
    ((∀ p ∈ conflicts, canRewrite w.fs (filepathJoin w.r.Path p)) →
      (performMerge w sourceBranch sourceHead currentHead).1 =
        .ok { Success := false, Conflicts := conflicts, MergedFiles := [],
              Message := go "合并失败，发现 " ++ go (toString conflicts.length) ++
                go " 个冲突" }) ∧
    ((¬ ∀ p ∈ conflicts, canRewrite w.fs (filepathJoin w.r.Path p)) →
      ∃ pre p post e, conflicts = pre ++ p :: post ∧
        (∀ q ∈ pre, canRewrite w.fs (filepathJoin w.r.Path q)) ∧
        ¬ canRewrite w.fs (filepathJoin w.r.Path p) ∧
        (createConflictFile w p sourceBranch).1 = .error e ∧
        (performMerge w sourceBranch sourceHead currentHead).1 =
          .error (go "生成冲突标记失败: " ++
            (go "为文件 " ++ p ++ go " 创建冲突标记失败: " ++ e))) := by
  have hlen : conflicts.length > 0 := List.length_pos.2 hne
  obtain ⟨hr, _, hfs⟩ := generateConflictMarkers_frame conflicts sourceBranch w
  have hok := generateConflictMarkers_ok conflicts sourceBranch w
  have herr : (¬ ∀ p ∈ conflicts, canRewrite w.fs (filepathJoin w.r.Path p)) →
      ∃ pre p post e, conflicts = pre ++ p :: post ∧
        (∀ q ∈ pre, canRewrite w.fs (filepathJoin w.r.Path q)) ∧
        ¬ canRewrite w.fs (filepathJoin w.r.Path p) ∧
        (createConflictFile w p sourceBranch).1 = .error e ∧
        (generateConflictMarkers w conflicts sourceBranch).1 =
          .error (go "为文件 " ++ p ++ go " 创建冲突标记失败: " ++ e) := by
    intro hnot
    obtain ⟨pre, p, post, hl, hpre, hp⟩ :=
      exists_first_failing (fun p => canRewrite w.fs (filepathJoin w.r.Path p)) conflicts hnot
    obtain ⟨e, he⟩ := createConflictFile_error w p sourceBranch hp
    refine ⟨pre, p, post, e, hl, hpre, hp, he, ?_⟩
    rw [hl]
    exact generateConflictMarkers_error pre p post sourceBranch e w hpre he
  unfold performMerge
  simp only [hdet, hlen, if_true]
  cases hres : generateConflictMarkers w conflicts sourceBranch with
  | mk res w1 =>
    rw [hres] at hr hfs hok herr
    simp only at hr hfs hok herr
    cases res with
    | error e =>
      refine ⟨hr, hfs, ?_, ?_⟩
      · intro h
        cases hok h
      · intro h
        obtain ⟨pre, p, post, e', hl, hpre, hp, he, hg⟩ := herr h
        cases hg
        exact ⟨pre, p, post, e', hl, hpre, hp, he, rfl⟩
    | panic =>
      refine ⟨hr, hfs, ?_, ?_⟩
      · intro h
        cases hok h
      · intro h
        obtain ⟨_, _, _, _, _, _, _, _, hg⟩ := herr h
        cases hg
    | ok u =>
      refine ⟨hr, hfs, fun _ => rfl, ?_⟩
      intro h
      obtain ⟨_, _, _, _, _, _, _, _, hg⟩ := herr h
      cases hg

/-- Witness for C13 (amended): the merge of `feature` in `namedScenario`, whose
`conflict_file.txt` can be read and rewritten, and in `readOnlyScenario`, whose
`conflict_file.txt` cannot be rewritten. -/
theorem performMerge_conflicts_witness :
    detectConflicts namedScenario (go "feature") (go "bbbbbbbb02") (go "aaaaaaaa01") =
        .ok [go "conflict_file.txt"] ∧
      (performMerge namedScenario (go "feature") (go "bbbbbbbb02") (go "aaaaaaaa01")).2.r =
        namedScenario.r ∧
      (performMerge namedScenario (go "feature") (go "bbbbbbbb02") (go "aaaaaaaa01")).1 =
        .ok { Success := false, Conflicts := [go "conflict_file.txt"], MergedFiles := [],
              Message := go "合并失败，发现 " ++ go (toString [go "conflict_file.txt"].length) ++
                go " 个冲突" } ∧
      ∃ pre p post e, [go "conflict_file.txt"] = pre ++ p :: post ∧
        (∀ q ∈ pre, canRewrite readOnlyScenario.fs (filepathJoin readOnlyScenario.r.Path q)) ∧
        ¬ canRewrite readOnlyScenario.fs (filepathJoin readOnlyScenario.r.Path p) ∧
        (createConflictFile readOnlyScenario p (go "feature")).1 = .error e ∧
        (performMerge readOnlyScenario (go "feature") (go "bbbbbbbb02") (go "aaaaaaaa01")).1 =
          .error (go "生成冲突标记失败: " ++
            (go "为文件 " ++ p ++ go " 创建冲突标记失败: " ++ e)) :=
  ⟨by decide,
    (performMerge_conflicts namedScenario (go "feature") (go "bbbbbbbb02") (go "aaaaaaaa01")
      [go "conflict_file.txt"] (by decide) (by decide)).1,
    (performMerge_conflicts namedScenario (go "feature") (go "bbbbbbbb02") (go "aaaaaaaa01")
      [go "conflict_file.txt"] (by decide) (by decide)).2.2.1 (by
        intro p hp
        rw [List.mem_singleton] at hp
        subst hp
        exact ⟨⟨go "/repo/conflict_file.txt", false, go "1", true, true⟩, by decide, rfl, rfl,
          rfl⟩),
    (performMerge_conflicts readOnlyScenario (go "feature") (go "bbbbbbbb02") (go "aaaaaaaa01")
      [go "conflict_file.txt"] (by decide) (by decide)).2.2.2 (by
        intro h
        obtain ⟨e, hfind, _, _, hw⟩ := h (go "conflict_file.txt") (List.mem_singleton.2 rfl)
        have hentry : readOnlyScenario.fs.find?
            (fun e => e.path == filepathJoin readOnlyScenario.r.Path (go "conflict_file.txt")) =
            some ⟨go "/repo/conflict_file.txt", false, go "1", true, false⟩ := by decide
        rw [hentry] at hfind
        cases hfind
        cases hw)⟩


/-! ## Claims on status, merge commit ids and remotes -/

/-- Whatever the working tree holds, `GetStatus` reports no modified and no
untracked file. -/
theorem GetStatus_lists_empty (w : World) :
    (GetStatus w).ModifiedFiles = [] ∧ (GetStatus w).UntrackedFiles = [] :=
  ⟨rfl, rfl⟩

/-- C21 (evaluation): in `modifiedScenario` the committed `f.txt` has been
rewritten and `new.txt` is in no commit, and `GetStatus` reports the last
commit but neither a modified nor an untracked path. -/
theorem GetStatus_modifiedScenario :
    (GetStatus modifiedScenario).LastCommit = go "1b6453892473a467" ∧
    modifiedScenario.fs.map (fun e => e.path) =
      [go "/repo", go "/repo/f.txt", go "/repo/new.txt"] ∧
    (GetStatus modifiedScenario).ModifiedFiles = [] ∧
    (GetStatus modifiedScenario).UntrackedFiles = [] := by
  decide

/-- C24 (evaluation): merging `feature` three times into `main` in
`conflictScenario`. The second and the third merge have different current tips
(`merge_bbbbbbbb_aaaaaaaa` and `merge_bbbbbbbb_merge_bb`), which share their
first 8 bytes, and `generateMergeCommitID` gives both merges the same id; the
commit of the third merge takes the place of that of the second and is its own
parent. -/
theorem merge_commit_ids_collide :
    generateMergeCommitID (go "bbbbbbbb02") (go "merge_bbbbbbbb_aaaaaaaa") =
        .ok (go "merge_bbbbbbbb_merge_bb") ∧
    generateMergeCommitID (go "bbbbbbbb02") (go "merge_bbbbbbbb_merge_bb") =
        .ok (go "merge_bbbbbbbb_merge_bb") ∧
    go "merge_bbbbbbbb_aaaaaaaa" ≠ go "merge_bbbbbbbb_merge_bb" ∧
    ((MergeBranch (MergeBranch conflictScenario (go "feature")).2 (go "feature")).2.r.Storage.commits.map
        (fun c => (c.ID, c.ParentID))).getLast? =
      some (go "merge_bbbbbbbb_merge_bb", go "merge_bbbbbbbb_aaaaaaaa") ∧
    (MergeBranch (MergeBranch (MergeBranch conflictScenario (go "feature")).2 (go "feature")).2
        (go "feature")).2.r.Storage.commits.map (fun c => (c.ID, c.ParentID)) =
      [ (go "base0000", go ""), (go "aaaaaaaa01", go "base0000"),
        (go "bbbbbbbb02", go "base0000"), (go "merge_bbbbbbbb_aaaaaaaa", go "aaaaaaaa01"),
        (go "merge_bbbbbbbb_merge_bb", go "merge_bbbbbbbb_merge_bb") ] := by
  decide

/-- On tips of at least 8 bytes `generateMergeCommitID` tells two pairs (source
tip, current tip) apart by the first 8 bytes of each component only: the ids
are equal if and only if the source tips agree on their first 8 bytes and the
current tips agree on their first 8 bytes. -/
theorem merge_commit_id_eq_iff (s c s' c' : GoString)
    (hs : 8 ≤ s.length) (hc : 8 ≤ c.length) (hs' : 8 ≤ s'.length) (hc' : 8 ≤ c'.length) :
    generateMergeCommitID s c = generateMergeCommitID s' c' ↔
      s.take 8 = s'.take 8 ∧ c.take 8 = c'.take 8 := by
  have e1 : generateMergeCommitID s c =
      .ok (go "merge_" ++ s.take 8 ++ go "_" ++ c.take 8) := by
    rw [generateMergeCommitID, if_neg (Nat.not_lt.2 hs), if_neg (Nat.not_lt.2 hc)]
  have e2 : generateMergeCommitID s' c' =
      .ok (go "merge_" ++ s'.take 8 ++ go "_" ++ c'.take 8) := by
    rw [generateMergeCommitID, if_neg (Nat.not_lt.2 hs'), if_neg (Nat.not_lt.2 hc')]
  rw [e1, e2]
  constructor
  · intro h
    simp only [Result.ok.injEq, List.append_assoc] at h
    have h1 := List.append_cancel_left h
    have hlen : (s.take 8).length = (s'.take 8).length := by
      rw [List.length_take, List.length_take, Nat.min_eq_left hs, Nat.min_eq_left hs']
    obtain ⟨ha, hb⟩ := List.append_inj h1 hlen
    exact ⟨ha, List.append_cancel_left hb⟩
  · rintro ⟨h1, h2⟩
    rw [h1, h2]

/-- An instance of `merge_commit_id_eq_iff`: the tips of the second and the
third merge of `feature` in `conflictScenario`. -/
theorem merge_commit_id_eq_iff_witness :
    8 ≤ (go "bbbbbbbb02").length ∧ 8 ≤ (go "merge_bbbbbbbb_aaaaaaaa").length ∧
      8 ≤ (go "merge_bbbbbbbb_merge_bb").length ∧
      (generateMergeCommitID (go "bbbbbbbb02") (go "merge_bbbbbbbb_aaaaaaaa") =
          generateMergeCommitID (go "bbbbbbbb02") (go "merge_bbbbbbbb_merge_bb") ↔
        (go "bbbbbbbb02").take 8 = (go "bbbbbbbb02").take 8 ∧
          (go "merge_bbbbbbbb_aaaaaaaa").take 8 = (go "merge_bbbbbbbb_merge_bb").take 8) :=
  ⟨by decide, by decide, by decide,
    merge_commit_id_eq_iff (go "bbbbbbbb02") (go "merge_bbbbbbbb_aaaaaaaa") (go "bbbbbbbb02")
      (go "merge_bbbbbbbb_merge_bb") (by decide) (by decide) (by decide) (by decide)⟩

/-- An `https://` URL that contains `github.com` and splits into exactly four
parts at `/` makes the URL parsing panic on `parts[4]`. -/
theorem githubFullName_four_parts (url : GoString)
    (h1 : Contains url (go "github.com") = true) (h2 : HasPrefix url (go "https://") = true)
    (h3 : (Split url 47).length = 4) : githubFullName url = .panic := by
  have hlen : (Split url 47).length ≥ 4 := by omega
  have h4 : (Split url 47)[4]? = none := by
    rw [List.getElem?_eq_none]
    omega
  obtain ⟨p3, hp3⟩ : ∃ p3, (Split url 47)[3]? = some p3 := by
    have : 3 < (Split url 47).length := by omega
    exact ⟨_, List.getElem?_eq_getElem this⟩
  simp only [githubFullName, h1, h2, if_true, hlen, hp3, h4]

/-- C25 (evaluation): for the remote `short` of `remotesScenario`, whose URL
`https://github.com/owner` splits into the four parts `https:`, the empty part,
`github.com` and `owner`, `parseGitHubRemote` panics on `parts[4]`; the remote
`origin` is parsed to `owner/repo`, and the `git@` URL with the owner only gets
the cannot-parse error. -/
theorem parseGitHubRemote_short_url_panics :
    Split (go "https://github.com/owner") 47 = [go "https:", go "", go "github.com", go "owner"] ∧
    parseGitHubRemote remotesScenario (go "short") = .panic ∧
    parseGitHubRemote remotesScenario (go "origin") =
      .ok { FullName := go "owner/repo", CloneURL := go "https://github.com/owner/repo.git",
            SSHURL := go "", DefaultBranch := go "" } ∧
    parseGitHubRemote remotesScenario (go "ssh") =
      .error (go "无法解析GitHub仓库信息: git@github.com:owner") := by
  decide

/-- C26: `generateMergeCommitID(s, c)` returns an id if and only if `s` and `c`
both have at least 8 bytes, and the id is then `merge_`, the first 8 bytes of
`s`, `_`, the first 8 bytes of `c`; with a shorter head the slice expression
panics, `autoMerge` panics before anything is stored, and a merge that finds no
conflict leaves the world as it was, without a commit. -/
theorem generateMergeCommitID_defined (s c : GoString) :
    ((∃ id, generateMergeCommitID s c = .ok id) ↔ (8 ≤ s.length ∧ 8 ≤ c.length)) ∧
    (8 ≤ s.length ∧ 8 ≤ c.length →
      generateMergeCommitID s c = .ok (go "merge_" ++ s.take 8 ++ go "_" ++ c.take 8)) ∧
    (s.length < 8 ∨ c.length < 8 →
      generateMergeCommitID s c = .panic ∧
      (∀ (w : World) (sourceBranch : GoString), autoMerge w sourceBranch s c = (.panic, w)) ∧
      (∀ (w : World) (sourceBranch : GoString),
        w.r.Storage.GetBranchHead sourceBranch = .ok s →
        w.r.Storage.GetBranchHead w.r.CurrentBranch = .ok c →
        IsStagingEmpty w.r = true →
        detectConflicts w sourceBranch s c = .ok [] →
        MergeBranch w sourceBranch = (.panic, w))) := by
  have hok : 8 ≤ s.length ∧ 8 ≤ c.length →
      generateMergeCommitID s c = .ok (go "merge_" ++ s.take 8 ++ go "_" ++ c.take 8) := by
    rintro ⟨hs, hc⟩
    rw [generateMergeCommitID, if_neg (Nat.not_lt.2 hs), if_neg (Nat.not_lt.2 hc)]
  have hpanic : s.length < 8 ∨ c.length < 8 → generateMergeCommitID s c = .panic := by
    intro h
    rw [generateMergeCommitID]
    by_cases hs : s.length < 8
    · rw [if_pos hs]
    · rw [if_neg hs, if_pos (h.resolve_left hs)]
  refine ⟨⟨?_, fun h => ⟨_, hok h⟩⟩, hok, fun h => ⟨hpanic h, ?_, ?_⟩⟩
  · rintro ⟨id, hid⟩
    by_contra hn
    have : s.length < 8 ∨ c.length < 8 := by omega
    rw [hpanic this] at hid
    cases hid
  · intro w sourceBranch
    simp only [autoMerge, hpanic h]
  · intro w sourceBranch hsrc hcur hst hdet
    simp only [MergeBranch, hsrc, hcur, hst, Bool.not_true, Bool.false_eq_true, if_false,
      performMerge, hdet, List.length_nil, gt_iff_lt, Nat.lt_irrefl, autoMerge, hpanic h]

/-- Witness for C26: `CreateBranch("feature")` right after `InitRepository`
gives `freshScenario`, where `feature` has the empty head, and merging it
panics without a commit. -/
theorem generateMergeCommitID_defined_witness :
    CreateBranch initScenario (go "feature") = (.ok (), freshScenario) ∧
      ((go "").length < 8 ∨ (go "").length < 8) ∧
      generateMergeCommitID (go "") (go "") = .panic ∧
      MergeBranch freshScenario (go "feature") = (.panic, freshScenario) :=
  ⟨by decide, by decide,
    ((generateMergeCommitID_defined (go "") (go "")).2.2 (by decide)).1,
    ((generateMergeCommitID_defined (go "") (go "")).2.2 (by decide)).2.2 freshScenario
      (go "feature") rfl rfl (by decide) (by decide)⟩



/-! ## Claims on "theirs" for a file without conflict markers -/

theorem extractTheirsLoop_false_nil (xs : List GoString)
    (h : ∀ l ∈ xs, HasPrefix l (go "=======") = false) : extractTheirsLoop false xs = [] := by
  induction xs with
  | nil => rfl
  | cons x xs ih =>
    have hx := h x (List.mem_cons_self _ _)
    rw [extractTheirsLoop, if_neg (by rw [hx]; decide)]
    split
    · rfl
    · simp only [Bool.false_eq_true, if_false]
      exact ih (fun l hl => h l (List.mem_cons_of_mem _ hl))

/-- C27 (counterexample): `notes.txt` of `readOnlyNotesScenario` has no line
beginning with `=======` and is read-only; `ResolveConflict` with "theirs"
returns the error of `os.WriteFile` and the file keeps its content. -/
theorem ResolveConflict_theirs_readOnly :
    (∀ l ∈ Split (go "hello\nworld") NL, HasPrefix l (go "=======") = false) ∧
    ResolveConflict readOnlyNotesScenario (go "notes.txt") (go "theirs") =
      (.error (go "写入解决后的内容失败: open /repo/notes.txt: permission denied"),
        readOnlyNotesScenario) := by
  decide

/-- C27 (amended): for every file content with no line beginning with
`=======`, `extractTheirsContent` returns the empty string; so on a file with
such a content that can be read and rewritten, `ResolveConflict` with "theirs"
succeeds and leaves the file with empty content (every other file as it
was); and when the file can be read but not rewritten, `ResolveConflict`
returns the error of `os.WriteFile` and the world, the file with its content
included, is as it was. -/
theorem theirs_on_unconflicted (content : GoString)
    (h : ∀ l ∈ Split content NL, HasPrefix l (go "=======") = false) :
    extractTheirsContent content = [] ∧
    (∀ (w : World) (filePath : GoString) (e : FileEntry),
      w.fs.find? (fun e => e.path == filepathJoin w.r.Path filePath) = some e →
      e.isDir = false → e.readable = true → e.writable = true → e.content = content →
      ResolveConflict w filePath (go "theirs") =
        (.ok (), { w with fs := w.fs.map (fun f =>
          if f.path == filepathJoin w.r.Path filePath then { f with content := [] } else f) })) ∧
    (∀ (w : World) (filePath : GoString) (e : FileEntry),
      w.fs.find? (fun e => e.path == filepathJoin w.r.Path filePath) = some e →
      e.isDir = false → e.readable = true → e.writable = false → e.content = content →
      ResolveConflict w filePath (go "theirs") =
        (.error (go "写入解决后的内容失败: " ++
          (go "open " ++ filepathJoin w.r.Path filePath ++ go ": permission denied")), w)) := by
  have hempty : extractTheirsContent content = [] := by
    rw [extractTheirsContent, extractTheirsLoop_false_nil _ h]
    rfl
  have hparse : parseConflictResolution content (go "theirs") = .ok [] := by
    rw [parseConflictResolution, if_neg (by decide), if_pos rfl, hempty]
  refine ⟨hempty, ?_, ?_⟩
  · intro w filePath e hfind hd hr hw hc
    have hread : osReadFile w.fs (filepathJoin w.r.Path filePath) = .ok content := by
      simp [osReadFile, hfind, hd, hr, hc]
    have hwrite : osWriteFile w.fs (filepathJoin w.r.Path filePath) [] =
        .ok (w.fs.map (fun f =>
          if f.path == filepathJoin w.r.Path filePath then { f with content := [] } else f)) := by
      simp [osWriteFile, hfind, hd, hw]
    simp only [ResolveConflict, hread, hparse, hwrite]
  · intro w filePath e hfind hd hr hw hc
    have hread : osReadFile w.fs (filepathJoin w.r.Path filePath) = .ok content := by
      simp [osReadFile, hfind, hd, hr, hc]
    have hwrite : osWriteFile w.fs (filepathJoin w.r.Path filePath) [] =
        .error (go "open " ++ filepathJoin w.r.Path filePath ++ go ": permission denied") := by
      simp only [osWriteFile, hfind, hd, hw]
      rfl
    simp only [ResolveConflict, hread, hparse, hwrite]

/-- Witness for C27 (amended): the writable `notes.txt` of `notesScenario` and
the read-only `notes.txt` of `readOnlyNotesScenario`. -/
theorem theirs_on_unconflicted_witness :
    (∀ l ∈ Split (go "hello\nworld") NL, HasPrefix l (go "=======") = false) ∧
      extractTheirsContent (go "hello\nworld") = [] ∧
      ResolveConflict notesScenario (go "notes.txt") (go "theirs") =
        (.ok (), { notesScenario with fs := notesScenario.fs.map (fun f =>
          if f.path == filepathJoin notesScenario.r.Path (go "notes.txt") then
            { f with content := [] } else f) }) ∧
      ResolveConflict readOnlyNotesScenario (go "notes.txt") (go "theirs") =
        (.error (go "写入解决后的内容失败: " ++
          (go "open " ++ filepathJoin readOnlyNotesScenario.r.Path (go "notes.txt") ++
            go ": permission denied")), readOnlyNotesScenario) :=
  ⟨by decide, (theirs_on_unconflicted (go "hello\nworld") (by decide)).1,
    (theirs_on_unconflicted (go "hello\nworld") (by decide)).2.1 notesScenario (go "notes.txt")
      ⟨go "/repo/notes.txt", false, go "hello\nworld", true, true⟩ (by decide) rfl rfl rfl rfl,
    (theirs_on_unconflicted (go "hello\nworld") (by decide)).2.2 readOnlyNotesScenario
      (go "notes.txt") ⟨go "/repo/notes.txt", false, go "hello\nworld", true, false⟩
      (by decide) rfl rfl rfl rfl⟩

/-! ## Claims on staging a directory -/

/-- The walk of `addDirectory` ends at the first file whose staging fails: the
error is returned and the entries after the file are not visited. -/
theorem addDirectoryLoop_failure (w w1 : World) (skipped : List GoString) (e : FileEntry)
    (rest : List FileEntry) (err : GoString)
    (hvisit : skipped.any (fun d => HasPrefix e.path (d ++ go "/")) = false)
    (hfile : e.isDir = false) (hname : HasPrefix (filepathBase e.path) (go ".") = false)
    (hfail : AddToStaging w e.path = (.error err, w1)) :
    addDirectoryLoop w skipped (e :: rest) = (.error err, w1) := by
  simp [addDirectoryLoop, hvisit, hfile, hname, hfail]

/-- Whenever the walk of `addDirectory` ends without error, the world it leaves
is the one in which exactly the files of `stagedFiles` have been staged, in walk
order. -/
theorem addDirectoryLoop_eq_stageAll (entries : List FileEntry) :
    ∀ (w : World) (skipped : List GoString),
      (addDirectoryLoop w skipped entries).1 = .ok () →
      (addDirectoryLoop w skipped entries).2 = stageAll w (stagedFiles skipped entries) := by
  induction entries with
  | nil => intro w skipped _; rfl
  | cons e rest ih =>
    intro w skipped h
    by_cases h1 : skipped.any (fun d => HasPrefix e.path (d ++ go "/")) = true
    · simp only [addDirectoryLoop, stagedFiles, h1, if_true] at h ⊢
      exact ih w skipped h
    · by_cases h2 : e.isDir = true
      · by_cases h3 : e.readable = true
        · by_cases h4 : skipsDir e.path = true
          · simp [addDirectoryLoop, stagedFiles, h1, h2, h3, h4] at h ⊢
            exact ih w (e.path :: skipped) (by simpa using h)
          · simp [addDirectoryLoop, stagedFiles, h1, h2, h3, h4] at h ⊢
            exact ih w skipped (by simpa using h)
        · simp [addDirectoryLoop, h1, h2, h3] at h
      · by_cases h5 : HasPrefix (filepathBase e.path) (go ".") = true
        · simp [addDirectoryLoop, stagedFiles, h1, h2, h5] at h ⊢
          exact ih w skipped (by simpa using h)
        · cases hs : AddToStaging w e.path with
          | mk res w1 =>
            cases res with
            | ok u =>
              simp [addDirectoryLoop, stagedFiles, stageAll, h1, h2, h5, hs] at h ⊢
              exact ih w1 skipped (by simpa using h)
            | error msg => simp [addDirectoryLoop, h1, h2, h5, hs] at h
            | panic => simp [addDirectoryLoop, h1, h2, h5, hs] at h

/-- C22 (evaluation): in a repository with an unreadable file
`a.txt` and a readable file `b.txt`, staging the directory stops at `a.txt`:
`addDirectory` returns the error of `a.txt` and leaves the index empty, although
`b.txt`, visited after it, can be staged; the command still returns nil. Given
the two files as arguments, the loop of the command warns about `a.txt` and
stages `b.txt`. -/
theorem addDirectory_stops_at_first_failure :
    (unreadableScenario.fs.map (fun e => e.path)
        = [go "/repo", go "/repo/a.txt", go "/repo/b.txt"])
    ∧ unreadableScenario.r.Storage.staging = some []
    ∧ (AddToStaging unreadableScenario (go "/repo/a.txt")).1
        = .error (go "计算文件哈希失败: 打开文件失败: open /repo/a.txt: permission denied")
    ∧ (AddToStaging unreadableScenario (go "/repo/b.txt")).1 = .ok ()
    ∧ addDirectory unreadableScenario (go "/repo") (go "/repo")
        = (.error (go "计算文件哈希失败: 打开文件失败: open /repo/a.txt: permission denied"),
            unreadableScenario)
    ∧ addCmdRunE unreadableScenario [go "/repo"] = (.ok (), unreadableScenario)
    ∧ (addCmdRunE unreadableScenario [go "/repo/a.txt", go "/repo/b.txt"]).1 = .ok ()
    ∧ (addCmdRunE unreadableScenario
          [go "/repo/a.txt", go "/repo/b.txt"]).2.r.Storage.staging
        = some [(go "b.txt", go "e9d71f5ee7c92d6dc9e92ffdad17b8bd49418f98")] := by
  decide

/-- C23 (evaluation): the walk skips every directory whose path
ends in `.cit`, not only the metadata directory. In a repository with the
regular file `notes.cit/a.txt`, whose name does not begin with a dot and which
is not under the metadata directory `/repo/.cit`, staging the repository
directory succeeds and stages the file in a hidden directory and the file in
`src`, but not `notes.cit/a.txt`, although that file can be staged by itself. -/
theorem addDirectory_skips_cit_suffix_dir :
    (dirsScenario.fs.map (fun e => (e.path, e.isDir))
        = [ (go "/repo", true), (go "/repo/.cit", true)
          , (go "/repo/.cit/repository.json", false), (go "/repo/.env", false)
          , (go "/repo/.hidden", true), (go "/repo/.hidden/h.txt", false)
          , (go "/repo/notes.cit", true), (go "/repo/notes.cit/a.txt", false)
          , (go "/repo/src", true), (go "/repo/src/m.go", false) ])
    ∧ HasPrefix (filepathBase (go "/repo/notes.cit/a.txt")) (go ".") = false
    ∧ HasPrefix (go "/repo/notes.cit/a.txt") (go "/repo/.cit/") = false
    ∧ skipsDir (go "/repo/notes.cit") = true
    ∧ (addDirectory dirsScenario (go "/repo") (go ".")).1 = .ok ()
    ∧ (addDirectory dirsScenario (go "/repo") (go ".")).2.r.Storage.staging
        = some [ (go ".hidden/h.txt", go "27d5482eebd075de44389774fce28c69f45c8a75")
               , (go "src/m.go", go "6b0d31c0d563223024da45691584643ac78c96e8") ]
    ∧ (stagedFiles [] dirsScenario.fs).map (fun e => e.path)
        = [go "/repo/.hidden/h.txt", go "/repo/src/m.go"]
    ∧ (AddToStaging dirsScenario (go "/repo/notes.cit/a.txt")).1 = .ok ()
    ∧ (AddToStaging dirsScenario (go "/repo/notes.cit/a.txt")).2.r.Storage.staging
        = some [(go "notes.cit/a.txt", go "86f7e437faa5a7fce15d1ddcb9eaeaea377667b8")] := by
  decide

end Cit
